import Mathlib

/-!
# LeanixOS: block devices, FAT12, the VFS, lists, bitmaps and paging macros

A shallow embedding of `driver/block.c`, `fs/fat12.c`, `fs/vfs.c` and
`libc/kernel/list.c`, of the inline functions and macros of `kernel/bitmap.h`,
`mm/pte.h`, `mm/pde.h`, `mm/vmm.h` and `utils.h`, of `fdc_lba_to_chs` of
`driver/fdc.c`, and of the superblock layout of `fs/hfs.h`.

Conventions of the embedding

* memory buffers are lists of byte values (`Buf`), C strings are the list of
  characters in front of the terminating NUL (`CStr`);
* a pointer that may be `NULL` is an `Option`;
* machine integers are `Nat`/`Int`, reduced modulo `2 ^ 32` (or `2 ^ 16`) at
  the places where the C code can wrap;
* a function returns `none` when the C code would leave defined behaviour
  (division by zero, access outside an object, call through a null pointer).
-/

namespace LeanixOS

/-! ## Definitions -/

/-- A memory buffer: a sequence of byte values. -/
abbrev Buf := List Nat

/-- The contents of a C string: the characters in front of the NUL. -/
abbrev CStr := List Char

/-! ### driver/block.c -/

/-- One call into a driver, recorded so that dispatch is observable. -/
inductive DrvCall where
  | read (priv lba : Nat)
  | write (priv lba : Nat)
deriving DecidableEq, Repr

/-- The operations table of a block device (`block_device_ops_t`). A missing
operation is `none`. `read priv lba buffer` gives the driver's return value and
the buffer as the driver leaves it; `write priv lba buffer` gives the return
value. -/
structure block_device_ops_t where
  read : Option (Nat → Nat → Buf → Int × Buf)
  write : Option (Nat → Nat → Buf → Int)

/-- A registered block device (`block_device_t`). -/
structure block_device_t where
  name : CStr
  block_size : Nat
  num_blocks : Nat
  driver_private : Nat
  ops : Option block_device_ops_t

/-- The module state of `block.c`: the device array (`NULL` until the first
registration), `num_block_devices` and `max_block_devices`. -/
structure Registry where
  block_devices : Option (List (Option block_device_t))
  num_block_devices : Nat
  max_block_devices : Nat

/-- The static initialisers of `block.c`. -/
def Registry.init : Registry :=
  { block_devices := none, num_block_devices := 0, max_block_devices := 16 }

/-- The loop of `blkdev_register` that looks for a device called `name` among
the first `n` entries of the array. -/
def name_taken (tbl : List (Option block_device_t)) (n : Nat) (name : CStr) : Bool :=
  (tbl.take n).any fun e =>
    match e with
    | some d => decide (d.name = name)
    | none => false

/-- The part of `blkdev_register` after the first-use initialisation: the
capacity check, the allocation of the device record, the scan for a duplicate
name, and the store into slot `num_block_devices`. -/
def register_device (r : Registry) (tbl : List (Option block_device_t)) (name : CStr)
    (block_size num_blocks : Nat) (ops : Option block_device_ops_t)
    (driver_private : Nat) (malloc_dev : Bool) : Int × Registry :=
  if r.num_block_devices ≥ r.max_block_devices then (-1, r)
  else if !malloc_dev then (-1, r)
  else if name_taken tbl r.num_block_devices name then (-1, r)
  else
    let dev : block_device_t :=
      { name := name, block_size := block_size, num_blocks := num_blocks,
        driver_private := driver_private, ops := ops }
    (0, { r with
            block_devices := some (tbl.set r.num_block_devices (some dev)),
            num_block_devices := r.num_block_devices + 1 })

/-- `blkdev_register`. `malloc_table` and `malloc_dev` say whether the two
allocations (the device array on first use, the device record) succeed. The
result is the return value and the module state afterwards. -/
def blkdev_register (r : Registry) (name : CStr) (block_size num_blocks : Nat)
    (ops : Option block_device_ops_t) (driver_private : Nat)
    (malloc_table malloc_dev : Bool) : Int × Registry :=
  match r.block_devices with
  | none =>
    if malloc_table then
      register_device
        { block_devices := some (List.replicate 16 none),
          num_block_devices := 0, max_block_devices := 16 }
        (List.replicate 16 none) name block_size num_blocks ops driver_private malloc_dev
    else
      (-1, { block_devices := none, num_block_devices := 0, max_block_devices := 16 })
  | some tbl =>
    register_device r tbl name block_size num_blocks ops driver_private malloc_dev

/-- Entry `i` of the registry, `none` for a null entry, an index at or above
`num_block_devices`, or an array that was never allocated. -/
def Registry.entry (r : Registry) (i : Nat) : Option block_device_t :=
  match r.block_devices with
  | none => none
  | some tbl => if i < r.num_block_devices then (tbl.getD i none) else none

/-- The invariant of the registry that `blkdev_register` maintains. -/
structure Registry.Inv (r : Registry) : Prop where
  max_eq : r.max_block_devices = 16
  null_empty : r.block_devices = none → r.num_block_devices = 0
  len_eq : ∀ tbl, r.block_devices = some tbl → tbl.length = 16
  count_le : r.num_block_devices ≤ 16
  filled : ∀ i, i < r.num_block_devices → (r.entry i).isSome = true
  names_unique : ∀ i j d e, r.entry i = some d → r.entry j = some e →
    d.name = e.name → i = j

/-- The registry states that arise from the initial one through calls of
`blkdev_register`, with any arguments and any allocation outcomes. -/
inductive Registry.Reachable : Registry → Prop
  | init : Registry.Reachable Registry.init
  | register (r : Registry) (name : CStr) (block_size num_blocks : Nat)
      (ops : Option block_device_ops_t) (driver_private : Nat)
      (malloc_table malloc_dev : Bool) :
      Registry.Reachable r →
      Registry.Reachable
        (blkdev_register r name block_size num_blocks ops driver_private
          malloc_table malloc_dev).2

/-- What a call of `blkread` or `blkwrite` yields: the return value, the buffer
afterwards, and the driver calls that were made. -/
structure BlkResult where
  ret : Int
  buf : Buf
  calls : List DrvCall

/-- `blkread`. -/
def blkread (dev : Option block_device_t) (lba : Nat) (buffer : Buf) : BlkResult :=
  match dev with
  | none => { ret := -1, buf := buffer, calls := [] }
  | some d =>
    match d.ops with
    | none => { ret := -1, buf := buffer, calls := [] }
    | some ops =>
      match ops.read with
      | none => { ret := -1, buf := buffer, calls := [] }
      | some rd =>
        if lba ≥ d.num_blocks then { ret := -1, buf := buffer, calls := [] }
        else
          { ret := (rd d.driver_private lba buffer).1,
            buf := (rd d.driver_private lba buffer).2,
            calls := [DrvCall.read d.driver_private lba] }

/-- `blkwrite`. The buffer is only read by the driver. -/
def blkwrite (dev : Option block_device_t) (lba : Nat) (buffer : Buf) : BlkResult :=
  match dev with
  | none => { ret := -1, buf := buffer, calls := [] }
  | some d =>
    match d.ops with
    | none => { ret := -1, buf := buffer, calls := [] }
    | some ops =>
      match ops.write with
      | none => { ret := -1, buf := buffer, calls := [] }
      | some wr =>
        if lba ≥ d.num_blocks then { ret := -1, buf := buffer, calls := [] }
        else
          { ret := wr d.driver_private lba buffer,
            buf := buffer,
            calls := [DrvCall.write d.driver_private lba] }

/-- The loop of `blkdev_get_by_name` over the entries of the array: the first
non-null entry whose name is `name`. -/
def find_device (name : CStr) : List (Option block_device_t) → Option block_device_t
  | [] => none
  | none :: rest => find_device name rest
  | some d :: rest => if d.name = name then some d else find_device name rest

/-- `blkdev_get_by_name`. The outer `none` stands for a null array that is
indexed because `num_block_devices` is not 0. -/
def blkdev_get_by_name (r : Registry) (name : Option CStr) :
    Option (Option block_device_t) :=
  match name with
  | none => some none
  | some name =>
    match r.block_devices with
    | none => if r.num_block_devices = 0 then some none else none
    | some tbl => some (find_device name (tbl.take r.num_block_devices))

/-- `blkdev_get_block_size`. -/
def blkdev_get_block_size (dev : Option block_device_t) : Nat :=
  match dev with
  | none => 0
  | some d => d.block_size

/-- `blkdev_get_num_blocks`. -/
def blkdev_get_num_blocks (dev : Option block_device_t) : Nat :=
  match dev with
  | none => 0
  | some d => d.num_blocks

/-- The arguments of one call of `blkdev_register`, with the outcomes of its
two allocations. -/
structure RegisterCall where
  name : CStr
  block_size : Nat
  num_blocks : Nat
  ops : Option block_device_ops_t
  driver_private : Nat
  malloc_table : Bool
  malloc_dev : Bool

/-- The call `c` of `blkdev_register` in the state `r`. -/
def RegisterCall.run (c : RegisterCall) (r : Registry) : Int × Registry :=
  blkdev_register r c.name c.block_size c.num_blocks c.ops c.driver_private
    c.malloc_table c.malloc_dev

/-- The device record that the call `c` stores when it succeeds. -/
def RegisterCall.device (c : RegisterCall) : block_device_t :=
  { name := c.name, block_size := c.block_size, num_blocks := c.num_blocks,
    driver_private := c.driver_private, ops := c.ops }

/-- The registry after the calls `calls`, in this order, from the state `r`. -/
def Registry.after (r : Registry) (calls : List RegisterCall) : Registry :=
  calls.foldl (fun r c => (c.run r).2) r

/-! ### fs/vfs.h and fs/fat12.h: constants and data -/

def FAT12_VID : Nat := 0x08
def FAT12_DIR : Nat := 0x10
def FAT12_CLUSTER_MASK : Nat := 0xFFF
def FAT12_EOC_MIN : Nat := 0xFF8
def FAT12_DELETED : Nat := 0xE5
def FAT12_ENDDIR : Nat := 0x00

/-- The BIOS parameter block (`fat12_bpb_t`), without the jump bytes and the
OEM name. -/
structure fat12_bpb_t where
  bytes_per_sector : Nat
  sectors_per_cluster : Nat
  rsrvd_cnt : Nat
  num_fats : Nat
  max_root_dir_entries : Nat
  total_sectors : Nat
  media_descriptor : Nat
  sectors_per_fat : Nat
  sectors_per_track : Nat
  num_heads : Nat
  hidden_sectors : Nat
  total_sectors_large : Nat
deriving DecidableEq, Repr

/-- A directory entry (`fat12_dir_entry_t`, 32 bytes, packed). -/
structure fat12_dir_entry_t where
  filename : List Nat
  extension : List Nat
  attributes : Nat
  reserved : Nat
  create_time_tenth : Nat
  create_time : Nat
  create_date : Nat
  last_access_date : Nat
  first_cluster_high : Nat
  last_write_time : Nat
  last_write_date : Nat
  first_cluster_low : Nat
  file_size : Nat
deriving DecidableEq, Repr

/-- A mounted FAT12 volume (`fat12_handle_t`): the boot sector fields, the
geometry computed at mount time, the FAT and the device. The pointer to the
extended boot record is not used by the functions embedded here and is left
out. -/
structure fat12_handle_t where
  bpb : fat12_bpb_t
  fat_start : Nat
  root_dir_start : Nat
  root_dir_sectors : Nat
  data_area_start : Nat
  fat_table : Buf
  block_dev : Option block_device_t

/-- The private data of a FAT12 vnode (`inode`). -/
structure inode where
  dir_entry : fat12_dir_entry_t
  dir_sector : Nat
  dir_offset : Nat
deriving DecidableEq, Repr

inductive vnode_type_t where
  | V_FILE
  | V_DIRECTORY
  | V_CHARDEVICE
  | V_BLOCKDEVICE
  | V_PIPE
  | V_SOCKET
  | V_SYMLINK
deriving DecidableEq, Repr

/-- A pointer to one of the two filesystem type objects that `vfs.c` knows. -/
inductive fs_type_ref where
  | fat12_fs_type
  | hfs_fs_type
deriving DecidableEq, Repr

/-- A pointer to a vnode operations table: the table of `fat12.c`, or a table
defined by another backend. -/
inductive vnode_ops_ref where
  | fat12_vnode_ops
  | other (id : Nat)
deriving DecidableEq, Repr

/-- What `vfs.fs_data` points to: a FAT12 handle, or the private data of
another backend. -/
inductive fs_private where
  | fat12 (fs : fat12_handle_t)
  | other (id : Nat)

/-- What `vnode.data` points to: a FAT12 inode, or the private data of another
backend. -/
inductive vnode_private where
  | fat12 (i : inode)
  | other (id : Nat)
deriving DecidableEq, Repr

/-- The filesystem instance as a vnode sees it through `vfs_ptr` or
`vfs_mountedhere`. The two vnode pointers of the instance, which would close a
cycle, are not part of this view. -/
structure vfs_link where
  type : Option fs_type_ref
  fs_data : Option fs_private

/-- A vnode (`struct _vfs_node`). `name` holds the characters stored in the
28-byte array. -/
structure vnode where
  name : CStr
  vfs_mountedhere : Option vfs_link
  vfs_ptr : Option vfs_link
  type : vnode_type_t
  ops : Option vnode_ops_ref
  flags : Nat
  data : Option vnode_private

/-- A mounted filesystem instance (`struct _vfs_fs`). -/
structure vfs where
  type : Option fs_type_ref
  vcovered : Option vnode
  vroot : Option vnode
  fs_data : Option fs_private

/-- The view of a filesystem instance that its vnodes hold. -/
def vfs.link (v : vfs) : vfs_link :=
  { type := v.type, fs_data := v.fs_data }

/-- An open file (`file_t`). -/
structure file_t where
  vnode_ptr : Option vnode
  f_offset : Nat
  f_flags : Nat

/-! ### fs/fat12.c -/

/-- The value of a 32-bit pattern read as `int32_t`. -/
def toInt32 (n : Nat) : Int :=
  if n % 2 ^ 32 < 2 ^ 31 then (n % 2 ^ 32 : Nat) else (n % 2 ^ 32 : Nat) - 2 ^ 32

/-- `_fat12_get_fentry`: the 16-bit little-endian word at byte offset
`(cluster * 3) / 2` of the FAT, shifted or masked to the 12-bit entry. `none`
when the two bytes are not inside the table. -/
def _fat12_get_fentry (fs : fat12_handle_t) (cluster : Nat) : Option Nat :=
  let fat_offset := (cluster * 3) / 2
  match fs.fat_table[fat_offset]?, fs.fat_table[fat_offset + 1]? with
  | some lo, some hi =>
    let entry := lo + 256 * hi
    let entry := if cluster &&& 0x1 ≠ 0 then entry >>> 4 else entry &&& 0x0FFF
    some (entry &&& FAT12_CLUSTER_MASK)
  | _, _ => none

/-- `_fat12_cluster_to_lba`. -/
def _fat12_cluster_to_lba (fs : fat12_handle_t) (cluster : Nat) : Nat :=
  if cluster < 2 then 0
  else (fs.data_area_start + (cluster - 2) * fs.bpb.sectors_per_cluster) % 2 ^ 32

/-- `memcpy (dst + doff, src + soff, n)`; `none` when a range leaves its
buffer. -/
def memcpy (dst : Buf) (doff : Nat) (src : Buf) (soff n : Nat) : Option Buf :=
  if soff + n ≤ src.length ∧ doff + n ≤ dst.length then
    some (dst.take doff ++ (src.drop soff).take n ++ dst.drop (doff + n))
  else none

/-- The `while` loop of `fat12_read`. `remaining` is
`clusters_to_read - cluster_count`, so the loop condition
`cluster_count < clusters_to_read` is `remaining ≠ 0`. The result is the
caller's buffer after the loop, or `none` when an access leaves its object. -/
def fat12_read_loop (fs : fat12_handle_t) (offs size bytes_per_cluster
    offset_in_cluster clusters_to_read : Nat) :
    (remaining cluster_count curr_cluster bytes_read : Nat) → (read_buf buf : Buf) →
    Option Buf
  | 0, _, _, _, _, buf => some buf
  | remaining + 1, cluster_count, curr_cluster, bytes_read, read_buf, buf =>
    match _fat12_get_fentry fs curr_cluster with
    | none => none
    | some fentry =>
      let lba := _fat12_cluster_to_lba fs curr_cluster
      let read_buf := (blkread fs.block_dev lba read_buf).buf
      let copy_start := if cluster_count = 0 then offset_in_cluster else 0
      let copy_end :=
        if cluster_count = clusters_to_read - 1 then
          ((offs + size) % 2 ^ 32) % bytes_per_cluster
        else bytes_per_cluster
      let copy_end := if copy_end = 0 then bytes_per_cluster else copy_end
      let n := (copy_end + 2 ^ 32 - copy_start) % 2 ^ 32
      match memcpy buf bytes_read read_buf copy_start n with
      | none => none
      | some buf =>
        if curr_cluster ≥ FAT12_EOC_MIN then some buf
        else
          fat12_read_loop fs offs size bytes_per_cluster offset_in_cluster
            clusters_to_read remaining (cluster_count + 1) fentry
            ((bytes_read + n) % 2 ^ 32) read_buf buf

/-- What a vnode `read` yields: the return value and the caller's buffer. -/
structure ReadResult where
  ret : Int
  buf : Option Buf
deriving DecidableEq

/-- `fat12_read`. `malloc_ok` says whether the scratch cluster buffer can be
allocated and `junk` gives the bytes that the fresh allocation holds. The
result is `none` when the C code leaves defined behaviour: a null `vfs_ptr`,
private data of another backend read as FAT12 data, a zero
`bytes_per_cluster`, or an access outside the FAT, the scratch buffer or the
caller's buffer. -/
def fat12_read (node : Option vnode) (offs size : Nat) (buf : Option Buf)
    (malloc_ok : Bool) (junk : Nat → Nat) : Option ReadResult :=
  match node with
  | none => some { ret := -1, buf := buf }
  | some node =>
    match node.data with
    | none => some { ret := -1, buf := buf }
    | some data =>
      match buf with
      | none => some { ret := -1, buf := none }
      | some b =>
        if size = 0 then some { ret := -1, buf := some b }
        else
          match node.vfs_ptr with
          | none => none
          | some link =>
            match link.fs_data with
            | none => some { ret := -1, buf := some b }
            | some fs_data =>
              match data with
              | vnode_private.other _ => none
              | vnode_private.fat12 _inode =>
                if _inode.dir_entry.attributes &&& FAT12_DIR ≠ 0 then
                  some { ret := -1, buf := some b }
                else
                  let file_size := _inode.dir_entry.file_size
                  if offs ≥ file_size then some { ret := 0, buf := some b }
                  else
                    let size :=
                      if (offs + size) % 2 ^ 32 > file_size then file_size - offs else size
                    match fs_data with
                    | fs_private.other _ => none
                    | fs_private.fat12 fs =>
                      let bytes_per_cluster :=
                        fs.bpb.sectors_per_cluster * fs.bpb.bytes_per_sector
                      if bytes_per_cluster = 0 then none
                      else
                        let cluster_offset := offs / bytes_per_cluster
                        let start_cluster :=
                          (_inode.dir_entry.first_cluster_low + cluster_offset) % 2 ^ 16
                        let offset_in_cluster := offs % bytes_per_cluster
                        let clusters_to_read :=
                          (((offset_in_cluster + size) % 2 ^ 32) / bytes_per_cluster +
                            (if ((offset_in_cluster + size) % 2 ^ 32) % bytes_per_cluster ≠ 0
                              then 1 else 0)) % 2 ^ 16
                        if !malloc_ok then some { ret := -1, buf := some b }
                        else
                          let read_buf := (List.range bytes_per_cluster).map junk
                          match fat12_read_loop fs offs size bytes_per_cluster
                              offset_in_cluster clusters_to_read clusters_to_read 0
                              start_cluster 0 read_buf b with
                          | none => none
                          | some b => some { ret := toInt32 size, buf := some b }

/-- `_fat12_normal_to_8_3`: eleven bytes, blank-filled. The first loop copies
up to eight characters in front of the first dot, a dot that follows is
skipped, and the second loop copies up to three of the characters after it. -/
def _fat12_normal_to_8_3 (name : CStr) : List Nat :=
  let base := (name.takeWhile fun c => c ≠ '.').take 8
  let rest := name.drop base.length
  let rest :=
    match rest with
    | '.' :: r => r
    | r => r
  let ext := rest.take 3
  ((base ++ List.replicate (8 - base.length) ' ') ++
    (ext ++ List.replicate (3 - ext.length) ' ')).map Char.toNat

/-- The little-endian 16-bit value at offset `o` of a buffer. -/
def le16 (b : Buf) (o : Nat) : Nat :=
  b.getD o 0 + 256 * b.getD (o + 1) 0

/-- The little-endian 32-bit value at offset `o` of a buffer. -/
def le32 (b : Buf) (o : Nat) : Nat :=
  b.getD o 0 + 256 * b.getD (o + 1) 0 + 65536 * b.getD (o + 2) 0 +
    16777216 * b.getD (o + 3) 0

/-- Element `i` of a buffer read as `fat12_dir_entry_t[]` (the packed layout of
`fat12.h`, 32 bytes to an entry). -/
def dir_entry_at (b : Buf) (i : Nat) : fat12_dir_entry_t :=
  { filename := (b.drop (32 * i)).take 8,
    extension := (b.drop (32 * i + 8)).take 3,
    attributes := b.getD (32 * i + 11) 0,
    reserved := b.getD (32 * i + 12) 0,
    create_time_tenth := b.getD (32 * i + 13) 0,
    create_time := le16 b (32 * i + 14),
    create_date := le16 b (32 * i + 16),
    last_access_date := le16 b (32 * i + 18),
    first_cluster_high := le16 b (32 * i + 20),
    last_write_time := le16 b (32 * i + 22),
    last_write_date := le16 b (32 * i + 24),
    first_cluster_low := le16 b (32 * i + 26),
    file_size := le32 b (32 * i + 28) }

/-- The byte `filename[0]` of a directory entry. -/
def fat12_dir_entry_t.first_byte (e : fat12_dir_entry_t) : Nat :=
  e.filename.getD 0 0

/-- How a scan of directory entries ends: the function returns (`NULL` at the
end-of-directory marker, or the entry found), or the loop runs out. -/
inductive Scan (α : Type) where
  | ret (r : Option α)
  | next

/-- The inner loop of `_fat12_lookup` over the entries `i, i + 1, ...` of the
sector buffer; `remaining` is `16 - i`. A hit is the index with the entry. -/
def _fat12_lookup_entries (dir_entries : Buf) (fat_name : List Nat) :
    (remaining i : Nat) → Scan (Nat × fat12_dir_entry_t)
  | 0, _ => Scan.next
  | remaining + 1, i =>
    let e := dir_entry_at dir_entries i
    if e.first_byte = FAT12_ENDDIR then Scan.ret none
    else if e.first_byte = FAT12_DELETED ∨ e.attributes &&& FAT12_VID ≠ 0 then
      _fat12_lookup_entries dir_entries fat_name remaining (i + 1)
    else if e.filename ++ e.extension = fat_name then Scan.ret (some (i, e))
    else _fat12_lookup_entries dir_entries fat_name remaining (i + 1)

/-- The outer loop of `_fat12_lookup` over the sectors of the root directory;
`remaining` is `root_dir_sectors - s`. The return value of `blkread` is not
looked at; `dir_entries` keeps what it held when a read fails. A hit is the
sector number, the index and the entry. -/
def _fat12_lookup_sectors (fs : fat12_handle_t) (fat_name : List Nat) :
    (remaining s : Nat) → (dir_entries : Buf) → Option (Nat × Nat × fat12_dir_entry_t)
  | 0, _, _ => none
  | remaining + 1, s, dir_entries =>
    let sector := (fs.root_dir_start + s) % 2 ^ 32
    let dir_entries := (blkread fs.block_dev sector dir_entries).buf
    match _fat12_lookup_entries dir_entries fat_name 16 0 with
    | Scan.ret r => r.map fun x => (sector, x)
    | Scan.next => _fat12_lookup_sectors fs fat_name remaining (s + 1) dir_entries

/-- The vnode that `_fat12_lookup` builds for the entry `e` found at index `i`
of sector `sector`. -/
def fat12_new_node (dir_node : vnode) (name : CStr) (sector i : Nat)
    (e : fat12_dir_entry_t) : vnode :=
  { name := name.take 28,
    vfs_mountedhere := none,
    vfs_ptr := dir_node.vfs_ptr,
    ops := some vnode_ops_ref.fat12_vnode_ops,
    flags := 0,
    type := if e.attributes &&& FAT12_DIR ≠ 0 then vnode_type_t.V_DIRECTORY
            else vnode_type_t.V_FILE,
    data := some (vnode_private.fat12
      { dir_entry := e, dir_sector := sector, dir_offset := i }) }

/-- `_fat12_lookup`. `malloc_node` and `malloc_inode` say whether the two
allocations succeed, `junk` gives the bytes that the array `dir_entries` holds
on entry. The outer `none` stands for a null `vfs_ptr` or private data of
another backend. -/
def _fat12_lookup (dir_node : vnode) (name : CStr) (malloc_node malloc_inode : Bool)
    (junk : Nat → Nat) : Option (Option vnode) :=
  if dir_node.name ≠ ['/'] then some none
  else
    match dir_node.vfs_ptr with
    | none => none
    | some link =>
      match link.fs_data with
      | none => some none
      | some (fs_private.other _) => none
      | some (fs_private.fat12 fs) =>
        let p := name.dropWhile fun c => c = '/'
        let fat_name := _fat12_normal_to_8_3 p
        match _fat12_lookup_sectors fs fat_name fs.root_dir_sectors 0
            ((List.range 512).map junk) with
        | none => some none
        | some (sector, i, e) =>
          if !malloc_node then some none
          else if !malloc_inode then some none
          else some (some (fat12_new_node dir_node name sector i e))

/-- The root directory as it lies on `disk`: the entries of the sectors
`root_dir_start`, `root_dir_start + 1`, ..., sixteen to a sector, each with its
sector number and its index in the sector. -/
def root_dir_entries (fs : fat12_handle_t) (disk : Nat → Buf) :
    List (Nat × Nat × fat12_dir_entry_t) :=
  (List.range fs.root_dir_sectors).flatMap fun s =>
    (List.range 16).map fun i =>
      (fs.root_dir_start + s, i, dir_entry_at (disk (fs.root_dir_start + s)) i)

/-- The entry that a lookup of `fat_name` is to find: among the entries in
front of the first one whose first name byte is 0x00, the first that is not
deleted, is no volume label, and carries the eleven name bytes. -/
def first_match (entries : List (Nat × Nat × fat12_dir_entry_t)) (fat_name : List Nat) :
    Option (Nat × Nat × fat12_dir_entry_t) :=
  (entries.takeWhile fun x => decide (x.2.2.first_byte ≠ FAT12_ENDDIR)).find? fun x =>
    decide (x.2.2.first_byte ≠ FAT12_DELETED ∧
      x.2.2.attributes &&& FAT12_VID = 0 ∧
      x.2.2.filename ++ x.2.2.extension = fat_name)

/-- The block device `dev` serves block `lba` from `disk`: a read into a buffer
of at least 512 bytes leaves the 512 bytes of `disk lba` in front of it. -/
def serves (dev : Option block_device_t) (disk : Nat → Buf) (lba : Nat) : Prop :=
  (disk lba).length = 512 ∧
    ∀ b : Buf, 512 ≤ b.length → (blkread dev lba b).buf = disk lba ++ b.drop 512

/-- The on-disk contents of cluster `c`: `sectors_per_cluster` consecutive
sectors, starting at the LBA of the cluster. -/
def cluster_contents (fs : fat12_handle_t) (disk : Nat → Buf) (c : Nat) : Buf :=
  (List.range fs.bpb.sectors_per_cluster).flatMap fun k =>
    disk (_fat12_cluster_to_lba fs c + k)

/-- The first `n` clusters of the chain `c, FAT[c], FAT[FAT[c]], ...`, cut in
front of the first end-of-chain value. -/
def cluster_chain (fs : fat12_handle_t) : Nat → Nat → List Nat
  | 0, _ => []
  | n + 1, c =>
    if c ≥ FAT12_EOC_MIN then []
    else
      c :: (match _fat12_get_fentry fs c with
            | some e => cluster_chain fs n e
            | none => [])

/-- The first `F` bytes of the concatenated contents of the cluster chain that
starts at `first`. -/
def chain_contents (fs : fat12_handle_t) (disk : Nat → Buf) (first F : Nat) : Buf :=
  ((cluster_chain fs F first).flatMap (cluster_contents fs disk)).take F

/-- A driver `read` that serves block `lba` from `disk`: it stores the block in
front of the buffer and returns 0. -/
def disk_read (disk : Nat → Buf) : Nat → Nat → Buf → Int × Buf :=
  fun _ lba b => (0, disk lba ++ b.drop (disk lba).length)

/-! ### fs/vfs.c -/

/-- A filesystem type object (`fs_type_t`): its name and its two operations.
`mount` gives the instance that the backend sets up for a device, or `NULL`. -/
structure fs_type_t where
  fs_name : CStr
  mount : CStr → Option vfs
  unmount : vfs → Int

/-- The operations table of a vnode (`struct _vnode_ops`). A null function
pointer is `none`; an operation yields `none` when it leaves defined
behaviour. -/
structure vnode_ops_t where
  open_ : Option (Option vnode → Option CStr → Nat → Option (Option vnode))
  close : Option (Option vnode → Option Int)
  read : Option (Option vnode → Nat → Nat → Option Buf → Option ReadResult)
  write : Option (Option vnode → Nat → Nat → Option Buf → Option Int)
  readdir : Option (Option vnode → Option (Int × List vnode))
  mkdir : Option (Option vnode → Option CStr → Option Int)
  remove : Option (Option vnode → Option CStr → Option Int)
  create : Option (Option vnode → Option CStr → Option Int)

/-- The array `fs_types` of `vfs.c`, in front of its `NULL` terminator. -/
def fs_types : List fs_type_ref :=
  [fs_type_ref.fat12_fs_type, fs_type_ref.hfs_fs_type]

/-- An element of the array `_mountpoints`: `NULL`, a pointer to a filesystem
instance, or a non-null value that points to no instance (memory that
`realloc` handed out and that was never written). -/
inductive Slot where
  | null
  | fs (v : vfs)
  | wild

/-- The module state of `vfs.c`: the array `_mountpoints` with all the
elements it was allocated with, and `_curr_size`. -/
structure MountTable where
  _mountpoints : List Slot
  _curr_size : Nat

/-- The state that `vfs_init` sets up: sixteen zeroed elements and
`_curr_size = 0`. -/
def vfs_init : MountTable :=
  { _mountpoints := List.replicate 16 Slot.null, _curr_size := 0 }

/-- `realloc (old, n * sizeof (vfs*))` when it succeeds: `n` elements, the old
ones as far as they go, then what the new memory holds (`fresh`). -/
def realloc (old : List Slot) (n : Nat) (fresh : Nat → Slot) : List Slot :=
  (List.range n).map fun i => (old[i]?).getD (fresh i)

/-- The `for` loop of `_add_to_mpoints` over the first `n` elements: the array
with `v` stored in the first null element, or `none` when there is none. -/
def store_in_free_slot (v : vfs) : List Slot → Nat → Option (List Slot)
  | _, 0 => none
  | [], _ + 1 => none
  | Slot.null :: rest, _ + 1 => some (Slot.fs v :: rest)
  | Slot.fs w :: rest, n + 1 => (store_in_free_slot v rest n).map fun l => Slot.fs w :: l
  | Slot.wild :: rest, n + 1 => (store_in_free_slot v rest n).map fun l => Slot.wild :: l

/-- `_add_to_mpoints`. `realloc_ok` says whether `realloc` succeeds and `fresh`
what the added memory holds. -/
def _add_to_mpoints (t : MountTable) (_v : vfs) (realloc_ok : Bool)
    (fresh : Nat → Slot) : MountTable :=
  match store_in_free_slot _v t._mountpoints t._curr_size with
  | some l => { t with _mountpoints := l }
  | none =>
    if !realloc_ok then t
    else
      { _mountpoints :=
          (realloc t._mountpoints (t._curr_size + 5) fresh).set t._curr_size (Slot.fs _v),
        _curr_size := t._curr_size + 5 }

/-- A zeroed vnode, as `memset (mount_at, 0, sizeof (vnode))` leaves it. -/
def zero_vnode : vnode :=
  { name := [], vfs_mountedhere := none, vfs_ptr := none, type := vnode_type_t.V_FILE,
    ops := none, flags := 0, data := none }

/-- `vfs_mount`. `type_obj` gives the type object behind each pointer of
`fs_types`; `malloc_ok` says whether the covering vnode can be allocated (the
code does not test it), `realloc_ok` and `fresh` are handed to
`_add_to_mpoints`. The result is the return value and the mount table, or
`none` for a failed allocation of the vnode or an empty `mount_path`. -/
def vfs_mount (type_obj : fs_type_ref → fs_type_t) (t : MountTable)
    (src_dev mount_path fs_type : CStr) (malloc_ok realloc_ok : Bool)
    (fresh : Nat → Slot) : Option (Int × MountTable) :=
  match fs_types.find? fun r => decide ((type_obj r).fs_name = fs_type) with
  | none => some (-1, t)
  | some fst =>
    match (type_obj fst).mount src_dev with
    | none => some (-1, t)
    | some filesystem =>
      if !malloc_ok then none
      else
        match mount_path with
        | [] => none
        | _ :: stripped =>
          let mount_at : vnode :=
            { zero_vnode with
              vfs_mountedhere := some filesystem.link,
              type := vnode_type_t.V_DIRECTORY,
              name := stripped.take 28 }
          let filesystem : vfs := { filesystem with vcovered := some mount_at }
          some (0, _add_to_mpoints t filesystem realloc_ok fresh)

/-- The scan of `vfs_get_mounted` over the elements of the mount table: the
first instance whose covering vnode is called `search_name`. `none` when a
wild element or an instance without covering vnode is looked into. -/
def find_mounted (search_name : CStr) : List Slot → Option (Option vfs)
  | [] => some none
  | Slot.null :: rest => find_mounted search_name rest
  | Slot.wild :: _ => none
  | Slot.fs _mp :: rest =>
    match _mp.vcovered with
    | none => none
    | some c =>
      if c.name = search_name then some (some _mp) else find_mounted search_name rest

/-- `vfs_get_mounted`. -/
def vfs_get_mounted (t : MountTable) (mount_path : Option CStr) : Option (Option vfs) :=
  match mount_path with
  | none => some none
  | some p =>
    let search_name :=
      match p with
      | '/' :: r => r
      | _ => p
    find_mounted search_name (t._mountpoints.take t._curr_size)

/-- Modelled from the spec: the body of `strtok_r` is not among the sources
(`string.h` declares it as the re-entrant `strtok`), and path resolution takes
the first path component with it. The first call `strtok_r (buf, "/", &next)`
has the meaning that ISO C gives it: leading delimiters are passed over, the
token runs up to the next delimiter or the end; `NULL` when nothing but
delimiters is left. -/
def strtok_r (buf : CStr) : Option CStr :=
  match buf.dropWhile fun c => c = '/' with
  | [] => none
  | c :: rest => some ((c :: rest).takeWhile fun c => c ≠ '/')

/-- The scan of `_vfs_resolve_mountpoint` over the elements of the mount
table: the root vnode of the first instance whose covering vnode is called
`token`, `NULL` when there is none. -/
def find_root (token : CStr) : List Slot → Option (Option vnode)
  | [] => some none
  | Slot.null :: rest => find_root token rest
  | Slot.wild :: _ => none
  | Slot.fs _mp :: rest =>
    match _mp.vcovered with
    | none => none
    | some c => if c.name = token then some _mp.vroot else find_root token rest

/-- `_vfs_resolve_mountpoint` for a non-null `rel_path` of `rel_path_size`
bytes: the root vnode with the string left in `rel_path`, or `NULL`. -/
def _vfs_resolve_mountpoint (t : MountTable) (path : Option CStr) (rel_path_size : Nat) :
    Option (Option (vnode × CStr)) :=
  match path with
  | none => some none
  | some path =>
    if rel_path_size = 0 then some none
    else if path.head? ≠ some '/' then some none
    else
      let buf := path.take 255
      match strtok_r buf with
      | none => some none
      | some token =>
        match find_root token (t._mountpoints.take t._curr_size) with
        | none => none
        | some none => some none
        | some (some root_node) =>
          let rel_start := path.drop (1 + token.length)
          let rel_path := if rel_start = [] then ['/'] else rel_start
          some (some (root_node, rel_path.take (rel_path_size - 1)))

/-- One call of a vnode operation, recorded so that dispatch is observable. -/
inductive VnodeCall where
  | read (offs size : Nat)
  | write (offs size : Nat)
deriving DecidableEq, Repr

/-- What `vfs_read` or `vfs_write` yields: the return value, the file handle
and the buffer afterwards, and the backend calls that were made. -/
structure VfsIo where
  ret : Int
  file : Option file_t
  buf : Option Buf
  calls : List VnodeCall

/-- The value of `f_offset` after `file->f_offset += n` for an `int32_t` `n`:
the sum in `uint32_t`. -/
def advance (f_offset : Nat) (n : Int) : Nat :=
  (((f_offset : Int) + n) % 2 ^ 32).toNat

/-- `vfs_read`. `ops_of` gives the table behind each operations pointer. The
result is `none` when the vnode has no operations table, the table has no
`read`, or the backend leaves defined behaviour. -/
def vfs_read (ops_of : vnode_ops_ref → vnode_ops_t) (file : Option file_t)
    (buf : Option Buf) (size : Nat) : Option VfsIo :=
  match file with
  | none => some { ret := -1, file := none, buf := buf, calls := [] }
  | some f =>
    match f.vnode_ptr with
    | none => some { ret := -1, file := some f, buf := buf, calls := [] }
    | some v =>
      if buf = none ∨ size = 0 then
        some { ret := -1, file := some f, buf := buf, calls := [] }
      else
        match v.ops with
        | none => none
        | some r =>
          match (ops_of r).read with
          | none => none
          | some rd =>
            match rd (some v) f.f_offset size buf with
            | none => none
            | some res =>
              let bytes_read := res.ret
              some
                { ret := bytes_read,
                  file := some
                    (if bytes_read > 0 then
                      { f with f_offset := advance f.f_offset bytes_read }
                     else f),
                  buf := res.buf,
                  calls := [VnodeCall.read f.f_offset size] }

/-- `vfs_write`; see `vfs_read`. -/
def vfs_write (ops_of : vnode_ops_ref → vnode_ops_t) (file : Option file_t)
    (buf : Option Buf) (size : Nat) : Option VfsIo :=
  match file with
  | none => some { ret := -1, file := none, buf := buf, calls := [] }
  | some f =>
    match f.vnode_ptr with
    | none => some { ret := -1, file := some f, buf := buf, calls := [] }
    | some v =>
      if buf = none ∨ size = 0 then
        some { ret := -1, file := some f, buf := buf, calls := [] }
      else
        match v.ops with
        | none => none
        | some r =>
          match (ops_of r).write with
          | none => none
          | some wr =>
            match wr (some v) f.f_offset size buf with
            | none => none
            | some bytes_written =>
              some
                { ret := bytes_written,
                  file := some
                    (if bytes_written > 0 then
                      { f with f_offset := advance f.f_offset bytes_written }
                     else f),
                  buf := buf,
                  calls := [VnodeCall.write f.f_offset size] }

/-- An element of the mount table that a scan for `name` passes over: it is
null, or an instance whose covering vnode has another name. -/
def Slot.passes (name : CStr) : Slot → Prop
  | Slot.null => True
  | Slot.fs w => ∃ c, w.vcovered = some c ∧ c.name ≠ name
  | Slot.wild => False

/-! ### mm/pte.h and mm/pde.h -/

/-- The operator `~` on a `uint32_t` value. -/
def not32 (x : Nat) : Nat := 0xFFFFFFFF ^^^ x

def PTE_PRESENT : Nat := 0x001
def PTE_FRAME_MASK : Nat := 0xFFFFF000

/-- `PTE_FRAME_ADDR(pte)`. -/
def PTE_FRAME_ADDR (pte : Nat) : Nat := pte &&& PTE_FRAME_MASK

/-- `PTE_FLAGS(pte)`. -/
def PTE_FLAGS (pte : Nat) : Nat := pte &&& not32 PTE_FRAME_MASK

/-- `PTE_IS_PRESENT(pte)`: non-zero when the present bit is set. -/
def PTE_IS_PRESENT (pte : Nat) : Nat := pte &&& PTE_PRESENT

/-- `pte_create`: `frame_addr` is the 32-bit value of the pointer argument. -/
def pte_create (frame_addr flags : Nat) : Nat :=
  (frame_addr &&& PTE_FRAME_MASK) ||| (flags &&& not32 PTE_FRAME_MASK)

def PDE_PRESENT : Nat := 0x001
def PDE_FRAME_MASK : Nat := 0xFFFFF000

/-- `PDE_PTABLE_ADDR(pde)`. -/
def PDE_PTABLE_ADDR (pde : Nat) : Nat := pde &&& PDE_FRAME_MASK

/-- `PDE_FLAGS(pde)`. -/
def PDE_FLAGS (pde : Nat) : Nat := pde &&& not32 PDE_FRAME_MASK

/-- `PDE_IS_PRESENT(pde)`: non-zero when the present bit is set. -/
def PDE_IS_PRESENT (pde : Nat) : Nat := pde &&& PDE_PRESENT

/-- `pde_create`: `frame_addr` is the 32-bit value of the pointer argument. -/
def pde_create (frame_addr flags : Nat) : Nat :=
  (frame_addr &&& PDE_FRAME_MASK) ||| (flags &&& not32 PDE_FRAME_MASK)

/-! ### kernel/bitmap.h -/

def BITSET_WORD_SIZE : Nat := 32

/-- A bitmap `BITSET_WORD* bm`: the `uint32_t` word at each index. -/
abbrev Bitmap := Nat → Nat

/-- The value of an `int32_t` after its conversion to the 32-bit `size_t`, which
is what happens to `idx` in `idx / BITSET_WORD_SIZE` and
`idx % BITSET_WORD_SIZE`. -/
def toSize (idx : Int) : Nat := (idx % 2 ^ 32).toNat

/-- `bitmap_set`: `bm[idx / 32] |= 1 << (idx % 32)`. -/
def bitmap_set (bm : Bitmap) (idx : Int) : Bitmap :=
  Function.update bm (toSize idx / BITSET_WORD_SIZE)
    (bm (toSize idx / BITSET_WORD_SIZE) ||| (1 <<< (toSize idx % BITSET_WORD_SIZE)))

/-- `bitmap_unset`: `bm[idx / 32] &= ~(1 << (idx % 32))`. -/
def bitmap_unset (bm : Bitmap) (idx : Int) : Bitmap :=
  Function.update bm (toSize idx / BITSET_WORD_SIZE)
    (bm (toSize idx / BITSET_WORD_SIZE) &&& not32 (1 <<< (toSize idx % BITSET_WORD_SIZE)))

/-- `bitmap_test`: whether `bm[idx / 32] & (1 << (idx % 32))` is non-zero. -/
def bitmap_test (bm : Bitmap) (idx : Int) : Bool :=
  (bm (toSize idx / BITSET_WORD_SIZE) &&& (1 <<< (toSize idx % BITSET_WORD_SIZE))) != 0

/-- The loop of `bitmap_first_free` at counter `i` with `remaining = max_bits - i`
iterations left; the `uint32_t` counter is passed to `bitmap_test` and stored in
`idx` as an `int32_t`. -/
def bitmap_first_free_from (bm : Bitmap) : (remaining : Nat) → (i : Nat) → Int
  | 0, _ => -1
  | remaining + 1, i =>
    if !bitmap_test bm (toInt32 i) then toInt32 i
    else bitmap_first_free_from bm remaining (i + 1)

/-- `bitmap_first_free`. -/
def bitmap_first_free (bm : Bitmap) (max_bits : Nat) : Int :=
  bitmap_first_free_from bm max_bits 0

/-- Bit `i` of a bitmap: bit `i mod 32` of word `i / 32`. -/
def bit_of (bm : Bitmap) (i : Nat) : Bool := (bm (i / 32)).testBit (i % 32)

/-! ### fs/hfs.h -/

def HFS_MAGIC : Nat := 0x48465331

/-- The structure `struct superblock`, its fields in declaration order. -/
structure superblock where
  s_blocks_count : Nat
  s_inodes_count : Nat
  s_block_bitmap : Nat
  s_inode_bitmap : Nat
  s_inode_table_block_start : Nat
  s_data_blocks_start : Nat
  s_magic : Nat
deriving DecidableEq, Repr

/-- The four bytes of a `uint32_t` in memory (little-endian). -/
def u32_bytes (x : Nat) : Buf :=
  [x % 256, x / 256 % 256, x / 65536 % 256, x / 16777216 % 256]

/-- The bytes of a `struct superblock` object: seven `uint32_t` members in
declaration order, with no padding between them. -/
def superblock.bytes (sb : superblock) : Buf :=
  u32_bytes sb.s_blocks_count ++ u32_bytes sb.s_inodes_count ++
    u32_bytes sb.s_block_bitmap ++ u32_bytes sb.s_inode_bitmap ++
    u32_bytes sb.s_inode_table_block_start ++ u32_bytes sb.s_data_blocks_start ++
    u32_bytes sb.s_magic

/-! ### fs/fat12.c: the operations table and mounting -/

/-- What the FAT12 vnode operations take from their surroundings: the `vroot`
of the filesystem instance behind a `vfs_ptr`, whether each allocation
succeeds, and the bytes that fresh memory holds. -/
structure fat12_env where
  vroot_of : vfs_link → Option vnode
  malloc_node : Bool
  malloc_inode : Bool
  malloc_buf : Bool
  junk : Nat → Nat

/-- `fat12_open`: the lookup of `path` from `node->vfs_ptr->vroot`. The outer
`none` stands for a null `vfs_ptr`, a null `vroot`, or what `_fat12_lookup`
leaves undefined. -/
def fat12_open (env : fat12_env) (node : Option vnode) (path : Option CStr) (_flags : Nat) :
    Option (Option vnode) :=
  match node with
  | none => some none
  | some node =>
    match path with
    | none => some none
    | some path =>
      if path.length = 0 then some none
      else
        match node.vfs_ptr with
        | none => none
        | some link =>
          match env.vroot_of link with
          | none => none
          | some root => _fat12_lookup root path env.malloc_node env.malloc_inode env.junk

/-- `fat12_close`. -/
def fat12_close (_node : Option vnode) : Option Int := some (-1)

/-- `fat12_write`. -/
def fat12_write (_node : Option vnode) (_offs _size : Nat) (_buf : Option Buf) : Option Int :=
  some (-1)

/-- The table `fat12_vnode_ops`: four functions, and a null pointer in
`readdir`, `create`, `mkdir` and `remove`. -/
def fat12_vnode_ops (env : fat12_env) : vnode_ops_t :=
  { open_ := some (fat12_open env),
    close := some fat12_close,
    read := some fun node offs size buf => fat12_read node offs size buf env.malloc_buf env.junk,
    write := some fat12_write,
    readdir := none,
    create := none,
    mkdir := none,
    remove := none }

/-- A boot sector read as `fat12_bpb_t` (packed): three jump bytes and eight
name bytes, then the fields from byte 11 on. -/
def bpb_at (b : Buf) : fat12_bpb_t :=
  { bytes_per_sector := le16 b 11,
    sectors_per_cluster := b.getD 13 0,
    rsrvd_cnt := le16 b 14,
    num_fats := b.getD 16 0,
    max_root_dir_entries := le16 b 17,
    total_sectors := le16 b 19,
    media_descriptor := b.getD 21 0,
    sectors_per_fat := le16 b 22,
    sectors_per_track := le16 b 24,
    num_heads := le16 b 26,
    hidden_sectors := le32 b 28,
    total_sectors_large := le32 b 32 }

/-- The loop of `fat12_mount` that loads the FAT: block `fat_start + i` is read
to `fat_table + i * bytes_per_sector`, for `i` from `i` on, `remaining` times.
`none` when a read changes memory outside the table. -/
def fat12_load_fat (dev : block_device_t) (fat_start bytes_per_sector : Nat) :
    (remaining i : Nat) → (fat_table : Buf) → Option Buf
  | 0, _, fat_table => some fat_table
  | remaining + 1, i, fat_table =>
    let dst := fat_table.drop (i * bytes_per_sector)
    let got := (blkread (some dev) ((fat_start + i) % 2 ^ 32) dst).buf
    if got.length ≠ dst.length ∨ fat_table.length < i * bytes_per_sector then none
    else
      fat12_load_fat dev fat_start bytes_per_sector remaining (i + 1)
        (fat_table.take (i * bytes_per_sector) ++ got)

/-- A directory entry after `memset (&e, 0, sizeof (fat12_dir_entry_t))`. -/
def zero_dir_entry : fat12_dir_entry_t :=
  { filename := List.replicate 8 0, extension := List.replicate 3 0, attributes := 0,
    reserved := 0, create_time_tenth := 0, create_time := 0, create_date := 0,
    last_access_date := 0, first_cluster_high := 0, last_write_time := 0,
    last_write_date := 0, first_cluster_low := 0, file_size := 0 }

/-- The allocations of `fat12_mount`: whether each one succeeds, in the order
of the code, and the bytes that the boot sector buffer and the FAT buffer hold
when they are handed out. -/
structure fat12_mount_env where
  malloc_fs : Bool
  malloc_bootsector : Bool
  malloc_fat : Bool
  malloc_fsys : Bool
  malloc_vroot : Bool
  malloc_inode : Bool
  junk_bootsector : Nat → Nat
  junk_fat : Nat → Nat

/-- `fat12_mount` on the registry `r`. The result is the new instance or
`NULL`; the outer `none` stands for undefined behaviour: a null device array
that is indexed, a block read that changes memory outside its buffer, a zero
`bytes_per_sector` (division by zero), a FAT size that overflows `int`, or a
failed allocation of the root vnode or its inode, which the code does not
test. The results of `blkread` are not looked at. The root inode's
`attributes = FAT12_DIR` is followed by the `memset` of the whole entry, which
leaves `zero_dir_entry`. -/
def fat12_mount (r : Registry) (device : Option CStr) (env : fat12_mount_env) :
    Option (Option vfs) :=
  if !env.malloc_fs then some none
  else if !env.malloc_bootsector then some none
  else
    match blkdev_get_by_name r device with
    | none => none
    | some none => some none
    | some (some block_dev) =>
      let fresh := (List.range 512).map env.junk_bootsector
      let bootsector := (blkread (some block_dev) 0 fresh).buf
      if bootsector.length ≠ 512 then none
      else
        let bpb := bpb_at bootsector
        let lba_begin := bpb.hidden_sectors % 2 ^ 8
        let fat_start := (lba_begin + bpb.rsrvd_cnt) % 2 ^ 32
        let root_dir_start := (fat_start + bpb.num_fats * bpb.sectors_per_fat) % 2 ^ 32
        if bpb.bytes_per_sector = 0 then none
        else
          let root_dir_sectors :=
            ((bpb.max_root_dir_entries * 32) % 2 ^ 32) / bpb.bytes_per_sector
          let data_area_start := (root_dir_start + root_dir_sectors) % 2 ^ 32
          let fat_size := bpb.sectors_per_fat * bpb.bytes_per_sector
          if fat_size ≥ 2 ^ 31 then none
          else if !env.malloc_fat then some none
          else
            match fat12_load_fat block_dev fat_start bpb.bytes_per_sector bpb.sectors_per_fat 0
                ((List.range fat_size).map env.junk_fat) with
            | none => none
            | some fat_table =>
              let fs : fat12_handle_t :=
                { bpb := bpb, fat_start := fat_start, root_dir_start := root_dir_start,
                  root_dir_sectors := root_dir_sectors, data_area_start := data_area_start,
                  fat_table := fat_table, block_dev := some block_dev }
              if !env.malloc_fsys then some none
              else if !env.malloc_vroot then none
              else if !env.malloc_inode then none
              else
                let fsys : vfs :=
                  { type := some fs_type_ref.fat12_fs_type, vcovered := none, vroot := none,
                    fs_data := some (fs_private.fat12 fs) }
                let root_inode : inode :=
                  { dir_offset := 0, dir_sector := root_dir_start,
                    dir_entry := zero_dir_entry }
                let vroot : vnode :=
                  { name := ['/'], vfs_mountedhere := none, vfs_ptr := some fsys.link,
                    type := vnode_type_t.V_DIRECTORY,
                    ops := some vnode_ops_ref.fat12_vnode_ops, flags := 0,
                    data := some (vnode_private.fat12 root_inode) }
                some (some { fsys with vroot := some vroot })

/-- The four sector numbers that `fat12_mount` stores in the FAT12 handle of an
instance: `fat_start`, `root_dir_start`, `root_dir_sectors` and
`data_area_start`; `none` when the instance carries no FAT12 handle. -/
def vfs.geometry (v : vfs) : Option (Nat × Nat × Nat × Nat) :=
  match v.fs_data with
  | some (fs_private.fat12 fs) =>
    some (fs.fat_start, fs.root_dir_start, fs.root_dir_sectors, fs.data_area_start)
  | _ => none

/-- The BIOS parameter block of the FAT12 handle of an instance. -/
def vfs.bpb (v : vfs) : Option fat12_bpb_t :=
  match v.fs_data with
  | some (fs_private.fat12 fs) => some fs.bpb
  | _ => none

/-! ### fs/vfs.c: create, mkdir, remove -/

/-- `vfs_create`. `none` when the mount point cannot be resolved within
defined behaviour, when the root vnode has no operations table, or when the
table holds a null pointer in `create`: the code calls it untested. -/
def vfs_create (ops_of : vnode_ops_ref → vnode_ops_t) (t : MountTable) (path : Option CStr)
    (_flags : Nat) : Option Int :=
  match _vfs_resolve_mountpoint t path 256 with
  | none => none
  | some none => some (-1)
  | some (some (root_node, rel_path)) =>
    match root_node.ops with
    | none => none
    | some r =>
      match (ops_of r).create with
      | none => none
      | some create =>
        match create (some root_node) (some rel_path) with
        | none => none
        | some ret => if ret < 0 then some (-1) else some 0

/-- `vfs_mkdir`; see `vfs_create`. -/
def vfs_mkdir (ops_of : vnode_ops_ref → vnode_ops_t) (t : MountTable) (path : Option CStr) :
    Option Int :=
  match _vfs_resolve_mountpoint t path 256 with
  | none => none
  | some none => some (-1)
  | some (some (root_node, rel_path)) =>
    match root_node.ops with
    | none => none
    | some r =>
      match (ops_of r).mkdir with
      | none => none
      | some mkdir =>
        match mkdir (some root_node) (some rel_path) with
        | none => none
        | some ret => if ret < 0 then some (-1) else some 0

/-- `vfs_remove`; see `vfs_create`. -/
def vfs_remove (ops_of : vnode_ops_ref → vnode_ops_t) (t : MountTable) (path : Option CStr) :
    Option Int :=
  match _vfs_resolve_mountpoint t path 256 with
  | none => none
  | some none => some (-1)
  | some (some (root_node, rel_path)) =>
    match root_node.ops with
    | none => none
    | some r =>
      match (ops_of r).remove with
      | none => none
      | some remove =>
        match remove (some root_node) (some rel_path) with
        | none => none
        | some ret => if ret < 0 then some (-1) else some 0

/-! ### utils.h -/

/-- `PAGE_ALIGN_UP(addr)`: `(uintptr_t)(addr) & ~0xFFF`. -/
def PAGE_ALIGN_UP (addr : Nat) : Nat := (addr % 2 ^ 32) &&& not32 0xFFF

/-- `PAGE_ALIGN_DWN(addr)`: `(uintptr_t)((addr) + 0xFFF) & ~0xFFF`, for an
argument of a 32-bit unsigned type. -/
def PAGE_ALIGN_DWN (addr : Nat) : Nat := ((addr + 0xFFF) % 2 ^ 32) &&& not32 0xFFF

/-! ### mm/vmm.h -/

def VMM_DIR_INDEX_MASK : Nat := 0xFFC00000
def VMM_TABLE_INDEX_MASK : Nat := 0x003FF000
def VMM_PAGE_OFFSET_MASK : Nat := 0x00000FFF

/-- `VMM_DIR_INDEX(addr)`. -/
def VMM_DIR_INDEX (addr : Nat) : Nat := ((addr % 2 ^ 32) &&& VMM_DIR_INDEX_MASK) >>> 22

/-- `VMM_TABLE_INDEX(addr)`. -/
def VMM_TABLE_INDEX (addr : Nat) : Nat := ((addr % 2 ^ 32) &&& VMM_TABLE_INDEX_MASK) >>> 12

/-- `VMM_PAGE_OFFSET(addr)`. -/
def VMM_PAGE_OFFSET (addr : Nat) : Nat := (addr % 2 ^ 32) &&& VMM_PAGE_OFFSET_MASK

/-! ### driver/fdc.c -/

/-- `fdc_lba_to_chs`: what the three `uint32_t` objects behind `cylinder`,
`head` and `sector` hold afterwards. With a null pointer among the three
nothing is stored. -/
def fdc_lba_to_chs (lba : Nat) (cylinder head sector : Option Nat) :
    Option Nat × Option Nat × Option Nat :=
  match cylinder, head, sector with
  | some _, some _, some _ =>
    (some ((lba / (18 * 2)) % 2 ^ 8), some ((lba % (2 * 18)) / 18),
      some ((lba % (2 * 18)) % 18 + 1))
  | _, _, _ => (cylinder, head, sector)

/-! ### fs/fat12.c: names in 8.3 form -/

/-- A copy loop of `_fat12_8_3to_normal`: the bytes of `fat_name` in front of
the first blank, at most `remaining` of them. `none` when the loop reads
outside the array. -/
def copy_to_blank : (remaining : Nat) → (fat_name : List Nat) → Option (List Nat)
  | 0, _ => some []
  | _ + 1, [] => none
  | remaining + 1, c :: rest =>
    if c = 32 then some [] else (copy_to_blank remaining rest).map fun l => c :: l

/-- `_fat12_8_3to_normal`: the string written to `output`, in front of its NUL.
The name part is copied up to the first blank, and when byte 8 is not a blank a
dot and the extension up to its first blank follow. `none` when `fat_name` is
read outside its bytes. -/
def _fat12_8_3to_normal (fat_name : List Nat) : Option (List Nat) :=
  match copy_to_blank 8 fat_name with
  | none => none
  | some base =>
    match fat_name.drop 8 with
    | [] => none
    | c :: rest =>
      if c ≠ 32 then (copy_to_blank 3 (c :: rest)).map fun ext => base ++ 46 :: ext
      else some base

/-! ### fs/fat12.c and fs/vfs.c: unmounting and opening -/

/-- What the `unmount` operation of a backend does to the instance it is given:
the value it returns, and whether it has freed the instance. -/
structure unmount_effect where
  ret : Int
  freed : Bool
deriving DecidableEq, Repr

/-- `fat12_unmount`: -1 for an instance without handle; otherwise the handle,
the root vnode with its inode and the instance itself are freed and 0 is
returned. `none` for a handle of another backend or a null `vroot`. -/
def fat12_unmount (fsys : vfs) : Option unmount_effect :=
  match fsys.fs_data with
  | none => some { ret := -1, freed := false }
  | some (fs_private.other _) => none
  | some (fs_private.fat12 _) =>
    match fsys.vroot with
    | none => none
    | some _ => some { ret := 0, freed := true }

/-- The loop of `vfs_unmount` over the elements of the mount table.
`search_name` is `mount_path + 1`, `none` when `mount_path` is null or empty.
At the first instance whose covering vnode carries that name the `unmount` of
its type is called and its value returned; -1 when there is none. The loop
stores nothing in the table: the element of an instance that `unmount` has
freed is left as a pointer to freed memory (`Slot.wild`). -/
def unmount_scan (unmount_of : fs_type_ref → vfs → Option unmount_effect)
    (search_name : Option CStr) : List Slot → Option (Int × List Slot)
  | [] => some (-1, [])
  | Slot.null :: rest =>
    (unmount_scan unmount_of search_name rest).map fun x => (x.1, Slot.null :: x.2)
  | Slot.wild :: _ => none
  | Slot.fs _mp :: rest =>
    match _mp.vcovered, search_name with
    | none, _ => none
    | some _, none => none
    | some c, some name =>
      if c.name = name then
        match _mp.type with
        | none => none
        | some ty =>
          match unmount_of ty _mp with
          | none => none
          | some e => some (e.ret, (if e.freed then Slot.wild else Slot.fs _mp) :: rest)
      else
        (unmount_scan unmount_of search_name rest).map fun x => (x.1, Slot.fs _mp :: x.2)

/-- `vfs_unmount`. `unmount_of` gives the `unmount` operation behind each type
pointer, with its effect on the memory of the instance. The result is the
return value and the mount table afterwards; `none` when the loop leaves
defined behaviour. -/
def vfs_unmount (unmount_of : fs_type_ref → vfs → Option unmount_effect) (t : MountTable)
    (mount_path : Option CStr) : Option (Int × MountTable) :=
  let search_name :=
    match mount_path with
    | some (_ :: stripped) => some stripped
    | _ => none
  match unmount_scan unmount_of search_name (t._mountpoints.take t._curr_size) with
  | none => none
  | some (ret, l) =>
    some (ret, { t with _mountpoints := l ++ t._mountpoints.drop t._curr_size })

/-- `vfs_open`. `malloc_ok` says whether the file object can be allocated (the
code does not test it). `none` when the mount point cannot be resolved within
defined behaviour, when the root vnode has no operations table or the table no
`open`, when `open` leaves defined behaviour, or when the allocation fails. -/
def vfs_open (ops_of : vnode_ops_ref → vnode_ops_t) (t : MountTable) (path : Option CStr)
    (flags : Nat) (malloc_ok : Bool) : Option (Option file_t) :=
  match _vfs_resolve_mountpoint t path 256 with
  | none => none
  | some none => some none
  | some (some (root_node, rel_path)) =>
    match root_node.ops with
    | none => none
    | some r =>
      match (ops_of r).open_ with
      | none => none
      | some op =>
        match op (some root_node) (some rel_path) flags with
        | none => none
        | some none => some none
        | some (some result) =>
          if !malloc_ok then none
          else some (some { vnode_ptr := some result, f_offset := 0, f_flags := flags })

/-! ### kernel/list.c -/

/-- A non-null `list_element_t*`: one of the `2 ^ 32 - 1` addresses other than
0. -/
abbrev elem_ptr := Fin 4294967295

/-- The `next` and `prev` fields of the list elements in memory. -/
structure list_links where
  next : elem_ptr → Option elem_ptr
  prev : elem_ptr → Option elem_ptr

/-- A list object (`list_t`). -/
structure list_t where
  head : Option elem_ptr
  tail : Option elem_ptr
  size : Nat
deriving DecidableEq, Repr

/-- The store `e->next = v`. -/
def list_links.set_next (m : list_links) (e : elem_ptr) (v : Option elem_ptr) : list_links :=
  { m with next := Function.update m.next e v }

/-- The store `e->prev = v`. -/
def list_links.set_prev (m : list_links) (e : elem_ptr) (v : Option elem_ptr) : list_links :=
  { m with prev := Function.update m.prev e v }

/-- `list_init`. -/
def list_init (list : Option list_t) : Option list_t :=
  match list with
  | none => none
  | some _ => some { head := none, tail := none, size := 0 }

/-- `list_append`: the list object and the element links afterwards. -/
def list_append (list : Option list_t) (element : Option elem_ptr) (m : list_links) :
    Option list_t × list_links :=
  match list, element with
  | some l, some e =>
    let m := m.set_next e none
    let m := m.set_prev e l.tail
    match l.tail with
    | some t =>
      (some { l with tail := some e, size := (l.size + 1) % 2 ^ 32 }, m.set_next t (some e))
    | none =>
      (some { head := some e, tail := some e, size := (l.size + 1) % 2 ^ 32 }, m)
  | _, _ => (list, m)

/-- `list_remove_head`: the returned pointer, the list object and the element
links afterwards. `none` when the size is not 0 and `head` is null, so that
`element->next` reads through a null pointer. -/
def list_remove_head (list : Option list_t) (m : list_links) :
    Option (Option elem_ptr × Option list_t × list_links) :=
  match list with
  | none => some (none, none, m)
  | some l =>
    if l.size = 0 then some (none, some l, m)
    else
      match l.head with
      | none => none
      | some element =>
        let head := m.next element
        match head with
        | some h =>
          let m := m.set_prev h none
          let m := m.set_next element none
          let m := m.set_prev element none
          some (some element, some { l with head := head, size := l.size - 1 }, m)
        | none =>
          let m := m.set_next element none
          let m := m.set_prev element none
          some (some element, some { head := none, tail := none, size := l.size - 1 }, m)

/-- `list_remove_tail`; see `list_remove_head`. -/
def list_remove_tail (list : Option list_t) (m : list_links) :
    Option (Option elem_ptr × Option list_t × list_links) :=
  match list with
  | none => some (none, none, m)
  | some l =>
    if l.size = 0 then some (none, some l, m)
    else
      match l.tail with
      | none => none
      | some element =>
        let tail := m.prev element
        match tail with
        | some t =>
          let m := m.set_next t none
          let m := m.set_next element none
          let m := m.set_prev element none
          some (some element, some { l with tail := tail, size := l.size - 1 }, m)
        | none =>
          let m := m.set_next element none
          let m := m.set_prev element none
          some (some element, some { head := none, tail := none, size := l.size - 1 }, m)

/-- `list_prepend`. -/
def list_prepend (list : Option list_t) (element : Option elem_ptr) (m : list_links) :
    Option list_t × list_links :=
  match list, element with
  | some l, some e =>
    let m := m.set_prev e none
    let m := m.set_next e l.head
    match l.head with
    | some h =>
      (some { l with head := some e, size := (l.size + 1) % 2 ^ 32 }, m.set_prev h (some e))
    | none =>
      (some { head := some e, tail := some e, size := (l.size + 1) % 2 ^ 32 }, m)
  | _, _ => (list, m)

/-- `list_remove`. -/
def list_remove (list : Option list_t) (element : Option elem_ptr) (m : list_links) :
    Option list_t × list_links :=
  match list, element with
  | some l, some e =>
    if l.size = 0 then (some l, m)
    else
      let r1 : list_t × list_links :=
        match m.prev e with
        | some p => (l, m.set_next p (m.next e))
        | none => ({ l with head := m.next e }, m)
      let l := r1.1
      let m := r1.2
      let r2 : list_t × list_links :=
        match m.next e with
        | some n => (l, m.set_prev n (m.prev e))
        | none => ({ l with tail := m.prev e }, m)
      let l := r2.1
      let m := r2.2
      let m := m.set_next e none
      let m := m.set_prev e none
      (some { l with size := l.size - 1 }, m)
  | _, _ => (list, m)

/-- `list_insert_after`. -/
def list_insert_after (list : Option list_t) (after element : Option elem_ptr)
    (m : list_links) : Option list_t × list_links :=
  match list, after, element with
  | some l, some a, some e =>
    let m := m.set_prev e (some a)
    let m := m.set_next e (m.next a)
    let r : list_t × list_links :=
      match m.next a with
      | some n => (l, m.set_prev n (some e))
      | none => ({ l with tail := some e }, m)
    let l := r.1
    let m := r.2
    let m := m.set_next a (some e)
    (some { l with size := (l.size + 1) % 2 ^ 32 }, m)
  | _, _, _ => (list, m)

/-- `list_insert_before`. -/
def list_insert_before (list : Option list_t) (before element : Option elem_ptr)
    (m : list_links) : Option list_t × list_links :=
  match list, before, element with
  | some l, some b, some e =>
    let m := m.set_next e (some b)
    let m := m.set_prev e (m.prev b)
    let r : list_t × list_links :=
      match m.prev b with
      | some p => (l, m.set_next p (some e))
      | none => ({ l with head := some e }, m)
    let l := r.1
    let m := r.2
    let m := m.set_prev b (some e)
    (some { l with size := (l.size + 1) % 2 ^ 32 }, m)
  | _, _, _ => (list, m)

/-- The `while` loop of `list_insert_sorted` at `current`. `fuel` bounds the
number of iterations; `none` when it runs out. -/
def list_insert_sorted_loop (compare_func : elem_ptr → elem_ptr → Int) (l : list_t)
    (e : elem_ptr) (m : list_links) : (fuel : Nat) → (current : Option elem_ptr) →
    Option (Option list_t × list_links)
  | _, none => some (list_append (some l) (some e) m)
  | 0, some _ => none
  | fuel + 1, some c =>
    if compare_func e c ≤ 0 then some (list_insert_before (some l) (some c) (some e) m)
    else list_insert_sorted_loop compare_func l e m fuel (m.next c)

/-- `list_insert_sorted`. `compare_func` reads the two elements and changes
nothing. `fuel` bounds the iterations of the loop; `none` when it runs out. -/
def list_insert_sorted (list : Option list_t) (element : Option elem_ptr)
    (compare_func : Option (elem_ptr → elem_ptr → Int)) (m : list_links) (fuel : Nat) :
    Option (Option list_t × list_links) :=
  match list, element, compare_func with
  | some l, some e, some cmp =>
    if l.size = 0 then some (list_append (some l) (some e) m)
    else list_insert_sorted_loop cmp l e m fuel l.head
  | _, _, _ => some (list, m)

/-- Following `link` from `start` leads through the elements `xs`, in this
order, and then to `stop`. -/
def seg (link : elem_ptr → Option elem_ptr) :
    (start : Option elem_ptr) → (xs : List elem_ptr) → (stop : Option elem_ptr) → Prop
  | start, [], stop => start = stop
  | start, x :: xs, stop => start = some x ∧ seg link (link x) xs stop

/-- The list `l` holds the elements `xs`, in this order: the `next` links lead
from `head` through `xs` to `NULL`, the `prev` links lead from `tail` through
`xs` backwards to `NULL`, and `size` is the number of elements. -/
def holds (l : list_t) (m : list_links) (xs : List elem_ptr) : Prop :=
  seg m.next l.head xs none ∧ seg m.prev l.tail xs.reverse none ∧ l.size = xs.length

/-- Well-formedness of a list: it holds some sequence of elements. -/
def well_formed (l : list_t) (m : list_links) : Prop := ∃ xs, holds l m xs

/-- A call of the ready queue: `list_append` of an element, or
`list_remove_head`. -/
inductive queue_call where
  | append (e : elem_ptr)
  | remove_head
deriving DecidableEq, Repr

/-- The calls `calls` made one after the other on the list `l`: what the calls
of `list_remove_head` returned, in order, and the list and the links at the
end. -/
def run_calls : List queue_call → list_t → list_links →
    Option (List (Option elem_ptr) × list_t × list_links)
  | [], l, m => some ([], l, m)
  | queue_call.append e :: rest, l, m =>
    match list_append (some l) (some e) m with
    | (some l, m) => run_calls rest l m
    | (none, _) => none
  | queue_call.remove_head :: rest, l, m =>
    match list_remove_head (some l) m with
    | some (r, some l, m) => (run_calls rest l m).map fun x => (r :: x.1, x.2)
    | _ => none

/-- The queue discipline that the calls are to follow: `q` lists the elements
still in the queue, the one posted earliest in front. An append puts its
element at the back; a removal gives the element in front, `NULL` when there
is none. The result is what the removals gave and the queue at the end. -/
def fifo : List queue_call → List elem_ptr → List (Option elem_ptr) × List elem_ptr
  | [], q => ([], q)
  | queue_call.append e :: rest, q => fifo rest (q ++ [e])
  | queue_call.remove_head :: rest, q =>
    ((q.head? :: (fifo rest q.tail).1), (fifo rest q.tail).2)

/-- Every element that `calls` appends is not in the queue at that moment. -/
def appends_fresh : List queue_call → List elem_ptr → Prop
  | [], _ => True
  | queue_call.append e :: rest, q => e ∉ q ∧ appends_fresh rest (q ++ [e])
  | queue_call.remove_head :: rest, q => appends_fresh rest q.tail

/-- The list object read from the other end: `head` and `tail` exchanged. -/
def list_t.flip (l : list_t) : list_t :=
  { head := l.tail, tail := l.head, size := l.size }

/-- The links read from the other end: `next` and `prev` exchanged. -/
def list_links.flip (m : list_links) : list_links :=
  { next := m.prev, prev := m.next }

/-! ### Sample data -/

/-- A disk of 512-byte sectors; every byte of sector `lba` is `lba % 251`. -/
def sample_disk (lba : Nat) : Buf := List.replicate 512 (lba % 251)

/-- A floppy drive of 2880 blocks that serves `sample_disk`. -/
def sample_floppy : block_device_t :=
  { name := "fd0".toList, block_size := 512, num_blocks := 2880, driver_private := 0,
    ops := some { read := some (disk_read sample_disk), write := none } }

/-- A mounted volume on `sample_floppy` with `spc` sectors per cluster, whose
FAT holds the entries 0xFF0, 0xFFF, 0xFFF (cluster 2 ends its chain). -/
def sample_volume (spc : Nat) : fat12_handle_t :=
  { bpb :=
      { bytes_per_sector := 512, sectors_per_cluster := spc, rsrvd_cnt := 1, num_fats := 2,
        max_root_dir_entries := 224, total_sectors := 2880, media_descriptor := 0xF0,
        sectors_per_fat := 9, sectors_per_track := 18, num_heads := 2,
        hidden_sectors := 0, total_sectors_large := 0 },
    fat_start := 1, root_dir_start := 19, root_dir_sectors := 14, data_area_start := 33,
    fat_table := [0xF0, 0xFF, 0xFF, 0xFF, 0x0F, 0x00],
    block_dev := some sample_floppy }

/-- The vnode of a regular file of `size` bytes that starts in cluster 2 of
`sample_volume spc`. -/
def sample_file (spc size : Nat) : vnode :=
  { name := "/HELLO".toList, vfs_mountedhere := none,
    vfs_ptr := some
      { type := some fs_type_ref.fat12_fs_type,
        fs_data := some (fs_private.fat12 (sample_volume spc)) },
    type := vnode_type_t.V_FILE, ops := some vnode_ops_ref.fat12_vnode_ops, flags := 0,
    data := some (vnode_private.fat12
      { dir_entry :=
          { filename := [72, 69, 76, 76, 79, 32, 32, 32], extension := [32, 32, 32],
            attributes := 0x20, reserved := 0, create_time_tenth := 0, create_time := 0,
            create_date := 0, last_access_date := 0, first_cluster_high := 0,
            last_write_time := 0, last_write_date := 0, first_cluster_low := 2,
            file_size := size },
        dir_sector := 19, dir_offset := 0 }) }

/-- A sample driver table: reading block `lba` stores the byte `lba` in front
of the buffer, writing reports the number of the block. -/
def sample_ops : block_device_ops_t :=
  { read := some fun _ lba b => (0, lba :: b.drop 1),
    write := some fun _ lba _ => (lba : Int) }

/-- A sample device of four blocks driven by `sample_ops`. -/
def sample_dev : block_device_t :=
  { name := "fd0".toList, block_size := 512, num_blocks := 4,
    driver_private := 7, ops := some sample_ops }

/-- The registry after `fd0` and `hd0` have been registered. -/
def sample_registry : Registry :=
  (blkdev_register
    (blkdev_register Registry.init "fd0".toList 512 2880 (some sample_ops) 0 true true).2
    "hd0".toList 512 1000 (some sample_ops) 1 true true).2

/-- A FAT of four entries: 0xFF0, 0xFFF, 0x003 and 0x004. -/
def sample_fat : Buf := [0xF0, 0xFF, 0xFF, 0x03, 0x40, 0x00]

/-- A handle that carries `sample_fat` and no device. -/
def sample_fat_handle : fat12_handle_t :=
  { bpb :=
      { bytes_per_sector := 512, sectors_per_cluster := 1, rsrvd_cnt := 1, num_fats := 2,
        max_root_dir_entries := 224, total_sectors := 2880, media_descriptor := 0xF0,
        sectors_per_fat := 9, sectors_per_track := 18, num_heads := 2,
        hidden_sectors := 0, total_sectors_large := 0 },
    fat_start := 1, root_dir_start := 19, root_dir_sectors := 14, data_area_start := 33,
    fat_table := sample_fat, block_dev := none }

/-- The first sector of a sample root directory: the volume label `LEANIX`, a
deleted entry, the file `HELLO` (cluster 2, 1000 bytes), the directory `BIN`
(cluster 3), and the end-of-directory marker in all that follows. -/
def sample_root_sector : Buf :=
  [76, 69, 65, 78, 73, 88, 32, 32, 32, 32, 32, 0x08] ++ List.replicate 20 0 ++
  ([0xE5, 69, 76, 76, 79, 32, 32, 32, 32, 32, 32, 0x20] ++ List.replicate 14 0 ++
    [5, 0, 100, 0, 0, 0]) ++
  ([72, 69, 76, 76, 79, 32, 32, 32, 32, 32, 32, 0x20] ++ List.replicate 14 0 ++
    [2, 0, 0xE8, 0x03, 0, 0]) ++
  ([66, 73, 78, 32, 32, 32, 32, 32, 32, 32, 32, 0x10] ++ List.replicate 14 0 ++
    [3, 0, 0, 0, 0, 0]) ++
  List.replicate 384 0

/-- A disk whose sector 19 is `sample_root_sector`; all other sectors are
zero. -/
def sample_dir_disk (lba : Nat) : Buf :=
  if lba = 19 then sample_root_sector else List.replicate 512 0

/-- A mounted volume whose root directory starts with `sample_root_sector`. -/
def sample_dir_volume : fat12_handle_t :=
  { sample_volume 1 with
    block_dev := some
      { name := "fd0".toList, block_size := 512, num_blocks := 2880, driver_private := 0,
        ops := some { read := some (disk_read sample_dir_disk), write := none } } }

/-- The view of `sample_dir_volume` that its vnodes hold. -/
def sample_dir_link : vfs_link :=
  { type := some fs_type_ref.fat12_fs_type,
    fs_data := some (fs_private.fat12 sample_dir_volume) }

/-- The root vnode of `sample_dir_volume`. -/
def sample_root : vnode :=
  { name := ['/'], vfs_mountedhere := none, vfs_ptr := some sample_dir_link,
    type := vnode_type_t.V_DIRECTORY, ops := some vnode_ops_ref.fat12_vnode_ops,
    flags := 0, data := none }

/-- Two sample filesystem types. The FAT12 one mounts `fd0` as
`sample_dir_volume`; the other one mounts any device and keeps the length of
the device name as its private data. -/
def sample_types : fs_type_ref → fs_type_t
  | fs_type_ref.fat12_fs_type =>
    { fs_name := "fat12".toList,
      mount := fun dev =>
        if dev = "fd0".toList then
          some { type := some fs_type_ref.fat12_fs_type, vcovered := none,
                 vroot := some sample_root,
                 fs_data := some (fs_private.fat12 sample_dir_volume) }
        else none,
      unmount := fun _ => 0 }
  | fs_type_ref.hfs_fs_type =>
    { fs_name := "hfs".toList,
      mount := fun dev =>
        some { type := some fs_type_ref.hfs_fs_type, vcovered := none,
               vroot := some
                 { zero_vnode with
                   name := ['/'], type := vnode_type_t.V_DIRECTORY,
                   ops := some (vnode_ops_ref.other 0) },
               fs_data := some (fs_private.other dev.length) },
      unmount := fun _ => 0 }

/-- The instance that `vfs_mount` makes of the second sample type for the
device `dev` and the mount point `/name`. -/
def sample_instance (dev name : CStr) : vfs :=
  { type := some fs_type_ref.hfs_fs_type,
    vcovered := some
      { zero_vnode with
        vfs_mountedhere := some
          { type := some fs_type_ref.hfs_fs_type,
            fs_data := some (fs_private.other dev.length) },
        type := vnode_type_t.V_DIRECTORY,
        name := name },
    vroot := some
      { zero_vnode with
        name := ['/'], type := vnode_type_t.V_DIRECTORY,
        ops := some (vnode_ops_ref.other 0) },
    fs_data := some (fs_private.other dev.length) }

/-- The mount table after `vfs_init` and `vfs_mount ("fd0", "/fd0", "fat12")`:
the instance in slot 0, four null slots behind it. -/
def sample_mounts : MountTable :=
  { _mountpoints :=
      [Slot.fs
        { type := some fs_type_ref.fat12_fs_type,
          vcovered := some
            { zero_vnode with
              vfs_mountedhere := some sample_dir_link,
              type := vnode_type_t.V_DIRECTORY,
              name := "fd0".toList },
          vroot := some sample_root,
          fs_data := some (fs_private.fat12 sample_dir_volume) },
       Slot.null, Slot.null, Slot.null, Slot.null],
    _curr_size := 5 }

/-- A backend whose `read` and `write` report one byte, whatever they are
asked. -/
def sample_vnode_ops : vnode_ops_ref → vnode_ops_t :=
  fun _ =>
    { open_ := none, close := none,
      read := some fun _ _ _ buf => some { ret := 1, buf := buf },
      write := some fun _ _ _ _ => some 1,
      readdir := none, mkdir := none, remove := none, create := none }

/-- An open file on `sample_root` at offset `offset`. -/
def sample_handle (offset : Nat) : file_t :=
  { vnode_ptr := some sample_root, f_offset := offset, f_flags := 0 }

/-- The mount table after `vfs_init` and `vfs_mount ("hd1", "/m", "hfs")` with
the sample types. -/
def sample_mounts_m : MountTable :=
  { _mountpoints :=
      [Slot.fs (sample_instance "hd1".toList "m".toList),
       Slot.null, Slot.null, Slot.null, Slot.null],
    _curr_size := 5 }

/-- The table `sample_mounts` after `vfs_mount ("hd1", "/hd1", "hfs")` with
the sample types. -/
def sample_mounts_hd1 : MountTable :=
  { sample_mounts with
    _mountpoints :=
      sample_mounts._mountpoints.set 1
        (Slot.fs (sample_instance "hd1".toList "hd1".toList)) }

/-- The vnode that a lookup of `/BIN` in the sample root directory gives: the
directory entry at index 3 of sector 19. -/
def sample_bin_dir : vnode :=
  fat12_new_node sample_root "/BIN".toList 19 3 (dir_entry_at sample_root_sector 3)

/-- A call that registers a device of 512-byte blocks driven by `sample_ops`,
with both allocations succeeding. -/
def sample_call (name : CStr) (num_blocks driver_private : Nat) : RegisterCall :=
  { name := name, block_size := 512, num_blocks := num_blocks, ops := some sample_ops,
    driver_private := driver_private, malloc_table := true, malloc_dev := true }

/-- Three calls: `fd0`, `hd0`, and `fd0` once more. -/
def sample_calls : List RegisterCall :=
  [sample_call "fd0".toList 2880 0, sample_call "hd0".toList 1000 1,
   sample_call "fd0".toList 64 2]

/-- A bitmap whose bits 0, 1 and 2 are set and all others clear. -/
def sample_bitmap : Bitmap := fun w => if w = 0 then 0x7 else 0

/-- A superblock whose inode bitmap starts at block 1 and whose block bitmap
starts at block 2. -/
def sample_superblock : superblock :=
  { s_blocks_count := 1024, s_inodes_count := 128, s_block_bitmap := 2, s_inode_bitmap := 1,
    s_inode_table_block_start := 3, s_data_blocks_start := 11, s_magic := HFS_MAGIC }

/-- Sample surroundings of the FAT12 operations: every instance has
`sample_root` as its root, every allocation succeeds, fresh memory holds the
byte 0xCC. -/
def sample_env : fat12_env :=
  { vroot_of := fun _ => some sample_root, malloc_node := true, malloc_inode := true,
    malloc_buf := true, junk := fun _ => 0xCC }

/-- The operations tables of the sample system: the FAT12 table for the FAT12
pointer, the one-byte backend for every other pointer. -/
def sample_ops_of : vnode_ops_ref → vnode_ops_t
  | vnode_ops_ref.fat12_vnode_ops => fat12_vnode_ops sample_env
  | vnode_ops_ref.other id => sample_vnode_ops (vnode_ops_ref.other id)

/-- A floppy drive whose driver fails every read: it returns -1 and leaves the
buffer as it is. -/
def sample_failing_floppy : block_device_t :=
  { name := "fd0".toList, block_size := 512, num_blocks := 2880, driver_private := 0,
    ops := some { read := some fun _ _ b => (-1, b), write := none } }

/-- The vnode of a regular file of 1000 bytes in cluster 2 of a volume on
`sample_failing_floppy`. -/
def sample_failing_file : vnode :=
  { sample_file 1 1000 with
    vfs_ptr := some
      { type := some fs_type_ref.fat12_fs_type,
        fs_data := some (fs_private.fat12
          { sample_volume 1 with block_dev := some sample_failing_floppy }) } }

/-- A boot sector: 512 bytes per sector, one sector per cluster, one reserved
sector, two FATs of one sector each, 16 root directory entries, 2880 sectors,
and `hidden` hidden sectors. -/
def sample_bootsector (hidden : Nat) : Buf :=
  [0xEB, 0x3C, 0x90] ++ [76, 69, 65, 78, 73, 88, 79, 83] ++
  [0x00, 0x02, 1, 1, 0, 2, 16, 0, 0x40, 0x0B, 0xF0, 1, 0, 18, 0, 2, 0] ++
  u32_bytes hidden ++ [0, 0, 0, 0] ++ List.replicate 476 0

/-- A disk whose block 0 is `sample_bootsector hidden`; all other blocks are
zero. -/
def sample_boot_disk (hidden : Nat) (lba : Nat) : Buf :=
  if lba = 0 then sample_bootsector hidden else List.replicate 512 0

/-- The registry after a drive `hd0` that serves `sample_boot_disk hidden` has
been registered. -/
def sample_boot_registry (hidden : Nat) : Registry :=
  Registry.init.after
    [{ name := "hd0".toList, block_size := 512, num_blocks := 2880,
       ops := some { read := some (disk_read (sample_boot_disk hidden)), write := none },
       driver_private := 0, malloc_table := true, malloc_dev := true }]

/-- Allocations that all succeed, with zeroed fresh memory. -/
def sample_mount_env : fat12_mount_env :=
  { malloc_fs := true, malloc_bootsector := true, malloc_fat := true, malloc_fsys := true,
    malloc_vroot := true, malloc_inode := true,
    junk_bootsector := fun _ => 0, junk_fat := fun _ => 0 }

/-- A mounted volume on `sample_floppy` with one sector per cluster and the FAT
`fat`. -/
def sample_chain_volume (fat : Buf) : fat12_handle_t :=
  { sample_volume 1 with fat_table := fat }

/-- The vnode of a regular file of 1024 bytes that starts in cluster 2 of
`sample_chain_volume fat`. -/
def sample_chain_file (fat : Buf) : vnode :=
  { sample_file 1 1024 with
    vfs_ptr := some
      { type := some fs_type_ref.fat12_fs_type,
        fs_data := some (fs_private.fat12 (sample_chain_volume fat)) } }

/-- A FAT that chains cluster 2 to cluster 4 and ends the chain there; cluster 3
is a chain of its own. -/
def sample_split_fat : Buf := [0xF0, 0xFF, 0xFF, 0x04, 0xF0, 0xFF, 0xFF, 0x0F, 0x00]

/-- A FAT that chains cluster 2 to cluster 3 and ends the chain there. -/
def sample_consecutive_fat : Buf := [0xF0, 0xFF, 0xFF, 0x03, 0xF0, 0xFF]

/-- The `unmount` operations of the sample system: `fat12_unmount` for FAT12;
the other backend returns 0 and keeps the instance. -/
def sample_unmount_of : fs_type_ref → vfs → Option unmount_effect
  | fs_type_ref.fat12_fs_type => fat12_unmount
  | fs_type_ref.hfs_fs_type => fun _ => some { ret := 0, freed := false }

/-- Links of two elements in a row: element 1 is followed by element 2; every
other field is null. -/
def sample_links : list_links :=
  { next := fun x => if x = 1 then some 2 else none,
    prev := fun x => if x = 2 then some 1 else none }

/-- A list of the elements 1 and 2. -/
def sample_list : list_t := { head := some 1, tail := some 2, size := 2 }

/-- An order on elements by address. -/
def sample_compare (a b : elem_ptr) : Int := (a.val : Int) - (b.val : Int)

/-- Appends and removals in turn. -/
def sample_queue_calls : List queue_call :=
  [queue_call.append 1, queue_call.append 2, queue_call.remove_head, queue_call.append 3,
   queue_call.remove_head, queue_call.remove_head, queue_call.remove_head]

/-- A list of the single element 1. -/
def sample_single_list : list_t := { head := some 1, tail := some 1, size := 1 }

/-- Links that are all null. -/
def sample_null_links : list_links := { next := fun _ => none, prev := fun _ => none }

/-! ## Theorems -/

/-! ### driver/block.c -/

theorem name_taken_iff (tbl : List (Option block_device_t)) (n : Nat) (name : CStr) :
    name_taken tbl n name = true ↔
      ∃ i d, i < n ∧ tbl[i]? = some (some d) ∧ d.name = name := by
  unfold name_taken
  rw [List.any_eq_true]
  constructor
  · rintro ⟨e, he, hp⟩
    obtain ⟨i, hi⟩ := List.mem_iff_getElem?.1 he
    rw [List.getElem?_take] at hi
    by_cases hin : i < n
    · rw [if_pos hin] at hi
      cases e with
      | none => simp at hp
      | some d => exact ⟨i, d, hin, hi, by simpa using hp⟩
    · rw [if_neg hin] at hi
      simp at hi
  · rintro ⟨i, d, hin, hi, hd⟩
    refine ⟨some d, ?_, by simpa using hd⟩
    refine List.mem_iff_getElem?.2 ⟨i, ?_⟩
    rw [List.getElem?_take, if_pos hin]
    exact hi

theorem entry_of_table (r : Registry) (tbl : List (Option block_device_t))
    (h : r.block_devices = some tbl) (i : Nat) :
    r.entry i = if i < r.num_block_devices then (tbl[i]?).getD none else none := by
  unfold Registry.entry
  rw [h]
  simp [List.getD_eq_getElem?_getD]

theorem entry_eq_some_iff (r : Registry) (tbl : List (Option block_device_t))
    (h : r.block_devices = some tbl) (i : Nat) (d : block_device_t) :
    r.entry i = some d ↔ i < r.num_block_devices ∧ tbl[i]? = some (some d) := by
  rw [entry_of_table r tbl h]
  by_cases hi : i < r.num_block_devices
  · rw [if_pos hi]
    cases hg : tbl[i]? with
    | none => simp
    | some e => simp [hi]
  · rw [if_neg hi]
    simp [hi]

theorem name_taken_iff_entry (r : Registry) (tbl : List (Option block_device_t))
    (h : r.block_devices = some tbl) (name : CStr) :
    name_taken tbl r.num_block_devices name = true ↔
      ∃ i d, r.entry i = some d ∧ d.name = name := by
  rw [name_taken_iff]
  constructor
  · rintro ⟨i, d, hi, hg, hd⟩
    exact ⟨i, d, (entry_eq_some_iff r tbl h i d).2 ⟨hi, hg⟩, hd⟩
  · rintro ⟨i, d, he, hd⟩
    obtain ⟨hi, hg⟩ := (entry_eq_some_iff r tbl h i d).1 he
    exact ⟨i, d, hi, hg, hd⟩

/-- The three ways `register_device` can end. -/
theorem register_device_cases (r : Registry) (tbl : List (Option block_device_t))
    (name : CStr) (bs nb : Nat) (ops : Option block_device_ops_t) (priv : Nat)
    (md : Bool) :
    (register_device r tbl name bs nb ops priv md = (-1, r) ∧
        (r.max_block_devices ≤ r.num_block_devices ∨ md = false ∨
          name_taken tbl r.num_block_devices name = true)) ∨
    (register_device r tbl name bs nb ops priv md =
        (0, { r with
                block_devices := some (tbl.set r.num_block_devices
                  (some { name := name, block_size := bs, num_blocks := nb,
                          driver_private := priv, ops := ops })),
                num_block_devices := r.num_block_devices + 1 }) ∧
        r.num_block_devices < r.max_block_devices ∧ md = true ∧
          name_taken tbl r.num_block_devices name = false) := by
  unfold register_device
  by_cases h1 : r.num_block_devices ≥ r.max_block_devices
  · left
    simp [h1]
  · cases md with
    | false => left; simp [h1]
    | true =>
      cases h3 : name_taken tbl r.num_block_devices name with
      | true => left; simp [h1]
      | false =>
        right
        refine ⟨by simp [h1, h3], by omega, rfl, rfl⟩

theorem Inv_init : Registry.init.Inv where
  max_eq := rfl
  null_empty := fun _ => rfl
  len_eq := by intro tbl h; simp [Registry.init] at h
  count_le := by simp [Registry.init]
  filled := by intro i hi; simp [Registry.init] at hi
  names_unique := by intro i j d e hd; simp [Registry.init, Registry.entry] at hd

/-- Storing a new device in slot `num_block_devices` keeps the invariant, when
the array has room and the name is free. -/
theorem Inv_store (r : Registry) (tbl : List (Option block_device_t))
    (hmax : r.max_block_devices = 16) (htbl : tbl.length = 16)
    (hcount : r.num_block_devices < 16)
    (hfilled : ∀ i, i < r.num_block_devices → ∃ d, tbl[i]? = some (some d))
    (huniq : ∀ i j d e, i < r.num_block_devices → j < r.num_block_devices →
      tbl[i]? = some (some d) → tbl[j]? = some (some e) → d.name = e.name → i = j)
    (dev : block_device_t)
    (hfree : name_taken tbl r.num_block_devices dev.name = false) :
    Registry.Inv { r with
      block_devices := some (tbl.set r.num_block_devices (some dev)),
      num_block_devices := r.num_block_devices + 1 } := by
  have hget : ∀ i, (tbl.set r.num_block_devices (some dev))[i]? =
      if r.num_block_devices = i then some (some dev) else tbl[i]? := by
    intro i
    rw [List.getElem?_set]
    by_cases h : r.num_block_devices = i
    · simp [h, htbl]; omega
    · simp [h]
  have hnot : ∀ i d, i < r.num_block_devices → tbl[i]? = some (some d) →
      d.name ≠ dev.name := by
    intro i d hi hg hn
    have : name_taken tbl r.num_block_devices dev.name = true :=
      (name_taken_iff _ _ _).2 ⟨i, d, hi, hg, hn⟩
    rw [hfree] at this
    exact Bool.noConfusion this
  have hent : ∀ i d,
      Registry.entry { r with
        block_devices := some (tbl.set r.num_block_devices (some dev)),
        num_block_devices := r.num_block_devices + 1 } i = some d ↔
      (i = r.num_block_devices ∧ d = dev) ∨
        (i < r.num_block_devices ∧ tbl[i]? = some (some d)) := by
    intro i d
    rw [entry_eq_some_iff _ _ rfl]
    simp only [hget]
    by_cases h : r.num_block_devices = i
    · subst h
      simp
      exact eq_comm
    · simp [h]
      constructor
      · rintro ⟨hlt, hg⟩
        exact Or.inr ⟨by omega, hg⟩
      · rintro (⟨hi, _⟩ | ⟨hlt, hg⟩)
        · exact absurd hi.symm h
        · exact ⟨by omega, hg⟩
  refine ⟨hmax, ?_, ?_, ?_, ?_, ?_⟩
  · intro h; simp at h
  · intro t ht
    simp at ht
    rw [← ht, List.length_set]
    exact htbl
  · show r.num_block_devices + 1 ≤ 16
    omega
  · intro i hi
    have hi2 : i < r.num_block_devices + 1 := hi
    by_cases h : i = r.num_block_devices
    · rw [(hent i dev).2 (Or.inl ⟨h, rfl⟩)]
      rfl
    · obtain ⟨d, hd⟩ := hfilled i (by omega)
      rw [(hent i d).2 (Or.inr ⟨by omega, hd⟩)]
      rfl
  · intro i j d e hd he hn
    rcases (hent i d).1 hd with ⟨hi, hdd⟩ | ⟨hi, hgi⟩ <;>
      rcases (hent j e).1 he with ⟨hj, hee⟩ | ⟨hj, hgj⟩
    · omega
    · subst hdd
      exact absurd hn.symm (hnot j e hj hgj)
    · subst hee
      exact absurd hn (hnot i d hi hgi)
    · exact huniq i j d e hi hj hgi hgj hn

theorem Inv_register_device (r : Registry) (tbl : List (Option block_device_t))
    (hr : r.Inv) (h : r.block_devices = some tbl)
    (name : CStr) (bs nb : Nat) (ops : Option block_device_ops_t) (priv : Nat)
    (md : Bool) :
    (register_device r tbl name bs nb ops priv md).2.Inv := by
  rcases register_device_cases r tbl name bs nb ops priv md with ⟨he, _⟩ | ⟨he, hlt, _, hfree⟩
  · rw [he]; exact hr
  · rw [he]
    have hmax := hr.max_eq
    refine Inv_store r tbl hmax (hr.len_eq tbl h) (by omega) ?_ ?_ _ hfree
    · intro i hi
      have := hr.filled i hi
      obtain ⟨d, hd⟩ := Option.isSome_iff_exists.1 this
      exact ⟨d, ((entry_eq_some_iff r tbl h i d).1 hd).2⟩
    · intro i j d e hi hj hgi hgj hn
      exact hr.names_unique i j d e ((entry_eq_some_iff r tbl h i d).2 ⟨hi, hgi⟩)
        ((entry_eq_some_iff r tbl h j e).2 ⟨hj, hgj⟩) hn

theorem Inv_blkdev_register (r : Registry) (hr : r.Inv)
    (name : CStr) (bs nb : Nat) (ops : Option block_device_ops_t) (priv : Nat)
    (mt md : Bool) :
    (blkdev_register r name bs nb ops priv mt md).2.Inv := by
  unfold blkdev_register
  cases h : r.block_devices with
  | some tbl => exact Inv_register_device r tbl hr h name bs nb ops priv md
  | none =>
    cases mt with
    | false =>
      simpa using Inv_init
    | true =>
      simp only [if_true]
      refine Inv_register_device _ _ ?_ rfl name bs nb ops priv md
      refine ⟨rfl, ?_, ?_, ?_, ?_, ?_⟩
      · intro h; simp at h
      · intro t ht; simp at ht; rw [← ht]; simp
      · simp
      · intro i hi; simp at hi
      · intro i j d e hd; simp [Registry.entry] at hd

theorem Inv_of_Reachable (r : Registry) (h : r.Reachable) : r.Inv := by
  induction h with
  | init => exact Inv_init
  | register r name bs nb ops priv mt md _ ih =>
    exact Inv_blkdev_register r ih name bs nb ops priv mt md

/-- C8: `blkread` returns -1 without a driver call when `lba` is not below
`num_blocks`, and otherwise exactly what the driver's `read` returns, called
once with the device's private data, `lba` and the buffer; `blkwrite` does the
same with `write`; both return -1, again without a driver call, for a null
device, a null operations table or a missing operation. -/
theorem blkread_blkwrite_dispatch (lba : Nat) (buf : Buf) :
    (∀ (d : block_device_t) (ops : block_device_ops_t) (rd : Nat → Nat → Buf → Int × Buf),
        d.ops = some ops → ops.read = some rd →
        (d.num_blocks ≤ lba →
          blkread (some d) lba buf = { ret := -1, buf := buf, calls := [] }) ∧
        (lba < d.num_blocks →
          blkread (some d) lba buf =
            { ret := (rd d.driver_private lba buf).1,
              buf := (rd d.driver_private lba buf).2,
              calls := [DrvCall.read d.driver_private lba] })) ∧
    (∀ (d : block_device_t) (ops : block_device_ops_t) (wr : Nat → Nat → Buf → Int),
        d.ops = some ops → ops.write = some wr →
        (d.num_blocks ≤ lba →
          blkwrite (some d) lba buf = { ret := -1, buf := buf, calls := [] }) ∧
        (lba < d.num_blocks →
          blkwrite (some d) lba buf =
            { ret := wr d.driver_private lba buf,
              buf := buf,
              calls := [DrvCall.write d.driver_private lba] })) ∧
    (blkread none lba buf = { ret := -1, buf := buf, calls := [] } ∧
      blkwrite none lba buf = { ret := -1, buf := buf, calls := [] }) ∧
    (∀ d : block_device_t, d.ops = none →
        blkread (some d) lba buf = { ret := -1, buf := buf, calls := [] } ∧
        blkwrite (some d) lba buf = { ret := -1, buf := buf, calls := [] }) ∧
    (∀ (d : block_device_t) (ops : block_device_ops_t), d.ops = some ops →
        (ops.read = none →
          blkread (some d) lba buf = { ret := -1, buf := buf, calls := [] }) ∧
        (ops.write = none →
          blkwrite (some d) lba buf = { ret := -1, buf := buf, calls := [] })) := by
  refine ⟨?_, ?_, ⟨rfl, rfl⟩, ?_, ?_⟩
  · intro d ops rd hops hrd
    constructor
    · intro hle
      simp [blkread, hops, hrd, hle]
    · intro hlt
      have : ¬ d.num_blocks ≤ lba := by omega
      simp [blkread, hops, hrd, this]
  · intro d ops wr hops hwr
    constructor
    · intro hle
      simp [blkwrite, hops, hwr, hle]
    · intro hlt
      have : ¬ d.num_blocks ≤ lba := by omega
      simp [blkwrite, hops, hwr, this]
  · intro d hops
    simp [blkread, blkwrite, hops]
  · intro d ops hops
    constructor
    · intro h; simp [blkread, hops, h]
    · intro h; simp [blkwrite, hops, h]

/-- C8, at `sample_dev`: block 2 is read and written through the driver, block 4
is refused. -/
theorem blkread_blkwrite_dispatch_witness :
    blkread (some sample_dev) 2 [0, 0] =
        { ret := 0, buf := [2, 0], calls := [DrvCall.read 7 2] } ∧
    blkread (some sample_dev) 4 [0, 0] = { ret := -1, buf := [0, 0], calls := [] } ∧
    blkwrite (some sample_dev) 2 [0, 0] =
        { ret := 2, buf := [0, 0], calls := [DrvCall.write 7 2] } ∧
    blkwrite (some sample_dev) 4 [0, 0] = { ret := -1, buf := [0, 0], calls := [] } :=
  ⟨((blkread_blkwrite_dispatch 2 [0, 0]).1 sample_dev sample_ops _ rfl rfl).2 (by decide),
   ((blkread_blkwrite_dispatch 4 [0, 0]).1 sample_dev sample_ops _ rfl rfl).1 (by decide),
   ((blkread_blkwrite_dispatch 2 [0, 0]).2.1 sample_dev sample_ops _ rfl rfl).2 (by decide),
   ((blkread_blkwrite_dispatch 4 [0, 0]).2.1 sample_dev sample_ops _ rfl rfl).1 (by decide)⟩

/-- C9: in a reachable registry state, with both allocations succeeding,
`blkdev_register` returns 0 exactly when fewer than 16 devices are registered
and no registered device is called `name`; it returns 0 or -1; and whenever it
returns -1, whatever the allocations did, the device count and every entry are
as before. -/
theorem blkdev_register_result (r : Registry) (h : r.Reachable)
    (name : CStr) (block_size num_blocks : Nat) (ops : Option block_device_ops_t)
    (driver_private : Nat) :
    ((blkdev_register r name block_size num_blocks ops driver_private true true).1 = 0 ↔
        r.num_block_devices < 16 ∧ ∀ i d, r.entry i = some d → d.name ≠ name) ∧
    (∀ malloc_table malloc_dev : Bool,
        ((blkdev_register r name block_size num_blocks ops driver_private
            malloc_table malloc_dev).1 = 0 ∨
         (blkdev_register r name block_size num_blocks ops driver_private
            malloc_table malloc_dev).1 = -1) ∧
        ((blkdev_register r name block_size num_blocks ops driver_private
            malloc_table malloc_dev).1 = -1 →
          (blkdev_register r name block_size num_blocks ops driver_private
              malloc_table malloc_dev).2.num_block_devices = r.num_block_devices ∧
          ∀ i, (blkdev_register r name block_size num_blocks ops driver_private
              malloc_table malloc_dev).2.entry i = r.entry i)) := by
  have hinv := Inv_of_Reachable r h
  have hmax := hinv.max_eq
  cases htbl : r.block_devices with
  | none =>
    have hnum := hinv.null_empty htbl
    have hent : ∀ i, r.entry i = none := by
      intro i; simp [Registry.entry, htbl]
    have hfree : name_taken (List.replicate 16 none) 0 name = false := by
      simp [name_taken]
    have hstep : ∀ md, blkdev_register r name block_size num_blocks ops driver_private
        true md =
        register_device
          { block_devices := some (List.replicate 16 none),
            num_block_devices := 0, max_block_devices := 16 }
          (List.replicate 16 none) name block_size num_blocks ops driver_private md := by
      intro md; simp only [blkdev_register, htbl, if_true]
    have hkeep : ∀ i, Registry.entry
        { block_devices := some (List.replicate 16 none),
          num_block_devices := 0, max_block_devices := 16 } i = r.entry i := by
      intro i; rw [hent]; simp [Registry.entry]
    constructor
    · rw [hstep]
      rcases register_device_cases
          { block_devices := some (List.replicate 16 none),
            num_block_devices := 0, max_block_devices := 16 }
          (List.replicate 16 none) name block_size num_blocks ops driver_private true
        with ⟨_, hc⟩ | ⟨he, _⟩
      · rcases hc with hc | hc | hc
        · simp at hc
        · exact Bool.noConfusion hc
        · rw [hfree] at hc; exact Bool.noConfusion hc
      · rw [he]
        refine ⟨fun _ => ⟨by omega, ?_⟩, fun _ => rfl⟩
        intro i d hd
        rw [hent] at hd
        exact Option.noConfusion hd
    · intro mt md
      cases mt with
      | false =>
        simp [blkdev_register, htbl, hnum, hent, Registry.entry]
      | true =>
        rw [hstep]
        rcases register_device_cases
            { block_devices := some (List.replicate 16 none),
              num_block_devices := 0, max_block_devices := 16 }
            (List.replicate 16 none) name block_size num_blocks ops driver_private md
          with ⟨he, _⟩ | ⟨he, _⟩
        · rw [he]
          exact ⟨Or.inr rfl, fun _ => ⟨hnum.symm, hkeep⟩⟩
        · rw [he]
          exact ⟨Or.inl rfl, fun h0 => by simp at h0⟩
  | some tbl =>
    have hstep : ∀ mt md, blkdev_register r name block_size num_blocks ops driver_private
        mt md = register_device r tbl name block_size num_blocks ops driver_private md := by
      intro mt md; simp [blkdev_register, htbl]
    constructor
    · rw [hstep]
      rcases register_device_cases r tbl name block_size num_blocks ops driver_private true
        with ⟨he, hc⟩ | ⟨he, hlt, _, hfree⟩
      · rw [he]
        constructor
        · intro h0; simp at h0
        · rintro ⟨hlt, hno⟩
          rcases hc with hc | hc | hc
          · omega
          · exact Bool.noConfusion hc
          · obtain ⟨i, d, hd, hn⟩ := (name_taken_iff_entry r tbl htbl name).1 hc
            exact absurd hn (hno i d hd)
      · rw [he]
        refine ⟨fun _ => ⟨by omega, ?_⟩, fun _ => rfl⟩
        intro i d hd hn
        have : name_taken tbl r.num_block_devices name = true :=
          (name_taken_iff_entry r tbl htbl name).2 ⟨i, d, hd, hn⟩
        rw [hfree] at this
        exact Bool.noConfusion this
    · intro mt md
      rw [hstep]
      rcases register_device_cases r tbl name block_size num_blocks ops driver_private md
        with ⟨he, _⟩ | ⟨he, _⟩
      · rw [he]
        exact ⟨Or.inr rfl, fun _ => ⟨rfl, fun _ => rfl⟩⟩
      · rw [he]
        exact ⟨Or.inl rfl, fun h0 => by simp at h0⟩

/-- C9, at `sample_registry`: a third name is accepted, `fd0` is refused. -/
theorem blkdev_register_result_witness :
    sample_registry.Reachable ∧
    ((blkdev_register sample_registry "hd1".toList 512 64 none 2 true true).1 = 0 ↔
        sample_registry.num_block_devices < 16 ∧
          ∀ i d, sample_registry.entry i = some d → d.name ≠ "hd1".toList) ∧
    (blkdev_register sample_registry "hd1".toList 512 64 none 2 true true).1 = 0 ∧
    (blkdev_register sample_registry "fd0".toList 512 64 none 2 true true).1 = -1 :=
  ⟨Registry.Reachable.register _ _ _ _ _ _ _ _
      (Registry.Reachable.register _ _ _ _ _ _ _ _ Registry.Reachable.init),
   (blkdev_register_result sample_registry
      (Registry.Reachable.register _ _ _ _ _ _ _ _
        (Registry.Reachable.register _ _ _ _ _ _ _ _ Registry.Reachable.init))
      "hd1".toList 512 64 none 2).1,
   by decide, by decide⟩

/-- C10: in every registry state reachable from the initial one through calls
of `blkdev_register`, at most 16 devices are registered, the first
`num_block_devices` entries all hold a device, and two different entries never
hold devices of the same name. -/
theorem registry_names_unique (r : Registry) (h : r.Reachable) :
    r.num_block_devices ≤ 16 ∧
    (∀ i, i < r.num_block_devices → (r.entry i).isSome = true) ∧
    (∀ i j d e, r.entry i = some d → r.entry j = some e → i ≠ j → d.name ≠ e.name) := by
  have hinv := Inv_of_Reachable r h
  exact ⟨hinv.count_le, hinv.filled,
    fun i j d e hd he hij hn => hij (hinv.names_unique i j d e hd he hn)⟩

/-- C10, at `sample_registry`, which holds two devices. -/
theorem registry_names_unique_witness :
    sample_registry.Reachable ∧ sample_registry.num_block_devices = 2 ∧
    sample_registry.num_block_devices ≤ 16 ∧
    (∀ i, i < sample_registry.num_block_devices →
      (sample_registry.entry i).isSome = true) ∧
    (∀ i j d e, sample_registry.entry i = some d → sample_registry.entry j = some e →
      i ≠ j → d.name ≠ e.name) :=
  ⟨Registry.Reachable.register _ _ _ _ _ _ _ _
      (Registry.Reachable.register _ _ _ _ _ _ _ _ Registry.Reachable.init),
   by decide,
   registry_names_unique sample_registry
    (Registry.Reachable.register _ _ _ _ _ _ _ _
      (Registry.Reachable.register _ _ _ _ _ _ _ _ Registry.Reachable.init))⟩

/-! ### fs/fat12.c -/

theorem and_mask12 (x : Nat) : x &&& 0xFFF = x % 4096 :=
  Nat.and_pow_two_sub_one_eq_mod x 12

theorem and_mask4 (x : Nat) : x &&& 0x0F = x % 16 :=
  Nat.and_pow_two_sub_one_eq_mod x 4

theorem fentry_even (lo hi : Nat) (hlo : lo < 256) :
    ((lo + 256 * hi) &&& 0x0FFF) &&& 0xFFF = lo ||| ((hi &&& 0x0F) <<< 8) := by
  have key : 2 ^ 8 * (hi % 16) + lo = 2 ^ 8 * (hi % 16) ||| lo :=
    Nat.mul_add_lt_is_or hlo _
  rw [and_mask12, and_mask12, and_mask4, Nat.shiftLeft_eq, Nat.or_comm,
    Nat.mul_comm (hi % 16) (2 ^ 8), ← key]
  omega

theorem fentry_odd (lo hi : Nat) (hlo : lo < 256) (hhi : hi < 256) :
    ((lo + 256 * hi) >>> 4) &&& 0xFFF = (lo >>> 4) ||| (hi <<< 4) := by
  have hq : lo / 2 ^ 4 < 2 ^ 4 := by omega
  have key : 2 ^ 4 * hi + lo / 2 ^ 4 = 2 ^ 4 * hi ||| lo / 2 ^ 4 :=
    Nat.mul_add_lt_is_or hq _
  rw [and_mask12, Nat.shiftRight_eq_div_pow, Nat.shiftRight_eq_div_pow, Nat.shiftLeft_eq,
    Nat.or_comm, Nat.mul_comm hi (2 ^ 4), ← key]
  omega

/-- C3: when the bytes `lo` and `hi` at offsets `(N * 3) / 2` and
`(N * 3) / 2 + 1` lie inside the FAT, `_fat12_get_fentry` returns
`lo | ((hi & 0x0F) << 8)` for even `N` and `(lo >> 4) | (hi << 4)` for odd `N`,
and whatever it returns is below 0x1000. -/
theorem fat12_get_fentry_value (fs : fat12_handle_t) (N lo hi : Nat)
    (hlo : fs.fat_table[N * 3 / 2]? = some lo)
    (hhi : fs.fat_table[N * 3 / 2 + 1]? = some hi)
    (blo : lo < 256) (bhi : hi < 256) :
    _fat12_get_fentry fs N =
        some (if N % 2 = 0 then lo ||| ((hi &&& 0x0F) <<< 8)
              else (lo >>> 4) ||| (hi <<< 4)) ∧
    ∀ e, _fat12_get_fentry fs N = some e → e < 0x1000 := by
  have hval : _fat12_get_fentry fs N =
      some (if N % 2 = 0 then lo ||| ((hi &&& 0x0F) <<< 8)
            else (lo >>> 4) ||| (hi <<< 4)) := by
    unfold _fat12_get_fentry
    simp only [hlo, hhi, FAT12_CLUSTER_MASK, Nat.and_one_is_mod]
    by_cases hpar : N % 2 = 0
    · rw [if_pos hpar, if_neg (by simpa using hpar)]
      exact congrArg some (fentry_even lo hi blo)
    · rw [if_neg hpar, if_pos (by simpa using hpar)]
      exact congrArg some (fentry_odd lo hi blo bhi)
  refine ⟨hval, ?_⟩
  intro e he
  unfold _fat12_get_fentry at he
  simp only [hlo, hhi, FAT12_CLUSTER_MASK] at he
  have he2 := Option.some.inj he
  rw [← he2, and_mask12]
  omega

/-- C3, at `sample_fat`: entry 2 is 0x003 and entry 3 is 0x004. -/
theorem fat12_get_fentry_value_witness :
    _fat12_get_fentry sample_fat_handle 2 = some 0x003 ∧
    _fat12_get_fentry sample_fat_handle 3 = some 0x004 :=
  ⟨(fat12_get_fentry_value sample_fat_handle 2 0x03 0x40 rfl rfl
      (by decide) (by decide)).1,
   (fat12_get_fentry_value sample_fat_handle 3 0x40 0x00 rfl rfl
      (by decide) (by decide)).1⟩

set_option maxRecDepth 100000 in
/-- C1, the code at a cluster of two sectors: a 1024-byte file in cluster 2
of a volume with two sectors per cluster. `fat12_read` issues one block read
for the cluster, so the second half of the buffer receives what the fresh
scratch allocation held (`junk 512` and so on), whatever the disk holds in
sector 34; with 0xCC as the junk byte the result differs from the contents of
the cluster chain. -/
theorem fat12_read_two_sector_cluster :
    (∀ junk : Nat → Nat,
      fat12_read (some (sample_file 2 1024)) 0 1024 (some (List.replicate 1024 0)) true junk =
        some { ret := 1024,
               buf := some (sample_disk 33 ++ ((List.range 1024).map junk).drop 512) }) ∧
    chain_contents (sample_volume 2) sample_disk 2 1024 = sample_disk 33 ++ sample_disk 34 ∧
    fat12_read (some (sample_file 2 1024)) 0 1024 (some (List.replicate 1024 0)) true
        (fun _ => 0xCC) ≠
      some { ret := 1024,
             buf := some (chain_contents (sample_volume 2) sample_disk 2 1024) } := by
  refine ⟨fun junk => rfl, rfl, ?_⟩
  intro h
  have h1 := congrArg (fun r => r.bind fun x => x.buf.bind fun b => b[512]?) h
  exact absurd h1 (by decide)

/-- C2, the code at a wrapping `offs + size`: for a 10-byte file, offset 1 and
size 0xFFFFFFFF the sum wraps to 0, the clamp is skipped, no cluster is read
and the unclamped size comes back as the `int32_t` value -1, where
`min (size, F - offs)` is 9. -/
theorem fat12_read_size_wraps (buf : Buf) (junk : Nat → Nat) :
    fat12_read (some (sample_file 1 10)) 1 0xFFFFFFFF (some buf) true junk =
      some { ret := -1, buf := some buf } ∧
    min 0xFFFFFFFF (10 - 1) = 9 :=
  ⟨rfl, rfl⟩

/-- At or past the end of a regular file `fat12_read` returns 0 and leaves the
buffer as it is. -/
theorem fat12_read_eof (node : vnode) (link : vfs_link) (fsd : fs_private) (i : inode)
    (offs size : Nat) (b : Buf) (malloc_ok : Bool) (junk : Nat → Nat)
    (hdata : node.data = some (vnode_private.fat12 i))
    (hlink : node.vfs_ptr = some link) (hfs : link.fs_data = some fsd)
    (hreg : i.dir_entry.attributes &&& FAT12_DIR = 0) (hsize : 0 < size)
    (heof : i.dir_entry.file_size ≤ offs) :
    fat12_read (some node) offs size (some b) malloc_ok junk =
      some { ret := 0, buf := some b } := by
  have hs : ¬ size = 0 := by omega
  simp [fat12_read, hdata, hlink, hfs, hreg, hs, heof]

/-- Inside a regular file, when `offs + size` does not wrap, a `fat12_read`
that comes back with its scratch buffer allocated returns the clamped size
`min (size, F - offs)` as an `int32_t`. -/
theorem fat12_read_clamped (node : vnode) (link : vfs_link) (fsd : fs_private) (i : inode)
    (offs size : Nat) (b : Buf) (junk : Nat → Nat) (res : ReadResult)
    (hdata : node.data = some (vnode_private.fat12 i))
    (hlink : node.vfs_ptr = some link) (hfs : link.fs_data = some fsd)
    (hreg : i.dir_entry.attributes &&& FAT12_DIR = 0) (hsize : 0 < size)
    (hin : offs < i.dir_entry.file_size) (hsum : offs + size < 2 ^ 32)
    (hres : fat12_read (some node) offs size (some b) true junk = some res) :
    res.ret = toInt32 (min size (i.dir_entry.file_size - offs)) := by
  have hs : ¬ size = 0 := by omega
  have hmod : (offs + size) % 2 ^ 32 = offs + size := Nat.mod_eq_of_lt hsum
  have hclamp : (if (offs + size) % 2 ^ 32 > i.dir_entry.file_size
      then i.dir_entry.file_size - offs else size) =
      min size (i.dir_entry.file_size - offs) := by
    rw [hmod]
    split <;> omega
  have hne : ¬ i.dir_entry.file_size ≤ offs := by omega
  unfold fat12_read at hres
  simp only [hdata, hlink, hfs, hreg, hs, hne, ge_iff_le, if_false, ne_eq,
    not_true_eq_false, hclamp] at hres
  cases fsd with
  | other id => simp at hres
  | fat12 fs =>
    simp only at hres
    split at hres
    · exact Option.noConfusion hres
    · simp only [Bool.not_true, Bool.false_eq_true, if_false] at hres
      split at hres
      · exact Option.noConfusion hres
      · rw [← Option.some.inj hres]

theorem first_match_cons (x : Nat × Nat × fat12_dir_entry_t)
    (rest : List (Nat × Nat × fat12_dir_entry_t)) (fat_name : List Nat) :
    first_match (x :: rest) fat_name =
      if x.2.2.first_byte = FAT12_ENDDIR then none
      else if x.2.2.first_byte = FAT12_DELETED ∨ x.2.2.attributes &&& FAT12_VID ≠ 0 then
        first_match rest fat_name
      else if x.2.2.filename ++ x.2.2.extension = fat_name then some x
      else first_match rest fat_name := by
  unfold first_match
  by_cases h0 : x.2.2.first_byte = FAT12_ENDDIR
  · simp [List.takeWhile_cons, h0]
  · by_cases h1 : x.2.2.first_byte = FAT12_DELETED
    · have hne : ¬ FAT12_DELETED = FAT12_ENDDIR := by decide
      simp [List.takeWhile_cons, List.find?_cons, h1, hne]
    · by_cases h2 : x.2.2.attributes &&& FAT12_VID = 0
      · by_cases h3 : x.2.2.filename ++ x.2.2.extension = fat_name
        · simp [List.takeWhile_cons, List.find?_cons, h0, h1, h2, h3]
        · simp [List.takeWhile_cons, List.find?_cons, h0, h1, h2, h3]
      · simp [List.takeWhile_cons, List.find?_cons, h0, h1, h2]

theorem lookup_entries_spec (b : Buf) (fat_name : List Nat) (sec : Nat)
    (rest : List (Nat × Nat × fat12_dir_entry_t)) (k i : Nat) :
    first_match (((List.range' i k).map fun j => (sec, j, dir_entry_at b j)) ++ rest) fat_name =
      match _fat12_lookup_entries b fat_name k i with
      | Scan.ret r => r.map fun x => (sec, x)
      | Scan.next => first_match rest fat_name := by
  induction k generalizing i with
  | zero => simp [_fat12_lookup_entries]
  | succ k ih =>
    rw [List.range'_succ, List.map_cons, List.cons_append, first_match_cons]
    unfold _fat12_lookup_entries
    simp only
    by_cases h0 : (dir_entry_at b i).first_byte = FAT12_ENDDIR
    · simp [h0]
    · rw [if_neg h0, if_neg h0]
      by_cases h1 : (dir_entry_at b i).first_byte = FAT12_DELETED ∨
          (dir_entry_at b i).attributes &&& FAT12_VID ≠ 0
      · rw [if_pos h1, if_pos h1]
        exact ih (i + 1)
      · rw [if_neg h1, if_neg h1]
        by_cases h3 : (dir_entry_at b i).filename ++ (dir_entry_at b i).extension = fat_name
        · rw [if_pos h3, if_pos h3]
          rfl
        · rw [if_neg h3, if_neg h3]
          exact ih (i + 1)

theorem lookup_sectors_spec (fs : fat12_handle_t) (disk : Nat → Buf) (fat_name : List Nat)
    (hrange : fs.root_dir_start + fs.root_dir_sectors ≤ 2 ^ 32)
    (hdisk : ∀ s, s < fs.root_dir_sectors → serves fs.block_dev disk (fs.root_dir_start + s))
    (k s : Nat) (hk : s + k ≤ fs.root_dir_sectors) (buf : Buf) (hbuf : buf.length = 512) :
    _fat12_lookup_sectors fs fat_name k s buf =
      first_match
        ((List.range' s k).flatMap fun s =>
          (List.range 16).map fun i =>
            (fs.root_dir_start + s, i, dir_entry_at (disk (fs.root_dir_start + s)) i))
        fat_name := by
  induction k generalizing s buf with
  | zero => simp [_fat12_lookup_sectors, first_match]
  | succ k ih =>
    have hs : s < fs.root_dir_sectors := by omega
    obtain ⟨hlen, hrd⟩ := hdisk s hs
    have hmod : (fs.root_dir_start + s) % 2 ^ 32 = fs.root_dir_start + s :=
      Nat.mod_eq_of_lt (by omega)
    have hb : (blkread fs.block_dev (fs.root_dir_start + s) buf).buf =
        disk (fs.root_dir_start + s) := by
      rw [hrd buf (by omega), List.drop_eq_nil_of_le (by omega), List.append_nil]
    rw [List.range'_succ, List.flatMap_cons, List.range_eq_range', lookup_entries_spec]
    unfold _fat12_lookup_sectors
    simp only [hmod, hb]
    cases _fat12_lookup_entries (disk (fs.root_dir_start + s)) fat_name 16 0 with
    | ret r => rfl
    | next =>
      simp only
      rw [ih (s + 1) (by omega) _ hlen, List.range_eq_range']

theorem first_match_mem (entries : List (Nat × Nat × fat12_dir_entry_t))
    (fat_name : List Nat) (x : Nat × Nat × fat12_dir_entry_t)
    (h : first_match entries fat_name = some x) : x ∈ entries := by
  unfold first_match at h
  exact (List.takeWhile_sublist _).subset (List.mem_of_find?_eq_some h)

theorem root_dir_entries_mem (fs : fat12_handle_t) (disk : Nat → Buf)
    (x : Nat × Nat × fat12_dir_entry_t) (h : x ∈ root_dir_entries fs disk) :
    ∃ s, s < fs.root_dir_sectors ∧ x.1 = fs.root_dir_start + s ∧ x.2.1 < 16 ∧
      x.2.2 = dir_entry_at (disk x.1) x.2.1 := by
  unfold root_dir_entries at h
  rw [List.mem_flatMap] at h
  obtain ⟨s, hs, hx⟩ := h
  rw [List.mem_map] at hx
  obtain ⟨i, hi, rfl⟩ := hx
  exact ⟨s, List.mem_range.1 hs, rfl, List.mem_range.1 hi, rfl⟩

/-- C4: on a root vnode of a FAT12 volume whose device serves the root
directory sectors from `disk`, with both allocations succeeding, `_fat12_lookup`
finds the first entry, in on-disk order and in front of the first entry whose
first name byte is 0x00, that is not deleted, has no VID bit and carries the
8.3 form of `name` without its leading slashes. The vnode returned holds that
entry (the 32 bytes at index `i` of sector `sector`), the sector number and the
index, and it is a directory exactly when the DIR bit is set, a regular file
otherwise. Without such an entry the result is `NULL`. -/
theorem fat12_lookup_first_match (dir_node : vnode) (link : vfs_link)
    (fs : fat12_handle_t) (disk : Nat → Buf) (name : CStr) (junk : Nat → Nat)
    (hroot : dir_node.name = ['/'])
    (hlink : dir_node.vfs_ptr = some link)
    (hfs : link.fs_data = some (fs_private.fat12 fs))
    (hrange : fs.root_dir_start + fs.root_dir_sectors ≤ 2 ^ 32)
    (hdisk : ∀ s, s < fs.root_dir_sectors →
      serves fs.block_dev disk (fs.root_dir_start + s)) :
    match first_match (root_dir_entries fs disk)
        (_fat12_normal_to_8_3 (name.dropWhile fun c => c = '/')) with
    | some (sector, i, e) =>
      e = dir_entry_at (disk sector) i ∧
      ∃ v, _fat12_lookup dir_node name true true junk = some (some v) ∧
        v.data = some (vnode_private.fat12
          { dir_entry := e, dir_sector := sector, dir_offset := i }) ∧
        (v.type = vnode_type_t.V_DIRECTORY ↔ e.attributes &&& FAT12_DIR ≠ 0) ∧
        (v.type = vnode_type_t.V_FILE ↔ e.attributes &&& FAT12_DIR = 0)
    | none => _fat12_lookup dir_node name true true junk = some none := by
  have hloop := lookup_sectors_spec fs disk
    (_fat12_normal_to_8_3 (name.dropWhile fun c => c = '/')) hrange hdisk
    fs.root_dir_sectors 0 (by omega) ((List.range 512).map junk) (by simp)
  rw [← List.range_eq_range'] at hloop
  change _ = first_match (root_dir_entries fs disk) _ at hloop
  have hcode : _fat12_lookup dir_node name true true junk =
      some ((first_match (root_dir_entries fs disk)
        (_fat12_normal_to_8_3 (name.dropWhile fun c => c = '/'))).map
          fun x => fat12_new_node dir_node name x.1 x.2.1 x.2.2) := by
    unfold _fat12_lookup
    simp only [hroot, hlink, hfs, hloop, ne_eq, not_true_eq_false, if_false]
    cases first_match (root_dir_entries fs disk)
        (_fat12_normal_to_8_3 (name.dropWhile fun c => c = '/')) with
    | none => rfl
    | some x => rfl
  cases hm : first_match (root_dir_entries fs disk)
      (_fat12_normal_to_8_3 (name.dropWhile fun c => c = '/')) with
  | none =>
    rw [hm] at hcode
    exact hcode
  | some x =>
    obtain ⟨sector, i, e⟩ := x
    rw [hm] at hcode
    obtain ⟨s, _, _, _, he⟩ := root_dir_entries_mem fs disk _ (first_match_mem _ _ _ hm)
    refine ⟨he, fat12_new_node dir_node name sector i e, hcode, rfl, ?_, ?_⟩
    · by_cases hd : e.attributes &&& FAT12_DIR = 0
      · simp [fat12_new_node, hd]
      · simp [fat12_new_node, hd]
    · by_cases hd : e.attributes &&& FAT12_DIR = 0
      · simp [fat12_new_node, hd]
      · simp [fat12_new_node, hd]

theorem sample_dir_serves (s : Nat) (hs : s < sample_dir_volume.root_dir_sectors) :
    serves sample_dir_volume.block_dev sample_dir_disk
      (sample_dir_volume.root_dir_start + s) := by
  have hlen : ∀ lba, (sample_dir_disk lba).length = 512 := by
    intro lba
    unfold sample_dir_disk
    split
    · simp only [sample_root_sector, List.length_append, List.length_replicate,
        List.length_cons, List.length_nil]
    · rw [List.length_replicate]
  have hs14 : s < 14 := hs
  refine ⟨hlen _, ?_⟩
  intro b _
  have hlt : ¬ (2880 ≤ 19 + s) := by omega
  change (blkread sample_dir_volume.block_dev (19 + s) b).buf =
    sample_dir_disk (19 + s) ++ b.drop 512
  simp only [blkread, sample_dir_volume, disk_read, hlen, ge_iff_le, hlt, if_false]

set_option maxRecDepth 100000 in
/-- C4, at the sample directory: the lookup of `/HELLO` passes the volume
label and the deleted entry and returns the file at index 2 of sector 19; the
lookup of `/NOPE` ends at the marker with `NULL`. -/
theorem fat12_lookup_first_match_witness :
    (∃ v, _fat12_lookup sample_root "/HELLO".toList true true (fun _ => 0xCC) =
        some (some v) ∧
      v.data = some (vnode_private.fat12
        { dir_entry := dir_entry_at sample_root_sector 2, dir_sector := 19,
          dir_offset := 2 }) ∧
      (v.type = vnode_type_t.V_DIRECTORY ↔
        (dir_entry_at sample_root_sector 2).attributes &&& FAT12_DIR ≠ 0) ∧
      (v.type = vnode_type_t.V_FILE ↔
        (dir_entry_at sample_root_sector 2).attributes &&& FAT12_DIR = 0)) ∧
    (dir_entry_at sample_root_sector 2).file_size = 1000 ∧
    _fat12_lookup sample_root "/NOPE".toList true true (fun _ => 0xCC) = some none :=
  ⟨(fat12_lookup_first_match sample_root sample_dir_link sample_dir_volume
      sample_dir_disk "/HELLO".toList (fun _ => 0xCC) rfl rfl rfl (by decide)
      sample_dir_serves).2,
   by decide,
   fat12_lookup_first_match sample_root sample_dir_link sample_dir_volume
      sample_dir_disk "/NOPE".toList (fun _ => 0xCC) rfl rfl rfl (by decide)
      sample_dir_serves⟩

/-! ### fs/vfs.c -/

/-- The sample mount tables are what `vfs_mount` produces. -/
theorem sample_mounts_eq :
    vfs_mount sample_types vfs_init "fd0".toList "/fd0".toList "fat12".toList true true
        (fun _ => Slot.wild) = some (0, sample_mounts) ∧
    vfs_mount sample_types sample_mounts "hd1".toList "/hd1".toList "hfs".toList true true
        (fun _ => Slot.wild) = some (0, sample_mounts_hd1) :=
  ⟨rfl, rfl⟩

/-- C5, the code at a path with two leading slashes: with `fd0` mounted,
`//fd0/HELLO` resolves to the root vnode of `fd0`, because `strtok_r` passes
over both slashes, but `rel_path` is cut at `path + 1 + strlen (token)`, which
is one character early: it receives `0/HELLO`, not `/HELLO`. With one leading
slash it receives `/HELLO`. -/
theorem vfs_resolve_two_slashes :
    _vfs_resolve_mountpoint sample_mounts (some "//fd0/HELLO".toList) 256 =
      some (some (sample_root, "0/HELLO".toList)) ∧
    _vfs_resolve_mountpoint sample_mounts (some "/fd0/HELLO".toList) 256 =
      some (some (sample_root, "/HELLO".toList)) ∧
    "0/HELLO".toList ≠ "/HELLO".toList :=
  ⟨rfl, rfl, by decide⟩

theorem strtok_r_component (comp rest : CStr) (hcomp : comp ≠ [])
    (hns : ∀ c ∈ comp, c ≠ '/') (hrest : rest = [] ∨ rest.head? = some '/') :
    strtok_r ('/' :: (comp ++ rest)) = some comp := by
  cases comp with
  | nil => exact absurd rfl hcomp
  | cons c cs =>
    have hc : c ≠ '/' := hns c (List.mem_cons_self _ _)
    have htail : rest.takeWhile (fun c => decide (c ≠ '/')) = [] := by
      rcases hrest with h | h
      · subst h; rfl
      · cases rest with
        | nil => rfl
        | cons d ds =>
          simp only [List.head?_cons, Option.some.injEq] at h
          subst h
          simp
    have htw : ((c :: cs) ++ rest).takeWhile (fun c => decide (c ≠ '/')) = c :: cs := by
      rw [List.takeWhile_append_of_pos (fun a ha => by simpa using hns a ha), htail,
        List.append_nil]
    unfold strtok_r
    simp only [List.dropWhile_cons, decide_True, if_true, List.cons_append, hc, decide_False]
    simp only [Bool.false_eq_true, if_false]
    exact congrArg some htw

/-- For a path of fewer than 256 characters
that is one slash, a component without slash, and then nothing or a suffix that
starts with a slash, `_vfs_resolve_mountpoint` returns the root vnode that the
scan of the mount table finds for the component and leaves the suffix (or `/`)
in `rel_path`; it returns `NULL` when the scan finds nothing, when the path
does not start with a slash, and when it holds nothing but slashes. -/
theorem vfs_resolve_one_slash (t : MountTable) (comp rest : CStr)
    (hcomp : comp ≠ []) (hns : ∀ c ∈ comp, c ≠ '/')
    (hrest : rest = [] ∨ rest.head? = some '/')
    (hlen : ('/' :: (comp ++ rest)).length < 256) :
    (∀ root, find_root comp (t._mountpoints.take t._curr_size) = some (some root) →
      _vfs_resolve_mountpoint t (some ('/' :: (comp ++ rest))) 256 =
        some (some (root, if rest = [] then ['/'] else rest))) ∧
    (find_root comp (t._mountpoints.take t._curr_size) = some none →
      _vfs_resolve_mountpoint t (some ('/' :: (comp ++ rest))) 256 = some none) ∧
    (∀ path : CStr, path.head? ≠ some '/' →
      _vfs_resolve_mountpoint t (some path) 256 = some none) ∧
    (∀ n, _vfs_resolve_mountpoint t (some (List.replicate (n + 1) '/')) 256 = some none) := by
  have htake : ('/' :: (comp ++ rest)).take 255 = '/' :: (comp ++ rest) :=
    List.take_of_length_le (by omega)
  have htok := strtok_r_component comp rest hcomp hns hrest
  have hdrop : ('/' :: (comp ++ rest)).drop (1 + comp.length) = rest := by
    rw [Nat.add_comm, List.drop_succ_cons, List.drop_left]
  have hlen2 : rest.length ≤ 255 := by
    simp only [List.length_cons, List.length_append] at hlen
    omega
  refine ⟨?_, ?_, ?_, ?_⟩
  · intro root hfind
    unfold _vfs_resolve_mountpoint
    simp only [htake, htok, hfind, hdrop]
    by_cases hr : rest = []
    · simp [hr]
    · simp [hr, List.take_of_length_le hlen2]
  · intro hfind
    unfold _vfs_resolve_mountpoint
    simp [htake, htok, hfind]
  · intro path hp
    simp [_vfs_resolve_mountpoint, hp]
  · intro n
    have hdw : ∀ m, (List.replicate m '/').dropWhile (fun c => decide (c = '/')) = [] := by
      intro m
      induction m with
      | zero => rfl
      | succ m ih => simp [List.replicate_succ, ih]
    have htk : strtok_r ((List.replicate (n + 1) '/').take 255) = none := by
      unfold strtok_r
      rw [List.take_replicate, hdw]
    have hhead : ¬ (List.replicate (n + 1) '/').head? ≠ some '/' := by
      simp [List.replicate_succ]
    unfold _vfs_resolve_mountpoint
    simp only [hhead, if_false, htk]
    rfl

theorem advance_eq (o : Nat) (n : Int) :
    ((advance o n : Nat) : Int) = ((o : Int) + n) % 2 ^ 32 := by
  unfold advance
  exact Int.toNat_of_nonneg (Int.emod_nonneg _ (by norm_num))

theorem advance_small (o : Nat) (n : Int) (h0 : 0 ≤ n) (h : (o : Int) + n < 2 ^ 32) :
    ((advance o n : Nat) : Int) = (o : Int) + n := by
  rw [advance_eq]
  exact Int.emod_eq_of_lt (by omega) h

/-- C6 as amended: for an open file with offset `o` on a vnode whose
operations table has the operation, a non-null buffer and `size > 0`, `vfs_read`
calls the backend `read` once, at offset `o`, and returns its value `n`; for
`n > 0` the offset becomes `o + n` modulo `2 ^ 32` (which is `o + n` when that
is below `2 ^ 32`), for `n <= 0` it stays `o`; the vnode and the flags of the
handle stay as they are. `vfs_write` does the same with `write`. With a null
file, a null vnode, a null buffer or size 0 both return -1 and make no backend
call. -/
theorem vfs_read_write_offset (ops_of : vnode_ops_ref → vnode_ops_t) (f : file_t)
    (v : vnode) (r : vnode_ops_ref) (b : Buf) (size : Nat)
    (hv : f.vnode_ptr = some v) (hr : v.ops = some r) (hsize : 0 < size) :
    (∀ rd res, (ops_of r).read = some rd →
        rd (some v) f.f_offset size (some b) = some res →
        ∃ f', vfs_read ops_of (some f) (some b) size =
            some { ret := res.ret, file := some f', buf := res.buf,
                   calls := [VnodeCall.read f.f_offset size] } ∧
          f'.vnode_ptr = f.vnode_ptr ∧ f'.f_flags = f.f_flags ∧
          (0 < res.ret → (f'.f_offset : Int) = ((f.f_offset : Int) + res.ret) % 2 ^ 32) ∧
          (0 < res.ret → (f.f_offset : Int) + res.ret < 2 ^ 32 →
            (f'.f_offset : Int) = (f.f_offset : Int) + res.ret) ∧
          (res.ret ≤ 0 → f'.f_offset = f.f_offset)) ∧
    (∀ wr n, (ops_of r).write = some wr →
        wr (some v) f.f_offset size (some b) = some n →
        ∃ f', vfs_write ops_of (some f) (some b) size =
            some { ret := n, file := some f', buf := some b,
                   calls := [VnodeCall.write f.f_offset size] } ∧
          f'.vnode_ptr = f.vnode_ptr ∧ f'.f_flags = f.f_flags ∧
          (0 < n → (f'.f_offset : Int) = ((f.f_offset : Int) + n) % 2 ^ 32) ∧
          (0 < n → (f.f_offset : Int) + n < 2 ^ 32 →
            (f'.f_offset : Int) = (f.f_offset : Int) + n) ∧
          (n ≤ 0 → f'.f_offset = f.f_offset)) ∧
    (∀ (buf : Option Buf) (size : Nat),
        vfs_read ops_of none buf size =
          some { ret := -1, file := none, buf := buf, calls := [] } ∧
        vfs_write ops_of none buf size =
          some { ret := -1, file := none, buf := buf, calls := [] }) ∧
    (∀ (g : file_t) (buf : Option Buf) (size : Nat),
        g.vnode_ptr = none ∨ buf = none ∨ size = 0 →
        vfs_read ops_of (some g) buf size =
          some { ret := -1, file := some g, buf := buf, calls := [] } ∧
        vfs_write ops_of (some g) buf size =
          some { ret := -1, file := some g, buf := buf, calls := [] }) := by
  have hne : ¬ size = 0 := by omega
  refine ⟨?_, ?_, fun buf size => ⟨rfl, rfl⟩, ?_⟩
  · intro rd res hrd hres
    by_cases hpos : 0 < res.ret
    · refine ⟨{ f with f_offset := advance f.f_offset res.ret }, ?_, rfl, rfl,
        fun _ => advance_eq _ _, fun _ h => advance_small _ _ (by omega) h,
        fun h => absurd hpos (by omega)⟩
      simp [vfs_read, hv, hr, hrd, hres, hne, hpos]
    · refine ⟨f, ?_, rfl, rfl, fun h => absurd h hpos, fun h => absurd h hpos,
        fun _ => rfl⟩
      simp [vfs_read, hv, hr, hrd, hres, hne, hpos]
  · intro wr n hwr hn
    by_cases hpos : 0 < n
    · refine ⟨{ f with f_offset := advance f.f_offset n }, ?_, rfl, rfl,
        fun _ => advance_eq _ _, fun _ h => advance_small _ _ (by omega) h,
        fun h => absurd hpos (by omega)⟩
      simp [vfs_write, hv, hr, hwr, hn, hne, hpos]
    · refine ⟨f, ?_, rfl, rfl, fun h => absurd h hpos, fun h => absurd h hpos,
        fun _ => rfl⟩
      simp [vfs_write, hv, hr, hwr, hn, hne, hpos]
  · intro g buf size h
    cases hg : g.vnode_ptr with
    | none => simp [vfs_read, vfs_write, hg]
    | some w =>
      have hb : buf = none ∨ size = 0 := by
        rcases h with h | h | h
        · rw [hg] at h; exact Option.noConfusion h
        · exact Or.inl h
        · exact Or.inr h
      simp [vfs_read, vfs_write, hg, hb]

/-- C6 as amended, at a handle with offset 100 on the sample backend, which
reports one byte: `vfs_read` and `vfs_write` return 1 and leave offset 101. -/
theorem vfs_read_write_offset_witness :
    (∃ f', vfs_read sample_vnode_ops (some (sample_handle 100)) (some [0, 0]) 2 =
        some { ret := 1, file := some f', buf := some [0, 0],
               calls := [VnodeCall.read 100 2] } ∧
      (f'.f_offset : Int) = 101) ∧
    (∃ f', vfs_write sample_vnode_ops (some (sample_handle 100)) (some [0, 0]) 2 =
        some { ret := 1, file := some f', buf := some [0, 0],
               calls := [VnodeCall.write 100 2] } ∧
      (f'.f_offset : Int) = 101) := by
  have h := vfs_read_write_offset sample_vnode_ops (sample_handle 100) sample_root
    vnode_ops_ref.fat12_vnode_ops [0, 0] 2 rfl rfl (by decide)
  obtain ⟨f', h1, _, _, _, h2, _⟩ := h.1 _ _ rfl rfl
  obtain ⟨g', g1, _, _, _, g2, _⟩ := h.2.1 _ _ rfl rfl
  exact ⟨⟨f', h1, h2 (by decide) (by decide)⟩, ⟨g', g1, g2 (by decide) (by decide)⟩⟩

/-- C6 as stated fails where the 32-bit offset wraps: at offset 0xFFFFFFFF a
read or write of one byte leaves offset 0, which is not 0xFFFFFFFF + 1. -/
theorem vfs_read_offset_wraps :
    (vfs_read sample_vnode_ops (some (sample_handle 0xFFFFFFFF)) (some [0]) 1).map
        (fun io => (io.ret, io.file.map fun f => f.f_offset)) = some (1, some 0) ∧
    (vfs_write sample_vnode_ops (some (sample_handle 0xFFFFFFFF)) (some [0]) 1).map
        (fun io => (io.ret, io.file.map fun f => f.f_offset)) = some (1, some 0) ∧
    (0 : Nat) ≠ 0xFFFFFFFF + 1 := by
  refine ⟨by decide, by decide, by decide⟩

theorem find_mounted_at (name : CStr) (v : vfs) (c : vnode)
    (hc : v.vcovered = some c) (hn : c.name = name) (l : List Slot) (k : Nat)
    (hk : l[k]? = some (Slot.fs v))
    (hpass : ∀ i s, i < k → l[i]? = some s → s.passes name) :
    find_mounted name l = some (some v) := by
  induction l generalizing k with
  | nil => simp at hk
  | cons s rest ih =>
    cases k with
    | zero =>
      simp at hk
      subst hk
      simp [find_mounted, hc, hn]
    | succ k =>
      have hs : s.passes name := hpass 0 s (by omega) (by simp)
      have hrest := ih k (by simpa using hk)
        (fun i s' hi hs' => hpass (i + 1) s' (by omega) (by simpa using hs'))
      cases s with
      | null => simpa [find_mounted] using hrest
      | wild => exact absurd hs (by simp [Slot.passes])
      | fs w =>
        obtain ⟨c', hc', hn'⟩ := hs
        simp [find_mounted, hc', hn', hrest]

theorem store_in_free_slot_some (v : vfs) (l l' : List Slot) (n : Nat)
    (h : store_in_free_slot v l n = some l') :
    ∃ k, k < n ∧ l'[k]? = some (Slot.fs v) ∧ ∀ i, i < k → l'[i]? = l[i]? := by
  induction l generalizing n l' with
  | nil =>
    cases n <;> simp [store_in_free_slot] at h
  | cons s rest ih =>
    cases n with
    | zero => simp [store_in_free_slot] at h
    | succ n =>
      cases s with
      | null =>
        simp [store_in_free_slot] at h
        subst h
        exact ⟨0, by omega, by simp, by intro i hi; omega⟩
      | fs w =>
        simp only [store_in_free_slot, Option.map_eq_some'] at h
        obtain ⟨l2, hl2, rfl⟩ := h
        obtain ⟨k, hk, hget, hsame⟩ := ih l2 n hl2
        refine ⟨k + 1, by omega, by simpa using hget, ?_⟩
        intro i hi
        cases i with
        | zero => simp
        | succ i => simpa using hsame i (by omega)
      | wild =>
        simp only [store_in_free_slot, Option.map_eq_some'] at h
        obtain ⟨l2, hl2, rfl⟩ := h
        obtain ⟨k, hk, hget, hsame⟩ := ih l2 n hl2
        refine ⟨k + 1, by omega, by simpa using hget, ?_⟩
        intro i hi
        cases i with
        | zero => simp
        | succ i => simpa using hsame i (by omega)

theorem store_in_free_slot_none (v : vfs) (l : List Slot) (n : Nat)
    (h : store_in_free_slot v l n = none) (i : Nat) (hi : i < n) :
    l[i]? ≠ some Slot.null := by
  induction l generalizing n i with
  | nil => simp
  | cons s rest ih =>
    cases n with
    | zero => omega
    | succ n =>
      cases s with
      | null => simp [store_in_free_slot] at h
      | fs w =>
        simp only [store_in_free_slot, Option.map_eq_none'] at h
        cases i with
        | zero => simp
        | succ i => simpa using ih n h i (by omega)
      | wild =>
        simp only [store_in_free_slot, Option.map_eq_none'] at h
        cases i with
        | zero => simp
        | succ i => simpa using ih n h i (by omega)

theorem realloc_getElem? (old : List Slot) (n : Nat) (fresh : Nat → Slot) (i : Nat) :
    (realloc old n fresh)[i]? = if i < n then some ((old[i]?).getD (fresh i)) else none := by
  unfold realloc
  by_cases h : i < n
  · simp [h, List.getElem?_range h]
  · simp [h]
    omega

/-- After `_add_to_mpoints` has stored `v`, a scan for the name of its covering
vnode finds `v`, when every element in use before was passed by such a scan. -/
theorem find_mounted_add (t : MountTable) (v : vfs) (c : vnode) (name : CStr)
    (realloc_ok : Bool) (fresh : Nat → Slot)
    (hc : v.vcovered = some c) (hn : c.name = name)
    (hsize : t._curr_size ≤ t._mountpoints.length)
    (hstored : realloc_ok = true ∨ ∃ i, i < t._curr_size ∧ t._mountpoints[i]? = some Slot.null)
    (hpass : ∀ i s, i < t._curr_size → t._mountpoints[i]? = some s → s.passes name) :
    find_mounted name
      ((_add_to_mpoints t v realloc_ok fresh)._mountpoints.take
        (_add_to_mpoints t v realloc_ok fresh)._curr_size) = some (some v) := by
  unfold _add_to_mpoints
  cases hst : store_in_free_slot v t._mountpoints t._curr_size with
  | some l =>
    obtain ⟨k, hk, hget, hsame⟩ := store_in_free_slot_some v _ _ _ hst
    refine find_mounted_at name v c hc hn _ k ?_ ?_
    · simp only [List.getElem?_take, hk, if_true]
      exact hget
    · intro i s hi hs
      have hin : i < t._curr_size := by omega
      simp only [List.getElem?_take, hin, if_true] at hs
      rw [hsame i hi] at hs
      exact hpass i s hin hs
  | none =>
    have hok : realloc_ok = true := by
      rcases hstored with h | ⟨i, hi, hnull⟩
      · exact h
      · exact absurd hnull (store_in_free_slot_none v _ _ hst i hi)
    subst hok
    simp only [Bool.not_true, Bool.false_eq_true, if_false]
    refine find_mounted_at name v c hc hn _ t._curr_size ?_ ?_
    · rw [List.getElem?_take, if_pos (by omega), List.getElem?_set]
      simp [realloc]
    · intro i s hi hs
      rw [List.getElem?_take, if_pos (by omega), List.getElem?_set, if_neg (by omega),
        realloc_getElem?, if_pos (by omega)] at hs
      have hlt : i < t._mountpoints.length := by omega
      rw [List.getElem?_eq_getElem hlt] at hs
      simp only [Option.getD_some, Option.some.injEq] at hs
      exact hpass i s hi (by rw [List.getElem?_eq_getElem hlt, hs])

/-- C7 as amended: when `vfs_mount (dev, "/" ++ name, fs_type)` returns 0 with
`name` shorter than 28 characters, the instance could be stored (a null slot in
use or a successful `realloc`), and every slot in use held null or an instance
covering another name, then `vfs_get_mounted ("/" ++ name)` returns the
instance that the backend of the type called `fs_type` made for `dev` in this
call, with a covering vnode that is a directory called `name` and points back
to the instance; its type is the one the backend stamped on it, so its type
name is `fs_type` when the backend stamped its own type object. `vfs_mount`
returns -1 and leaves the mount table as it is when no supported type is
called `fs_type` or the backend's mount returns `NULL`. -/
theorem vfs_mount_recorded (type_obj : fs_type_ref → fs_type_t) (t : MountTable)
    (src_dev fs_type : CStr) (malloc_ok realloc_ok : Bool) (fresh : Nat → Slot) :
    (∀ (stripped : CStr) (t' : MountTable),
        vfs_mount type_obj t src_dev ('/' :: stripped) fs_type malloc_ok realloc_ok fresh =
          some (0, t') →
        stripped.length < 28 →
        t._curr_size ≤ t._mountpoints.length →
        (realloc_ok = true ∨
          ∃ i, i < t._curr_size ∧ t._mountpoints[i]? = some Slot.null) →
        (∀ i s, i < t._curr_size → t._mountpoints[i]? = some s → s.passes stripped) →
        ∃ fst filesystem inst,
          fst ∈ fs_types ∧ (type_obj fst).fs_name = fs_type ∧
          (type_obj fst).mount src_dev = some filesystem ∧
          inst = { filesystem with
            vcovered := some
              { zero_vnode with
                vfs_mountedhere := some filesystem.link,
                type := vnode_type_t.V_DIRECTORY,
                name := stripped } } ∧
          vfs_get_mounted t' (some ('/' :: stripped)) = some (some inst) ∧
          (filesystem.type = some fst →
            ∃ r, inst.type = some r ∧ (type_obj r).fs_name = fs_type)) ∧
    (∀ mount_path : CStr,
        (∀ r, r ∈ fs_types → (type_obj r).fs_name ≠ fs_type) →
        vfs_mount type_obj t src_dev mount_path fs_type malloc_ok realloc_ok fresh =
          some (-1, t)) ∧
    (∀ (mount_path : CStr) (fst : fs_type_ref),
        fs_types.find? (fun r => decide ((type_obj r).fs_name = fs_type)) = some fst →
        (type_obj fst).mount src_dev = none →
        vfs_mount type_obj t src_dev mount_path fs_type malloc_ok realloc_ok fresh =
          some (-1, t)) := by
  refine ⟨?_, ?_, ?_⟩
  · intro stripped t' hret hlen hsize hstored hpass
    unfold vfs_mount at hret
    cases hfind : fs_types.find? (fun r => decide ((type_obj r).fs_name = fs_type)) with
    | none => simp [hfind] at hret
    | some fst =>
      cases hm : (type_obj fst).mount src_dev with
      | none => simp [hfind, hm] at hret
      | some filesystem =>
        cases malloc_ok with
        | false => simp [hfind, hm] at hret
        | true =>
          simp only [hfind, hm, Bool.not_true, Bool.false_eq_true, if_false,
            Option.some.injEq, Prod.mk.injEq, true_and] at hret
          have hfn : (type_obj fst).fs_name = fs_type := by
            simpa using List.find?_some hfind
          have htake : stripped.take 28 = stripped :=
            List.take_of_length_le (by omega)
          rw [htake] at hret
          refine ⟨fst, filesystem, _, List.mem_of_find?_eq_some hfind, hfn, hm, rfl, ?_,
            fun h => ⟨fst, h, hfn⟩⟩
          rw [← hret]
          exact find_mounted_add t _ _ stripped realloc_ok fresh rfl rfl hsize hstored hpass
  · intro mount_path hno
    have hfind : fs_types.find? (fun r => decide ((type_obj r).fs_name = fs_type)) = none := by
      rw [List.find?_eq_none]
      intro r hr
      simpa using hno r hr
    simp [vfs_mount, hfind]
  · intro mount_path fst hfind hm
    simp [vfs_mount, hfind, hm]

theorem sample_mounts_pass (i : Nat) (s : Slot) (hi : i < sample_mounts._curr_size)
    (hs : sample_mounts._mountpoints[i]? = some s) : s.passes "hd1".toList := by
  have hi5 : i < 5 := hi
  interval_cases i <;> simp [sample_mounts] at hs <;> subst hs
  · exact ⟨_, rfl, by decide⟩
  all_goals exact True.intro

/-- C7 as amended, at `sample_mounts`: `hd1` mounted at `/hd1` lands in the
free slot 1 and is what `vfs_get_mounted ("/hd1")` returns. -/
theorem vfs_mount_recorded_witness :
    (∃ fst filesystem inst,
      fst ∈ fs_types ∧ (sample_types fst).fs_name = "hfs".toList ∧
      (sample_types fst).mount "hd1".toList = some filesystem ∧
      inst = { filesystem with
        vcovered := some
          { zero_vnode with
            vfs_mountedhere := some filesystem.link,
            type := vnode_type_t.V_DIRECTORY,
            name := "hd1".toList } } ∧
      vfs_get_mounted sample_mounts_hd1 (some ('/' :: "hd1".toList)) = some (some inst) ∧
      (filesystem.type = some fst →
        ∃ r, inst.type = some r ∧ (sample_types r).fs_name = "hfs".toList)) ∧
    vfs_get_mounted sample_mounts_hd1 (some "/hd1".toList) =
      some (some (sample_instance "hd1".toList "hd1".toList)) :=
  ⟨(vfs_mount_recorded sample_types sample_mounts "hd1".toList "hfs".toList true true
      (fun _ => Slot.wild)).1 "hd1".toList sample_mounts_hd1 rfl (by decide) (by decide)
      (Or.inl rfl) sample_mounts_pass,
   rfl⟩

/-- C7 as stated fails when a path is mounted twice: after `hd1` was mounted
at `/m`, mounting `hd10` at `/m` returns 0 and stores its instance in slot 1,
but `vfs_get_mounted ("/m")` returns the instance of `hd1` in slot 0. -/
theorem vfs_mount_same_path_twice :
    vfs_mount sample_types vfs_init "hd1".toList "/m".toList "hfs".toList true true
        (fun _ => Slot.wild) = some (0, sample_mounts_m) ∧
    (∃ t, vfs_mount sample_types sample_mounts_m "hd10".toList "/m".toList "hfs".toList
          true true (fun _ => Slot.wild) = some (0, t) ∧
        t._mountpoints[1]? = some (Slot.fs (sample_instance "hd10".toList "m".toList)) ∧
        vfs_get_mounted t (some "/m".toList) =
          some (some (sample_instance "hd1".toList "m".toList))) ∧
    sample_instance "hd1".toList "m".toList ≠ sample_instance "hd10".toList "m".toList := by
  refine ⟨rfl, ⟨_, rfl, rfl, rfl⟩, ?_⟩
  intro h
  have h2 := congrArg
    (fun v : vfs => match v.fs_data with
      | some (fs_private.other n) => n
      | _ => 0) h
  exact absurd h2 (by decide)

/-! ### fs/fat12.c: cluster addresses and directory reads -/

/-- C15: for a cluster number `c >= 2`, `_fat12_cluster_to_lba` returns
`data_area_start + (c - 2) * sectors_per_cluster` reduced modulo `2 ^ 32`, which
is that sum itself when it is below `2 ^ 32`; for `c < 2` it returns 0. -/
theorem fat12_cluster_to_lba_value (fs : fat12_handle_t) (c : Nat) :
    (2 ≤ c →
      _fat12_cluster_to_lba fs c =
        (fs.data_area_start + (c - 2) * fs.bpb.sectors_per_cluster) % 2 ^ 32) ∧
    (2 ≤ c → fs.data_area_start + (c - 2) * fs.bpb.sectors_per_cluster < 2 ^ 32 →
      _fat12_cluster_to_lba fs c =
        fs.data_area_start + (c - 2) * fs.bpb.sectors_per_cluster) ∧
    (c < 2 → _fat12_cluster_to_lba fs c = 0) := by
  refine ⟨?_, ?_, ?_⟩
  · intro h
    have : ¬ c < 2 := by omega
    simp [_fat12_cluster_to_lba, this]
  · intro h hlt
    have : ¬ c < 2 := by omega
    unfold _fat12_cluster_to_lba
    rw [if_neg this, Nat.mod_eq_of_lt hlt]
  · intro h
    simp [_fat12_cluster_to_lba, h]

/-- C15, at `sample_volume`: cluster 2 lies at LBA 33, cluster 5 of a volume
with two sectors per cluster at LBA 39, and clusters 0 and 1 give 0. -/
theorem fat12_cluster_to_lba_value_witness :
    _fat12_cluster_to_lba (sample_volume 1) 2 = 33 ∧
    _fat12_cluster_to_lba (sample_volume 2) 5 = 39 ∧
    _fat12_cluster_to_lba (sample_volume 1) 0 = 0 ∧
    _fat12_cluster_to_lba (sample_volume 1) 1 = 0 :=
  ⟨(fat12_cluster_to_lba_value (sample_volume 1) 2).2.1 (by decide) (by decide),
   (fat12_cluster_to_lba_value (sample_volume 2) 5).2.1 (by decide) (by decide),
   (fat12_cluster_to_lba_value (sample_volume 1) 0).2.2 (by decide),
   (fat12_cluster_to_lba_value (sample_volume 1) 1).2.2 (by decide)⟩

/-- C16: for a vnode with a filesystem pointer whose inode's directory entry
has the DIR bit set, `fat12_read` returns -1 for every offset, size and buffer,
whatever the allocator does, and the buffer is as it was. -/
theorem fat12_read_directory (node : vnode) (link : vfs_link) (i : inode)
    (hdata : node.data = some (vnode_private.fat12 i))
    (hlink : node.vfs_ptr = some link)
    (hdir : i.dir_entry.attributes &&& FAT12_DIR ≠ 0)
    (offs size : Nat) (buf : Option Buf) (malloc_ok : Bool) (junk : Nat → Nat) :
    fat12_read (some node) offs size buf malloc_ok junk = some { ret := -1, buf := buf } := by
  unfold fat12_read
  simp only [hdata, hlink]
  cases buf with
  | none => rfl
  | some b =>
    by_cases hs : size = 0
    · simp [hs]
    · cases hfs : link.fs_data with
      | none => simp [hs]
      | some fsd => simp [hs, hdir]

/-- C16, at the directory `BIN` of the sample root directory. -/
theorem fat12_read_directory_witness :
    fat12_read (some sample_bin_dir) 0 16 (some [1, 2, 3]) true (fun _ => 0xCC) =
      some { ret := -1, buf := some [1, 2, 3] } :=
  fat12_read_directory sample_bin_dir sample_dir_link
    { dir_entry := dir_entry_at sample_root_sector 3, dir_sector := 19, dir_offset := 3 }
    rfl rfl (by decide) 0 16 (some [1, 2, 3]) true (fun _ => 0xCC)

/-! ### driver/block.c: lookup by name -/

theorem find_device_some (name : CStr) (l : List (Option block_device_t))
    (d : block_device_t) (h : find_device name l = some d) :
    d.name = name ∧ ∃ i : Nat, l[i]? = some (some d) := by
  induction l with
  | nil => simp [find_device] at h
  | cons e rest ih =>
    cases e with
    | none =>
      obtain ⟨hn, i, hi⟩ := ih (by simpa [find_device] using h)
      exact ⟨hn, i + 1, by simpa using hi⟩
    | some d' =>
      by_cases hd : d'.name = name
      · simp [find_device, hd] at h
        subst h
        exact ⟨hd, 0, by simp⟩
      · obtain ⟨hn, i, hi⟩ := ih (by simpa [find_device, hd] using h)
        exact ⟨hn, i + 1, by simpa using hi⟩

theorem find_device_none (name : CStr) (l : List (Option block_device_t))
    (h : find_device name l = none) (i : Nat) (d : block_device_t)
    (hi : l[i]? = some (some d)) : d.name ≠ name := by
  induction l generalizing i with
  | nil => simp at hi
  | cons e rest ih =>
    cases e with
    | none =>
      cases i with
      | zero => simp at hi
      | succ i => exact ih (by simpa [find_device] using h) i (by simpa using hi)
    | some d' =>
      by_cases hd : d'.name = name
      · simp [find_device, hd] at h
      · cases i with
        | zero =>
          simp at hi
          subst hi
          exact hd
        | succ i => exact ih (by simpa [find_device, hd] using h) i (by simpa using hi)

/-- In a registry that satisfies the invariant, `blkdev_get_by_name` returns
the one entry that carries the name, or `NULL` when no entry does. -/
theorem get_by_name_of_entry (r : Registry) (hr : r.Inv) (name : CStr) :
    (∀ i d, r.entry i = some d → d.name = name →
      blkdev_get_by_name r (some name) = some (some d)) ∧
    ((∀ i d, r.entry i = some d → d.name ≠ name) →
      blkdev_get_by_name r (some name) = some none) := by
  cases htbl : r.block_devices with
  | none =>
    have hnum := hr.null_empty htbl
    constructor
    · intro i d hd
      simp [Registry.entry, htbl] at hd
    · intro _
      simp [blkdev_get_by_name, htbl, hnum]
  | some tbl =>
    have hget : blkdev_get_by_name r (some name) =
        some (find_device name (tbl.take r.num_block_devices)) := by
      simp [blkdev_get_by_name, htbl]
    have hidx : ∀ j e, (tbl.take r.num_block_devices)[j]? = some (some e) →
        r.entry j = some e := by
      intro j e hj
      rw [List.getElem?_take] at hj
      by_cases hlt : j < r.num_block_devices
      · rw [if_pos hlt] at hj
        exact (entry_eq_some_iff r tbl htbl j e).2 ⟨hlt, hj⟩
      · rw [if_neg hlt] at hj
        exact Option.noConfusion hj
    constructor
    · intro i d hd hn
      rw [hget]
      cases hf : find_device name (tbl.take r.num_block_devices) with
      | none =>
        obtain ⟨hlt, hg⟩ := (entry_eq_some_iff r tbl htbl i d).1 hd
        have := find_device_none name _ hf i d (by
          rw [List.getElem?_take, if_pos hlt]; exact hg)
        exact absurd hn this
      | some e =>
        obtain ⟨hen, j, hj⟩ := find_device_some name _ e hf
        have hje := hidx j e hj
        have hij : i = j := hr.names_unique i j d e hd hje (by rw [hn, hen])
        subst hij
        rw [hd] at hje
        rw [Option.some.inj hje]
    · intro hno
      rw [hget]
      cases hf : find_device name (tbl.take r.num_block_devices) with
      | none => rfl
      | some e =>
        obtain ⟨hen, j, hj⟩ := find_device_some name _ e hf
        exact absurd hen (hno j e (hidx j e hj))

/-- What one call of `blkdev_register` does to the entries of a registry that
satisfies the invariant: nothing when it returns -1, and when it returns 0 the
name was free and the new record is the one entry added. -/
theorem register_call_effect (r : Registry) (hr : r.Inv) (c : RegisterCall) :
    ((c.run r).1 = -1 ∧ ∀ i, (c.run r).2.entry i = r.entry i) ∨
    ((c.run r).1 = 0 ∧ (∀ i d, r.entry i = some d → d.name ≠ c.name) ∧
      ∀ i d, (c.run r).2.entry i = some d ↔
        (i = r.num_block_devices ∧ d = c.device) ∨ r.entry i = some d) := by
  have key : ∀ (r0 : Registry) (tbl : List (Option block_device_t)),
      r0.block_devices = some tbl → tbl.length = 16 → r0.max_block_devices = 16 →
      ((register_device r0 tbl c.name c.block_size c.num_blocks c.ops c.driver_private
          c.malloc_dev).1 = -1 ∧
        ∀ i, (register_device r0 tbl c.name c.block_size c.num_blocks c.ops
          c.driver_private c.malloc_dev).2.entry i = r0.entry i) ∨
      ((register_device r0 tbl c.name c.block_size c.num_blocks c.ops c.driver_private
          c.malloc_dev).1 = 0 ∧
        (∀ i d, r0.entry i = some d → d.name ≠ c.name) ∧
        ∀ i d, (register_device r0 tbl c.name c.block_size c.num_blocks c.ops
          c.driver_private c.malloc_dev).2.entry i = some d ↔
          (i = r0.num_block_devices ∧ d = c.device) ∨ r0.entry i = some d) := by
    intro r0 tbl htbl hlen hmax
    rcases register_device_cases r0 tbl c.name c.block_size c.num_blocks c.ops
        c.driver_private c.malloc_dev with ⟨he, _⟩ | ⟨he, hlt, _, hfree⟩
    · left
      rw [he]
      exact ⟨rfl, fun _ => rfl⟩
    · right
      rw [he]
      refine ⟨rfl, ?_, ?_⟩
      · intro i d hd hn
        have : name_taken tbl r0.num_block_devices c.name = true :=
          (name_taken_iff_entry r0 tbl htbl c.name).2 ⟨i, d, hd, hn⟩
        rw [hfree] at this
        exact Bool.noConfusion this
      · intro i d
        rw [entry_eq_some_iff _ _ rfl, entry_eq_some_iff r0 tbl htbl]
        simp only [List.getElem?_set]
        by_cases h : r0.num_block_devices = i
        · subst h
          have hl : r0.num_block_devices < tbl.length := by omega
          simp only [if_true, hl, Option.some.injEq, Nat.lt_succ_self, true_and,
            Nat.lt_irrefl, false_and, or_false]
          exact eq_comm
        · simp only [if_neg h]
          constructor
          · rintro ⟨hlt2, hg⟩
            exact Or.inr ⟨by show i < r0.num_block_devices; have : i < r0.num_block_devices + 1 := hlt2; omega, hg⟩
          · rintro (⟨hi, _⟩ | ⟨hlt2, hg⟩)
            · exact absurd hi.symm h
            · exact ⟨by show i < r0.num_block_devices + 1; omega, hg⟩
  unfold RegisterCall.run blkdev_register
  cases htbl : r.block_devices with
  | some tbl =>
    exact key r tbl htbl (hr.len_eq tbl htbl) hr.max_eq
  | none =>
    have hnum := hr.null_empty htbl
    have hent : ∀ i, r.entry i = none := by
      intro i; simp [Registry.entry, htbl]
    cases c.malloc_table with
    | false =>
      left
      simp [Registry.entry, htbl]
    | true =>
      simp only [if_true]
      have hk := key
        { block_devices := some (List.replicate 16 none),
          num_block_devices := 0, max_block_devices := 16 }
        (List.replicate 16 none) rfl (by simp) rfl
      have hent0 : ∀ i, Registry.entry
          { block_devices := some (List.replicate 16 none),
            num_block_devices := 0, max_block_devices := 16 } i = none := by
        intro i; simp [Registry.entry]
      simp only [hent0] at hk
      simp only [hent, hnum]
      exact hk

theorem Inv_after (r : Registry) (hr : r.Inv) (calls : List RegisterCall) :
    (r.after calls).Inv := by
  induction calls generalizing r with
  | nil => exact hr
  | cons c cs ih =>
    exact ih _ (Inv_blkdev_register r hr c.name c.block_size c.num_blocks c.ops
      c.driver_private c.malloc_table c.malloc_dev)

theorem Inv_run (r : Registry) (hr : r.Inv) (c : RegisterCall) : (c.run r).2.Inv :=
  Inv_blkdev_register r hr c.name c.block_size c.num_blocks c.ops
    c.driver_private c.malloc_table c.malloc_dev

theorem after_append (r : Registry) (pre post : List RegisterCall) :
    r.after (pre ++ post) = (r.after pre).after post := by
  unfold Registry.after
  rw [List.foldl_append]

/-- Later calls of `blkdev_register` leave the entries in place. -/
theorem entry_after (r : Registry) (hr : r.Inv) (calls : List RegisterCall)
    (i : Nat) (d : block_device_t) (h : r.entry i = some d) :
    (r.after calls).entry i = some d := by
  induction calls generalizing r with
  | nil => exact h
  | cons c cs ih =>
    refine ih (c.run r).2 (Inv_run r hr c) ?_
    rcases register_call_effect r hr c with ⟨_, hsame⟩ | ⟨_, _, hnew⟩
    · rw [hsame]; exact h
    · exact (hnew i d).2 (Or.inr h)

/-- Every entry of the registry after `calls` was there before or is the record
of a call that returned 0. -/
theorem entry_after_origin (r : Registry) (hr : r.Inv) (calls : List RegisterCall)
    (i : Nat) (d : block_device_t) (h : (r.after calls).entry i = some d) :
    r.entry i = some d ∨
      ∃ pre c post, calls = pre ++ c :: post ∧ (c.run (r.after pre)).1 = 0 ∧
        d = c.device := by
  induction calls generalizing r with
  | nil => exact Or.inl h
  | cons c cs ih =>
    rcases ih (c.run r).2 (Inv_run r hr c) h with h1 | ⟨pre, c', post, hcs, hret, hd⟩
    · rcases register_call_effect r hr c with ⟨_, hsame⟩ | ⟨hret, _, hnew⟩
      · rw [hsame] at h1
        exact Or.inl h1
      · rcases (hnew i d).1 h1 with ⟨_, hd⟩ | hold
        · exact Or.inr ⟨[], c, cs, rfl, hret, hd⟩
        · exact Or.inl hold
    · exact Or.inr ⟨c :: pre, c', post, by rw [hcs]; rfl, hret, hd⟩

/-- C11: in the registry reached from the initial state through the calls
`calls` of `blkdev_register`: for every call among them that returned 0,
whatever calls followed it, `blkdev_get_by_name` of its name returns the device
that carries exactly its name, block size, block count, operations table and
private data, and `blkdev_get_block_size` and `blkdev_get_num_blocks` of that
device give the block size and count; `blkdev_get_by_name (NULL)` is `NULL`;
and for a name that no call registered with return value 0 the result is
`NULL`. -/
theorem blkdev_get_by_name_registered (calls : List RegisterCall) :
    (∀ pre c post, calls = pre ++ c :: post → (c.run (Registry.init.after pre)).1 = 0 →
      blkdev_get_by_name (Registry.init.after calls) (some c.name) =
          some (some
            { name := c.name, block_size := c.block_size, num_blocks := c.num_blocks,
              driver_private := c.driver_private, ops := c.ops }) ∧
        (∀ dev, blkdev_get_by_name (Registry.init.after calls) (some c.name) = some dev →
          blkdev_get_block_size dev = c.block_size ∧
          blkdev_get_num_blocks dev = c.num_blocks)) ∧
    blkdev_get_by_name (Registry.init.after calls) none = some none ∧
    (∀ name : CStr,
      (∀ pre c post, calls = pre ++ c :: post → c.name = name →
        (c.run (Registry.init.after pre)).1 ≠ 0) →
      blkdev_get_by_name (Registry.init.after calls) (some name) = some none) := by
  have hinv := Inv_after Registry.init Inv_init calls
  refine ⟨?_, rfl, ?_⟩
  · intro pre c post hcalls hret
    have hpre := Inv_after Registry.init Inv_init pre
    have hnew : ∃ i, (c.run (Registry.init.after pre)).2.entry i = some c.device := by
      rcases register_call_effect _ hpre c with ⟨hm, _⟩ | ⟨_, _, hnew⟩
      · rw [hret] at hm
        exact absurd hm (by decide)
      · exact ⟨_, (hnew _ _).2 (Or.inl ⟨rfl, rfl⟩)⟩
    obtain ⟨i, hi⟩ := hnew
    have hfinal : (Registry.init.after calls).entry i = some c.device := by
      have hsplit : Registry.init.after calls =
          ((c.run (Registry.init.after pre)).2).after post := by
        rw [hcalls, after_append]
        rfl
      rw [hsplit]
      exact entry_after _ (Inv_run _ hpre c) post i _ hi
    have hget := (get_by_name_of_entry _ hinv c.name).1 i c.device hfinal rfl
    refine ⟨hget, ?_⟩
    intro dev hdev
    rw [hget] at hdev
    rw [← Option.some.inj hdev]
    exact ⟨rfl, rfl⟩
  · intro name hnever
    refine (get_by_name_of_entry _ hinv name).2 ?_
    intro i d hd hn
    rcases entry_after_origin Registry.init Inv_init calls i d hd with h0 | ⟨pre, c, post, hc, hret, hdev⟩
    · simp [Registry.init, Registry.entry] at h0
    · have : c.name = name := by
        rw [← hn, hdev]
        rfl
      exact hnever pre c post hc this hret

/-- C11, at `sample_calls`: `fd0` is found with the data of its first
registration, also after `hd0` and the refused second `fd0`; `hd9` was never
registered and is not found. -/
theorem blkdev_get_by_name_registered_witness :
    blkdev_get_by_name (Registry.init.after sample_calls) (some "fd0".toList) =
      some (some
        { name := "fd0".toList, block_size := 512, num_blocks := 2880,
          driver_private := 0, ops := some sample_ops }) ∧
    blkdev_get_by_name (Registry.init.after sample_calls) (some "hd9".toList) =
      some none :=
  ⟨((blkdev_get_by_name_registered sample_calls).1 []
      (sample_call "fd0".toList 2880 0)
      [sample_call "hd0".toList 1000 1, sample_call "fd0".toList 64 2] rfl
      (by decide)).1,
   (blkdev_get_by_name_registered sample_calls).2.2 "hd9".toList (by
      intro pre c post h hn
      have hc : c ∈ sample_calls := by rw [h]; simp
      simp only [sample_calls, List.mem_cons, List.mem_singleton, List.not_mem_nil,
        or_false] at hc
      rcases hc with rfl | rfl | rfl <;> exact absurd hn (by decide))⟩

/-! ### mm/pte.h and mm/pde.h -/

theorem and_or_right (a b c : Nat) : (a ||| b) &&& c = (a &&& c) ||| (b &&& c) := by
  rw [Nat.and_comm, Nat.and_or_distrib_left, Nat.and_comm c a, Nat.and_comm c b]

theorem frame_mask_and_flags : (0xFFFFF000 : Nat) &&& not32 0xFFFFF000 = 0 := by decide

theorem flags_and_frame_mask : not32 0xFFFFF000 &&& (0xFFFFF000 : Nat) = 0 := by decide

theorem not32_frame_mask : not32 0xFFFFF000 = 0xFFF := by decide

/-- The frame part of an entry built from `p` and `f`. -/
theorem entry_frame (p f : Nat) :
    ((p &&& 0xFFFFF000) ||| (f &&& not32 0xFFFFF000)) &&& 0xFFFFF000 = p &&& 0xFFFFF000 := by
  rw [and_or_right, Nat.and_assoc, Nat.and_self, Nat.and_assoc, flags_and_frame_mask,
    Nat.and_zero, Nat.or_zero]

/-- The flag part of an entry built from `p` and `f`. -/
theorem entry_flags (p f : Nat) :
    ((p &&& 0xFFFFF000) ||| (f &&& not32 0xFFFFF000)) &&& not32 0xFFFFF000 = f &&& 0xFFF := by
  rw [and_or_right, Nat.and_assoc, frame_mask_and_flags, Nat.and_zero, Nat.and_assoc,
    Nat.and_self, Nat.zero_or, not32_frame_mask]

/-- The present bit of an entry built from `p` and `f`. -/
theorem entry_present (p f : Nat) :
    ((p &&& 0xFFFFF000) ||| (f &&& not32 0xFFFFF000)) &&& 0x001 = f &&& 0x001 := by
  have h1 : (0xFFFFF000 : Nat) &&& 0x001 = 0 := by decide
  have h2 : not32 0xFFFFF000 &&& 0x001 = 0x001 := by decide
  rw [and_or_right, Nat.and_assoc, h1, Nat.and_zero, Nat.and_assoc, h2, Nat.zero_or]

/-- A 32-bit value that is a multiple of 4096 is unchanged by the frame mask. -/
theorem aligned_and_frame_mask (p : Nat) (h32 : p < 2 ^ 32) (hal : p % 4096 = 0) :
    p &&& 0xFFFFF000 = p := by
  have hsplit : (0xFFFFFFFF : Nat) = 0xFFFFF000 ||| 0xFFF := by decide
  have hfull : p &&& 0xFFFFFFFF = p := Nat.and_pow_two_sub_one_of_lt_two_pow h32
  have hlow : p &&& 0xFFF = 0 := by
    have := Nat.and_pow_two_sub_one_eq_mod p 12
    simpa [hal] using this
  rw [hsplit, Nat.and_or_distrib_left, hlow, Nat.or_zero] at hfull
  exact hfull

/-- C20: an entry made by `pte_create(p, f)` gives back `p & 0xFFFFF000` as its
frame address and `f & 0xFFF` as its flags; for a 32-bit `p` that is a multiple
of 4096 the frame address read back is `p`; the entry is present exactly when
`f` contains `PTE_PRESENT`. `pde_create` with `PDE_PTABLE_ADDR`, `PDE_FLAGS`
and `PDE_IS_PRESENT` satisfies the same equations. -/
theorem pte_pde_create_fields (p f : Nat) :
    PTE_FRAME_ADDR (pte_create p f) = p &&& 0xFFFFF000 ∧
    PTE_FLAGS (pte_create p f) = f &&& 0xFFF ∧
    (p < 2 ^ 32 → p % 4096 = 0 → PTE_FRAME_ADDR (pte_create p f) = p) ∧
    (PTE_IS_PRESENT (pte_create p f) ≠ 0 ↔ f &&& PTE_PRESENT ≠ 0) ∧
    PDE_PTABLE_ADDR (pde_create p f) = p &&& 0xFFFFF000 ∧
    PDE_FLAGS (pde_create p f) = f &&& 0xFFF ∧
    (p < 2 ^ 32 → p % 4096 = 0 → PDE_PTABLE_ADDR (pde_create p f) = p) ∧
    (PDE_IS_PRESENT (pde_create p f) ≠ 0 ↔ f &&& PDE_PRESENT ≠ 0) := by
  refine ⟨entry_frame p f, entry_flags p f, ?_, ?_, entry_frame p f, entry_flags p f, ?_, ?_⟩
  · intro h32 hal
    exact (entry_frame p f).trans (aligned_and_frame_mask p h32 hal)
  · show ((p &&& 0xFFFFF000) ||| (f &&& not32 0xFFFFF000)) &&& 0x001 ≠ 0 ↔ f &&& 0x001 ≠ 0
    rw [entry_present]
  · intro h32 hal
    exact (entry_frame p f).trans (aligned_and_frame_mask p h32 hal)
  · show ((p &&& 0xFFFFF000) ||| (f &&& not32 0xFFFFF000)) &&& 0x001 ≠ 0 ↔ f &&& 0x001 ≠ 0
    rw [entry_present]

/-- C20 at the frame `0x00345000` with flags `PTE_PRESENT | PTE_WRITABLE`. -/
theorem pte_pde_create_fields_witness :
    (0x00345000 : Nat) < 2 ^ 32 ∧ 0x00345000 % 4096 = 0 ∧
    PTE_FRAME_ADDR (pte_create 0x00345000 0x003) = 0x00345000 ∧
    PTE_FLAGS (pte_create 0x00345000 0x003) = 0x003 ∧
    PDE_PTABLE_ADDR (pde_create 0x00345000 0x003) = 0x00345000 :=
  ⟨by decide, by decide,
    (pte_pde_create_fields 0x00345000 0x003).2.2.1 (by decide) (by decide),
    (pte_pde_create_fields 0x00345000 0x003).2.1,
    (pte_pde_create_fields 0x00345000 0x003).2.2.2.2.2.2.1 (by decide) (by decide)⟩

/-! ### kernel/bitmap.h -/

theorem toSize_toInt32 (i : Nat) (h : i < 2 ^ 32) : toSize (toInt32 i) = i := by
  unfold toSize toInt32
  rw [Nat.mod_eq_of_lt h]
  split <;> omega

theorem toSize_cast (i : Nat) (h : i < 2 ^ 32) : toSize (i : Int) = i := by
  unfold toSize
  omega

theorem toInt32_small (i : Nat) (h : i < 2 ^ 31) : toInt32 i = (i : Int) := by
  unfold toInt32
  have : i % 2 ^ 32 = i := Nat.mod_eq_of_lt (by omega)
  rw [this, if_pos h]

theorem bitmap_test_eq (bm : Bitmap) (idx : Int) :
    bitmap_test bm idx = bit_of bm (toSize idx) := by
  unfold bitmap_test bit_of BITSET_WORD_SIZE
  rw [Nat.one_shiftLeft, Nat.and_two_pow]
  cases (bm (toSize idx / 32)).testBit (toSize idx % 32) <;> simp

theorem bit_of_set (bm : Bitmap) (idx : Int) (j : Nat) :
    bit_of (bitmap_set bm idx) j = (decide (j = toSize idx) || bit_of bm j) := by
  unfold bit_of bitmap_set BITSET_WORD_SIZE
  by_cases hw : j / 32 = toSize idx / 32
  · rw [hw, Function.update_same, Nat.testBit_or, Nat.one_shiftLeft, Nat.testBit_two_pow]
    by_cases hb : toSize idx % 32 = j % 32
    · have : j = toSize idx := by omega
      simp [hb, this]
    · have : j ≠ toSize idx := by omega
      simp [hb, this]
  · rw [Function.update_noteq hw]
    have : j ≠ toSize idx := fun h => hw (by rw [h])
    simp [this]

theorem testBit_not32_two_pow (b k : Nat) (hk : k < 32) :
    (not32 (2 ^ b)).testBit k = !decide (b = k) := by
  unfold not32
  have h : (0xFFFFFFFF : Nat) = 2 ^ 32 - 1 := by decide
  rw [Nat.testBit_xor, h, Nat.testBit_two_pow_sub_one, Nat.testBit_two_pow]
  simp [hk]

theorem bit_of_unset (bm : Bitmap) (idx : Int) (j : Nat) :
    bit_of (bitmap_unset bm idx) j = (!decide (j = toSize idx) && bit_of bm j) := by
  unfold bit_of bitmap_unset BITSET_WORD_SIZE
  by_cases hw : j / 32 = toSize idx / 32
  · rw [hw, Function.update_same, Nat.testBit_and, Nat.one_shiftLeft,
      testBit_not32_two_pow _ _ (Nat.mod_lt _ (by decide))]
    by_cases hb : toSize idx % 32 = j % 32
    · have : j = toSize idx := by omega
      simp [hb, this]
    · have : j ≠ toSize idx := by omega
      simp [hb, this]
  · rw [Function.update_noteq hw]
    have : j ≠ toSize idx := fun h => hw (by rw [h])
    simp [this]

/-- Two bitmaps of 32-bit words with the same bits are equal. -/
theorem bitmap_ext (a b : Bitmap) (ha : ∀ w, a w < 2 ^ 32) (hb : ∀ w, b w < 2 ^ 32)
    (h : ∀ j, bit_of a j = bit_of b j) : a = b := by
  funext w
  apply Nat.eq_of_testBit_eq
  intro k
  by_cases hk : k < 32
  · have := h (32 * w + k)
    unfold bit_of at this
    have e1 : (32 * w + k) / 32 = w := by omega
    have e2 : (32 * w + k) % 32 = k := by omega
    rw [e1, e2] at this
    exact this
  · have h32 : (2 : Nat) ^ 32 ≤ 2 ^ k := Nat.pow_le_pow_right (by decide) (by omega)
    rw [Nat.testBit_eq_false_of_lt (Nat.lt_of_lt_of_le (ha w) h32),
      Nat.testBit_eq_false_of_lt (Nat.lt_of_lt_of_le (hb w) h32)]

theorem bitmap_set_lt (bm : Bitmap) (idx : Int) (h : ∀ w, bm w < 2 ^ 32) :
    ∀ w, bitmap_set bm idx w < 2 ^ 32 := by
  intro w
  unfold bitmap_set BITSET_WORD_SIZE
  by_cases hw : w = toSize idx / 32
  · rw [hw, Function.update_same, Nat.one_shiftLeft]
    apply Nat.or_lt_two_pow (h _)
    exact Nat.pow_lt_pow_right (by decide) (Nat.mod_lt _ (by decide))
  · rw [Function.update_noteq hw]
    exact h w

theorem bitmap_unset_lt (bm : Bitmap) (idx : Int) (h : ∀ w, bm w < 2 ^ 32) :
    ∀ w, bitmap_unset bm idx w < 2 ^ 32 := by
  intro w
  unfold bitmap_unset BITSET_WORD_SIZE
  by_cases hw : w = toSize idx / 32
  · rw [hw, Function.update_same]
    exact Nat.lt_of_le_of_lt Nat.and_le_left (h _)
  · rw [Function.update_noteq hw]
    exact h w

/-- What the scan returns: the first clear bit from `i` on, or `-1` when the
`r` bits from `i` on are all set. -/
theorem first_free_from_spec (bm : Bitmap) :
    ∀ r i, i + r ≤ 2 ^ 32 →
      (∃ k, i ≤ k ∧ k < i + r ∧ bit_of bm k = false ∧
          (∀ j, i ≤ j → j < k → bit_of bm j = true) ∧
          bitmap_first_free_from bm r i = toInt32 k) ∨
        ((∀ j, i ≤ j → j < i + r → bit_of bm j = true) ∧
          bitmap_first_free_from bm r i = -1) := by
  intro r
  induction r with
  | zero =>
    intro i _
    right
    exact ⟨fun j h1 h2 => absurd h2 (by omega), rfl⟩
  | succ r ih =>
    intro i hi
    have hi32 : i < 2 ^ 32 := by omega
    have htest : bitmap_test bm (toInt32 i) = bit_of bm i := by
      rw [bitmap_test_eq, toSize_toInt32 i hi32]
    unfold bitmap_first_free_from
    rw [htest]
    cases hb : bit_of bm i with
    | false =>
      left
      exact ⟨i, Nat.le_refl _, by omega, hb, fun j h1 h2 => absurd h2 (by omega), by simp⟩
    | true =>
      simp only [Bool.not_true, Bool.false_eq_true, if_false]
      rcases ih (i + 1) (by omega) with ⟨k, h1, h2, h3, h4, h5⟩ | ⟨h1, h2⟩
      · left
        refine ⟨k, by omega, by omega, h3, ?_, h5⟩
        intro j hj1 hj2
        by_cases hji : j = i
        · rw [hji]; exact hb
        · exact h4 j (by omega) hj2
      · right
        refine ⟨?_, h2⟩
        intro j hj1 hj2
        by_cases hji : j = i
        · rw [hji]; exact hb
        · exact h1 j (by omega) (by omega)

/-- C18: for `max_bits < 2^31`, `bitmap_first_free(bm, max_bits)` returns `i`
exactly when `i < max_bits` is the smallest index whose bit is clear, returns
`-1` exactly when every bit below `max_bits` is set, always returns one of the
two, and never returns an index whose bit is set; `bitmap_test` reads the bit
the statement speaks of. -/
theorem bitmap_first_free_smallest (bm : Bitmap) (max_bits : Nat) (hmax : max_bits < 2 ^ 31) :
    (∀ i : Nat, bitmap_first_free bm max_bits = (i : Int) ↔
      (i < max_bits ∧ bit_of bm i = false ∧ ∀ j, j < i → bit_of bm j = true)) ∧
    (bitmap_first_free bm max_bits = -1 ↔ ∀ i, i < max_bits → bit_of bm i = true) ∧
    (bitmap_first_free bm max_bits = -1 ∨
      ∃ i : Nat, i < max_bits ∧ bitmap_first_free bm max_bits = (i : Int)) ∧
    (∀ i : Nat, bit_of bm i = true → bitmap_first_free bm max_bits ≠ (i : Int)) ∧
    (∀ i : Nat, i < max_bits → bitmap_test bm (i : Int) = bit_of bm i) := by
  have hspec := first_free_from_spec bm max_bits 0 (by omega)
  have key : ∀ i : Nat, bitmap_first_free bm max_bits = (i : Int) ↔
      (i < max_bits ∧ bit_of bm i = false ∧ ∀ j, j < i → bit_of bm j = true) := by
    intro i
    unfold bitmap_first_free
    rcases hspec with ⟨k, _, h2, h3, h4, h5⟩ | ⟨h1, h2⟩
    · rw [h5, toInt32_small k (by omega)]
      constructor
      · intro h
        have hki : k = i := by exact_mod_cast h
        subst hki
        exact ⟨by omega, h3, fun j hj => h4 j (Nat.zero_le _) hj⟩
      · rintro ⟨hi1, hi2, hi3⟩
        have hki : k = i := by
          rcases Nat.lt_trichotomy k i with h | h | h
          · have := hi3 k h
            rw [h3] at this
            exact absurd this (by decide)
          · exact h
          · have := h4 i (Nat.zero_le _) h
            rw [hi2] at this
            exact absurd this (by decide)
        rw [hki]
    · rw [h2]
      constructor
      · intro h
        omega
      · rintro ⟨hi1, hi2, _⟩
        have := h1 i (Nat.zero_le _) (by omega)
        rw [hi2] at this
        exact absurd this (by decide)
  refine ⟨key, ?_, ?_, ?_, ?_⟩
  · unfold bitmap_first_free
    rcases hspec with ⟨k, _, h2, h3, h4, h5⟩ | ⟨h1, h2⟩
    · rw [h5, toInt32_small k (by omega)]
      constructor
      · intro h
        omega
      · intro h
        have := h k (by omega)
        rw [h3] at this
        exact absurd this (by decide)
    · rw [h2]
      constructor
      · intro _ i hi
        exact h1 i (Nat.zero_le _) (by omega)
      · intro _
        rfl
  · unfold bitmap_first_free
    rcases hspec with ⟨k, _, h2, _, _, h5⟩ | ⟨_, h2⟩
    · right
      exact ⟨k, by omega, by rw [h5, toInt32_small k (by omega)]⟩
    · left
      exact h2
  · intro i hset h
    have := ((key i).mp h).2.1
    rw [hset] at this
    exact absurd this (by decide)
  · intro i hi
    rw [bitmap_test_eq, toSize_cast i (by omega)]

/-- C18 on a bitmap whose bits 0, 1 and 2 are set: the scan of 64 bits gives 3. -/
theorem bitmap_first_free_smallest_witness :
    64 < 2 ^ 31 ∧ bitmap_first_free sample_bitmap 64 = 3 :=
  ⟨by decide,
    ((bitmap_first_free_smallest sample_bitmap 64 (by decide)).1 3).mpr
      ⟨by decide, by decide, fun j hj => by interval_cases j <;> decide⟩⟩

/-- C19: in a bitmap of 32-bit words with a clear bit below `n`, let `i` be the
result of `bitmap_first_free(bm, n)`. Then `i` names a clear bit below `n`;
`bitmap_set(bm, i)` followed by `bitmap_unset(bm, i)` gives the original bitmap,
on which `bitmap_first_free` returns `i` again; `bitmap_set` and `bitmap_unset`
change no bit other than the one they are given, on any bitmap; and
`bitmap_test` of that bit is true after the set and false after the unset. -/
theorem bitmap_set_unset_first_free (bm : Bitmap) (n : Nat)
    (hword : ∀ w, bm w < 2 ^ 32) (hn : n < 2 ^ 32)
    (hclear : ∃ k, k < n ∧ bit_of bm k = false) :
    (toSize (bitmap_first_free bm n) < n ∧
      bit_of bm (toSize (bitmap_first_free bm n)) = false) ∧
    bitmap_unset (bitmap_set bm (bitmap_first_free bm n)) (bitmap_first_free bm n) = bm ∧
    bitmap_first_free
        (bitmap_unset (bitmap_set bm (bitmap_first_free bm n)) (bitmap_first_free bm n)) n =
      bitmap_first_free bm n ∧
    (∀ (b : Bitmap) (idx : Int) (j : Nat), j ≠ toSize idx →
      bit_of (bitmap_set b idx) j = bit_of b j ∧ bit_of (bitmap_unset b idx) j = bit_of b j) ∧
    bitmap_test (bitmap_set bm (bitmap_first_free bm n)) (bitmap_first_free bm n) = true ∧
    bitmap_test (bitmap_unset (bitmap_set bm (bitmap_first_free bm n)) (bitmap_first_free bm n))
        (bitmap_first_free bm n) = false := by
  have hi : toSize (bitmap_first_free bm n) < n ∧
      bit_of bm (toSize (bitmap_first_free bm n)) = false := by
    unfold bitmap_first_free
    rcases first_free_from_spec bm n 0 (by omega) with ⟨k, _, h2, h3, _, h5⟩ | ⟨h1, _⟩
    · rw [h5, toSize_toInt32 k (by omega)]
      exact ⟨by omega, h3⟩
    · obtain ⟨k, hk1, hk2⟩ := hclear
      have := h1 k (Nat.zero_le _) (by omega)
      rw [hk2] at this
      exact absurd this (by decide)
  have hback :
      bitmap_unset (bitmap_set bm (bitmap_first_free bm n)) (bitmap_first_free bm n) = bm := by
    apply bitmap_ext _ _ (bitmap_unset_lt _ _ (bitmap_set_lt _ _ hword)) hword
    intro j
    rw [bit_of_unset, bit_of_set]
    by_cases hj : j = toSize (bitmap_first_free bm n)
    · rw [hj, hi.2]
      simp
    · simp [hj]
  refine ⟨hi, hback, by rw [hback], ?_, ?_, ?_⟩
  · intro b idx j hj
    rw [bit_of_set, bit_of_unset]
    simp [hj]
  · rw [bitmap_test_eq, bit_of_set]
    simp
  · rw [bitmap_test_eq, bit_of_unset]
    simp

/-- C19 on the bitmap whose bits 0, 1 and 2 are set: bit 3 is found, set, unset
and found again. -/
theorem bitmap_set_unset_first_free_witness :
    (∀ w, sample_bitmap w < 2 ^ 32) ∧ (∃ k, k < 64 ∧ bit_of sample_bitmap k = false) ∧
    bitmap_unset (bitmap_set sample_bitmap (bitmap_first_free sample_bitmap 64))
        (bitmap_first_free sample_bitmap 64) = sample_bitmap ∧
    bitmap_first_free
        (bitmap_unset (bitmap_set sample_bitmap (bitmap_first_free sample_bitmap 64))
          (bitmap_first_free sample_bitmap 64)) 64 =
      bitmap_first_free sample_bitmap 64 :=
  have hword : ∀ w, sample_bitmap w < 2 ^ 32 := by
    intro w
    unfold sample_bitmap
    split <;> decide
  have hclear : ∃ k, k < 64 ∧ bit_of sample_bitmap k = false := ⟨3, by decide, by decide⟩
  ⟨hword, hclear,
    (bitmap_set_unset_first_free sample_bitmap 64 hword (by decide) hclear).2.1,
    (bitmap_set_unset_first_free sample_bitmap 64 hword (by decide) hclear).2.2.1⟩

/-! ### fs/hfs.h -/

theorem le32_u32_bytes (x : Nat) :
    x % 256 + 256 * (x / 256 % 256) + 65536 * (x / 65536 % 256) +
      16777216 * (x / 16777216 % 256) = x % 2 ^ 32 := by
  omega

/-- C17, as the code has it: a `struct superblock` is 28 bytes, seven 32-bit
little-endian fields; the word at byte offset 8 is the start block of the
data-block bitmap and the word at byte offset 12 is the start block of the
inode bitmap; the other fields are in the order total blocks, total inodes,
(the two bitmaps), inode table start, data start, magic; `HFS_MAGIC` is
`0x48465331`. -/
theorem superblock_layout (sb : superblock) :
    sb.bytes.length = 28 ∧
    le32 sb.bytes 0 = sb.s_blocks_count % 2 ^ 32 ∧
    le32 sb.bytes 4 = sb.s_inodes_count % 2 ^ 32 ∧
    le32 sb.bytes 8 = sb.s_block_bitmap % 2 ^ 32 ∧
    le32 sb.bytes 12 = sb.s_inode_bitmap % 2 ^ 32 ∧
    le32 sb.bytes 16 = sb.s_inode_table_block_start % 2 ^ 32 ∧
    le32 sb.bytes 20 = sb.s_data_blocks_start % 2 ^ 32 ∧
    le32 sb.bytes 24 = sb.s_magic % 2 ^ 32 ∧
    HFS_MAGIC = 0x48465331 := by
  refine ⟨rfl, ?_, ?_, ?_, ?_, ?_, ?_, ?_, rfl⟩ <;>
    exact le32_u32_bytes _

/-- C17 as stated fails: in the bytes of a superblock whose inode bitmap starts
at block 1 and whose block bitmap starts at block 2, the word at offset 8 is 2,
the block bitmap's start, and the word at offset 12 is 1. -/
theorem superblock_offset_8_is_block_bitmap :
    sample_superblock.s_inode_bitmap = 1 ∧ sample_superblock.s_block_bitmap = 2 ∧
    le32 sample_superblock.bytes 8 = 2 ∧ le32 sample_superblock.bytes 12 = 1 ∧
    le32 sample_superblock.bytes 8 ≠ sample_superblock.s_inode_bitmap := by
  decide

/-! ### fs/fat12.c and fs/vfs.c: modifying operations on FAT12 -/

/-- C13, the code: with the FAT12 operations table, `vfs_write` returns -1 for
every file on a FAT12 vnode and leaves the handle and the buffer as they are;
`create`, `mkdir` and `remove` are null pointers in the table, and `vfs_create`,
`vfs_mkdir` and `vfs_remove` call them untested for every path that resolves to
a root vnode with this table, so none of the three calls returns -1: each
leaves defined behaviour. -/
theorem fat12_modifying_operations (env : fat12_env)
    (ops_of : vnode_ops_ref → vnode_ops_t)
    (hops : ops_of vnode_ops_ref.fat12_vnode_ops = fat12_vnode_ops env) :
    (∀ (f : file_t) (v : vnode) (buf : Option Buf) (size : Nat),
        f.vnode_ptr = some v → v.ops = some vnode_ops_ref.fat12_vnode_ops →
        ∃ calls, vfs_write ops_of (some f) buf size =
          some { ret := -1, file := some f, buf := buf, calls := calls }) ∧
    ((fat12_vnode_ops env).create.isNone ∧ (fat12_vnode_ops env).mkdir.isNone ∧
      (fat12_vnode_ops env).remove.isNone) ∧
    (∀ (t : MountTable) (path : CStr) (flags : Nat) (root : vnode) (rel : CStr),
        _vfs_resolve_mountpoint t (some path) 256 = some (some (root, rel)) →
        root.ops = some vnode_ops_ref.fat12_vnode_ops →
        vfs_create ops_of t (some path) flags = none ∧
        vfs_mkdir ops_of t (some path) = none ∧
        vfs_remove ops_of t (some path) = none) := by
  refine ⟨?_, ⟨rfl, rfl, rfl⟩, ?_⟩
  · intro f v buf size hv hvo
    by_cases hb : buf = none ∨ size = 0
    · exact ⟨[], by simp [vfs_write, hv, hb]⟩
    · refine ⟨[VnodeCall.write f.f_offset size], ?_⟩
      simp [vfs_write, hv, hvo, hops, hb, fat12_vnode_ops, fat12_write]
  · intro t path flags root rel hres hro
    refine ⟨?_, ?_, ?_⟩
    · simp [vfs_create, hres, hro, hops, fat12_vnode_ops]
    · simp [vfs_mkdir, hres, hro, hops, fat12_vnode_ops]
    · simp [vfs_remove, hres, hro, hops, fat12_vnode_ops]

/-- C13 on the sample system, where `fd0` is mounted at `/fd0` as FAT12: the
three calls for `/fd0/NEW` leave defined behaviour, and a write of three bytes
to `/HELLO` returns -1. -/
theorem fat12_modifying_operations_witness :
    vfs_create sample_ops_of sample_mounts (some "/fd0/NEW".toList) 0 = none ∧
    vfs_mkdir sample_ops_of sample_mounts (some "/fd0/NEW".toList) = none ∧
    vfs_remove sample_ops_of sample_mounts (some "/fd0/NEW".toList) = none ∧
    (vfs_write sample_ops_of
        (some { vnode_ptr := some (sample_file 1 1000), f_offset := 0, f_flags := 0 })
        (some [1, 2, 3]) 3).map (fun io => io.ret) = some (-1) := by
  have h := fat12_modifying_operations sample_env sample_ops_of rfl
  have h3 := h.2.2 sample_mounts "/fd0/NEW".toList 0 sample_root "/NEW".toList rfl rfl
  obtain ⟨calls, hw⟩ := h.1 { vnode_ptr := some (sample_file 1 1000), f_offset := 0, f_flags := 0 }
    (sample_file 1 1000) (some [1, 2, 3]) 3 rfl rfl
  exact ⟨h3.1, h3.2.1, h3.2.2, by rw [hw]; rfl⟩

/-! ### fs/fat12.c and fs/vfs.c: block device failures during a read -/

set_option maxRecDepth 100000 in
/-- C12 as stated fails: on a drive whose driver fails every read, `blkread`
returns -1 for the block of cluster 2 (LBA 33), and `fat12_read` of the first
512 bytes of a 1000-byte file returns 512 with the contents of its scratch
buffer; `vfs_read` returns 512 and moves the offset from 0 to 512. -/
theorem fat12_read_failing_device :
    (∀ b : Buf, (blkread (some sample_failing_floppy) 33 b).ret = -1) ∧
    fat12_read (some sample_failing_file) 0 512 (some (List.replicate 512 0)) true
        (fun _ => 0xCC) =
      some { ret := 512, buf := some (List.replicate 512 0xCC) } ∧
    (vfs_read sample_ops_of
        (some { vnode_ptr := some sample_failing_file, f_offset := 0, f_flags := 0 })
        (some (List.replicate 512 0)) 512).map
      (fun io => (io.ret, io.file.map fun f => f.f_offset)) = some (512, some 512) := by
  refine ⟨fun b => rfl, rfl, rfl⟩

/-- C12, as the code has it: `fat12_read` does not look at what `blkread`
returns. For a regular file on a FAT12 vnode, a buffer, `size > 0`, an offset
`o` inside the file with `o + size < 2^31` and an allocated scratch buffer, a
`fat12_read` that comes back returns `n = min (size, F - o)`, which is positive,
on every device; `vfs_read` then returns `n` and moves the offset to `o + n`.
What `vfs_read` does surface is the value of the backend `read`: when
`fat12_read` returns a value that is not positive, `vfs_read` returns that value
and leaves the offset where it is. -/
theorem fat12_read_blkread_unchecked (env : fat12_env)
    (ops_of : vnode_ops_ref → vnode_ops_t) (f : file_t) (node : vnode) (link : vfs_link)
    (fsd : fs_private) (i : inode) (size : Nat) (b : Buf) (res : ReadResult)
    (hops : ops_of vnode_ops_ref.fat12_vnode_ops = fat12_vnode_ops env)
    (hv : f.vnode_ptr = some node) (hnops : node.ops = some vnode_ops_ref.fat12_vnode_ops)
    (hdata : node.data = some (vnode_private.fat12 i))
    (hlink : node.vfs_ptr = some link) (hfs : link.fs_data = some fsd)
    (hreg : i.dir_entry.attributes &&& FAT12_DIR = 0) (hsize : 0 < size)
    (hin : f.f_offset < i.dir_entry.file_size) (hsum : f.f_offset + size < 2 ^ 31)
    (hmalloc : env.malloc_buf = true)
    (hres : fat12_read (some node) f.f_offset size (some b) true env.junk = some res) :
    res.ret = ((min size (i.dir_entry.file_size - f.f_offset) : Nat) : Int) ∧
    0 < res.ret ∧
    vfs_read ops_of (some f) (some b) size =
      some { ret := res.ret,
             file := some
               { f with
                 f_offset := f.f_offset + min size (i.dir_entry.file_size - f.f_offset) },
             buf := res.buf,
             calls := [VnodeCall.read f.f_offset size] } ∧
    (∀ (g : file_t) (v : vnode) (c : Buf) (n : Nat) (r : ReadResult),
        g.vnode_ptr = some v → v.ops = some vnode_ops_ref.fat12_vnode_ops → 0 < n →
        fat12_read (some v) g.f_offset n (some c) env.malloc_buf env.junk = some r →
        r.ret ≤ 0 →
        vfs_read ops_of (some g) (some c) n =
          some { ret := r.ret, file := some g, buf := r.buf,
                 calls := [VnodeCall.read g.f_offset n] }) := by
  have hret : res.ret = ((min size (i.dir_entry.file_size - f.f_offset) : Nat) : Int) := by
    rw [fat12_read_clamped node link fsd i f.f_offset size b env.junk res hdata hlink hfs hreg
      hsize hin (by omega) hres]
    exact toInt32_small _ (by omega)
  have hpos : 0 < res.ret := by
    rw [hret]
    have : 0 < min size (i.dir_entry.file_size - f.f_offset) := by
      rw [Nat.lt_min]
      omega
    exact_mod_cast this
  have hne : ¬ size = 0 := by omega
  refine ⟨hret, hpos, ?_, ?_⟩
  · have hadv : advance f.f_offset res.ret =
        f.f_offset + min size (i.dir_entry.file_size - f.f_offset) := by
      have h1 := advance_small f.f_offset res.ret (by omega) (by rw [hret]; omega)
      rw [hret] at h1
      rw [hret]
      exact_mod_cast h1
    rw [hmalloc.symm] at hres
    simp [vfs_read, hv, hnops, hops, fat12_vnode_ops, hne, hres, hpos, hadv]
  · intro g v c n r hg hvo hn hr hle
    have hn0 : ¬ n = 0 := by omega
    have hnp : ¬ 0 < r.ret := by omega
    simp [vfs_read, hg, hvo, hops, fat12_vnode_ops, hn0, hr, hnp]

set_option maxRecDepth 100000 in
/-- C12 as amended, on the drive whose driver fails every read: a read of 200
bytes at offset 100 of the 1000-byte file returns 200 and leaves offset 300;
a read of a directory returns -1 and leaves the offset at 0. -/
theorem fat12_read_blkread_unchecked_witness :
    (blkread (some sample_failing_floppy) 33 []).ret = -1 ∧
    vfs_read sample_ops_of
        (some { vnode_ptr := some sample_failing_file, f_offset := 100, f_flags := 0 })
        (some (List.replicate 200 0)) 200 =
      some { ret := 200,
             file := some
               { vnode_ptr := some sample_failing_file, f_offset := 300, f_flags := 0 },
             buf := some (List.replicate 200 0xCC),
             calls := [VnodeCall.read 100 200] } ∧
    vfs_read sample_ops_of
        (some { vnode_ptr := some sample_bin_dir, f_offset := 0, f_flags := 0 })
        (some [0, 0]) 2 =
      some { ret := -1,
             file := some { vnode_ptr := some sample_bin_dir, f_offset := 0, f_flags := 0 },
             buf := some [0, 0],
             calls := [VnodeCall.read 0 2] } :=
  have h := fat12_read_blkread_unchecked sample_env sample_ops_of
    { vnode_ptr := some sample_failing_file, f_offset := 100, f_flags := 0 }
    sample_failing_file
    { type := some fs_type_ref.fat12_fs_type,
      fs_data := some (fs_private.fat12
        { sample_volume 1 with block_dev := some sample_failing_floppy }) }
    (fs_private.fat12 { sample_volume 1 with block_dev := some sample_failing_floppy })
    { dir_entry :=
        { filename := [72, 69, 76, 76, 79, 32, 32, 32], extension := [32, 32, 32],
          attributes := 0x20, reserved := 0, create_time_tenth := 0, create_time := 0,
          create_date := 0, last_access_date := 0, first_cluster_high := 0,
          last_write_time := 0, last_write_date := 0, first_cluster_low := 2,
          file_size := 1000 },
      dir_sector := 19, dir_offset := 0 }
    200 (List.replicate 200 0) { ret := 200, buf := some (List.replicate 200 0xCC) }
    rfl rfl rfl rfl rfl rfl (by decide) (by decide) (by decide) (by decide) rfl rfl
  ⟨rfl, h.2.2.1,
    h.2.2.2 { vnode_ptr := some sample_bin_dir, f_offset := 0, f_flags := 0 } sample_bin_dir
      [0, 0] 2 { ret := -1, buf := some [0, 0] } rfl rfl (by decide) rfl (by decide)⟩

/-! ### fs/fat12.c: the geometry computed at mount time -/

/-- What a successful `fat12_mount` stores: `fat_start` is the low eight bits
of `hidden_sectors` plus `rsrvd_cnt`, and the other sector numbers follow from
it. -/
theorem fat12_mount_geometry (r : Registry) (device : Option CStr) (env : fat12_mount_env)
    (v : vfs) (h : fat12_mount r device env = some (some v)) :
    ∃ fs : fat12_handle_t, v.fs_data = some (fs_private.fat12 fs) ∧
      fs.fat_start = (fs.bpb.hidden_sectors % 2 ^ 8 + fs.bpb.rsrvd_cnt) % 2 ^ 32 ∧
      fs.root_dir_start = (fs.fat_start + fs.bpb.num_fats * fs.bpb.sectors_per_fat) % 2 ^ 32 ∧
      fs.root_dir_sectors =
        ((fs.bpb.max_root_dir_entries * 32) % 2 ^ 32) / fs.bpb.bytes_per_sector ∧
      fs.data_area_start = (fs.root_dir_start + fs.root_dir_sectors) % 2 ^ 32 := by
  unfold fat12_mount at h
  split at h
  · simp at h
  split at h
  · simp at h
  split at h
  · simp at h
  · simp at h
  rename_i block_dev _
  simp only at h
  split at h
  · simp at h
  split at h
  · simp at h
  split at h
  · simp at h
  split at h
  · simp at h
  split at h
  · simp at h
  rename_i fat_table _
  split at h
  · simp at h
  split at h
  · simp at h
  split at h
  · simp at h
  simp only [Option.some.injEq] at h
  subst h
  exact ⟨_, rfl, rfl, rfl, rfl, rfl⟩

set_option maxRecDepth 100000 in
/-- C14, the code at `hidden_sectors = 256`: the boot sector of `hd0` carries
`hidden_sectors = 256`, `rsrvd_cnt = 1`, two FATs of one sector and a root
directory of one sector. `fat12_mount` keeps the low eight bits of
`hidden_sectors`, so it stores `fat_start = 1`, `root_dir_start = 3` and
`data_area_start = 4`, where `hidden_sectors + rsrvd_cnt` is 257. With
`hidden_sectors = 0` the same boot sector gives the same three numbers. -/
theorem fat12_mount_hidden_sectors_truncated :
    ((fat12_mount (sample_boot_registry 256) (some "hd0".toList) sample_mount_env).map
      fun o => o.map fun v =>
        (v.bpb.map fun b => (b.hidden_sectors, b.rsrvd_cnt, b.num_fats, b.sectors_per_fat),
          v.geometry)) =
      some (some (some (256, 1, 2, 1), some (1, 3, 1, 4))) ∧
    ((fat12_mount (sample_boot_registry 0) (some "hd0".toList) sample_mount_env).map
      fun o => o.map fun v => v.geometry) = some (some (some (1, 3, 1, 4))) ∧
    (1 : Nat) ≠ 256 + 1 := by
  refine ⟨rfl, rfl, by decide⟩

/-! ### utils.h, mm/vmm.h: address arithmetic -/

/-- Bit `j` of a mask of `w` ones shifted left by `s`. -/
theorem testBit_shifted_mask (w s j : Nat) :
    ((2 ^ w - 1) <<< s).testBit j = (decide (s ≤ j) && decide (j - s < w)) := by
  rw [Nat.testBit_shiftLeft, Nat.testBit_two_pow_sub_one]

theorem testBit_of_lt_32 (x i : Nat) (hx : x < 2 ^ 32) (hi : 32 ≤ i) : x.testBit i = false :=
  Nat.testBit_eq_false_of_lt (Nat.lt_of_lt_of_le hx (Nat.pow_le_pow_right (by decide) hi))

/-- Masking a 32-bit value with `0xFFFFF000` rounds it down to a multiple of
4096. -/
theorem and_page_mask (x : Nat) (hx : x < 2 ^ 32) : x &&& not32 0xFFF = x / 4096 * 4096 := by
  have hm : not32 0xFFF = (2 ^ 20 - 1) <<< 12 := by decide
  have hr : x / 4096 * 4096 = (x >>> 12) <<< 12 := by
    rw [Nat.shiftRight_eq_div_pow, Nat.shiftLeft_eq]
  rw [hm, hr]
  apply Nat.eq_of_testBit_eq
  intro i
  rw [Nat.testBit_and, testBit_shifted_mask, Nat.testBit_shiftLeft, Nat.testBit_shiftRight]
  by_cases h12 : 12 ≤ i
  · have e : 12 + (i - 12) = i := by omega
    rw [e]
    by_cases h32 : i < 32
    · have : i - 12 < 20 := by omega
      simp [h12, this]
    · rw [testBit_of_lt_32 x i hx (by omega)]
      simp
  · simp [h12]

theorem PAGE_ALIGN_UP_eq (a : Nat) (ha : a < 2 ^ 32) : PAGE_ALIGN_UP a = a / 4096 * 4096 := by
  unfold PAGE_ALIGN_UP
  rw [Nat.mod_eq_of_lt ha, and_page_mask a ha]

theorem PAGE_ALIGN_DWN_eq (a : Nat) (ha : a + 0xFFF < 2 ^ 32) :
    PAGE_ALIGN_DWN a = (a + 4095) / 4096 * 4096 := by
  unfold PAGE_ALIGN_DWN
  rw [Nat.mod_eq_of_lt ha, and_page_mask _ ha]

/-- C26, the code: for every address `a <= 0xFFFFF000`, `PAGE_ALIGN_UP(a)` is
the largest multiple of 4096 that is `<= a` (it rounds down), so it is below `a`
whenever `a` is not a multiple of 4096; `PAGE_ALIGN_DWN(a)` is the smallest
multiple of 4096 that is `>= a` (it rounds up), so it is above `a` for such an
`a`. The two macros do each other's work. -/
theorem page_align_up_rounds_down (a : Nat) (ha : a ≤ 0xFFFFF000) :
    (4096 ∣ PAGE_ALIGN_UP a ∧ PAGE_ALIGN_UP a ≤ a ∧
      ∀ m, 4096 ∣ m → m ≤ a → m ≤ PAGE_ALIGN_UP a) ∧
    (4096 ∣ PAGE_ALIGN_DWN a ∧ a ≤ PAGE_ALIGN_DWN a ∧
      ∀ m, 4096 ∣ m → a ≤ m → PAGE_ALIGN_DWN a ≤ m) ∧
    (a % 4096 ≠ 0 → PAGE_ALIGN_UP a < a ∧ a < PAGE_ALIGN_DWN a) := by
  have hup := PAGE_ALIGN_UP_eq a (by omega)
  have hdn := PAGE_ALIGN_DWN_eq a (by omega)
  refine ⟨⟨?_, ?_, ?_⟩, ⟨?_, ?_, ?_⟩, ?_⟩
  · rw [hup]; exact Dvd.intro_left _ rfl
  · rw [hup]; omega
  · rintro m ⟨k, rfl⟩ hm
    rw [hup]; omega
  · rw [hdn]; exact Dvd.intro_left _ rfl
  · rw [hdn]; omega
  · rintro m ⟨k, rfl⟩ hm
    rw [hdn]; omega
  · intro h
    rw [hup, hdn]
    omega

/-- C26 at the address 1: `PAGE_ALIGN_UP(1)` is 0 and `PAGE_ALIGN_DWN(1)` is
4096. -/
theorem page_align_up_rounds_down_witness :
    (1 : Nat) ≤ 0xFFFFF000 ∧ PAGE_ALIGN_UP 1 = 0 ∧ PAGE_ALIGN_DWN 1 = 4096 ∧
    PAGE_ALIGN_UP 1 < 1 ∧ 1 < PAGE_ALIGN_DWN 1 :=
  ⟨by decide, by decide, by decide,
    ((page_align_up_rounds_down 1 (by decide)).2.2 (by decide)).1,
    ((page_align_up_rounds_down 1 (by decide)).2.2 (by decide)).2⟩

theorem VMM_DIR_INDEX_eq (a : Nat) (ha : a < 2 ^ 32) : VMM_DIR_INDEX a = a >>> 22 := by
  unfold VMM_DIR_INDEX VMM_DIR_INDEX_MASK
  rw [Nat.mod_eq_of_lt ha]
  have hm : (0xFFC00000 : Nat) = (2 ^ 10 - 1) <<< 22 := by decide
  rw [hm]
  apply Nat.eq_of_testBit_eq
  intro i
  rw [Nat.testBit_shiftRight, Nat.testBit_and, testBit_shifted_mask, Nat.testBit_shiftRight]
  by_cases h : i < 10
  · simp [h]
  · rw [testBit_of_lt_32 a (22 + i) ha (by omega)]
    simp

theorem VMM_TABLE_INDEX_eq (a : Nat) (ha : a < 2 ^ 32) :
    VMM_TABLE_INDEX a = (a >>> 12) &&& 0x3FF := by
  unfold VMM_TABLE_INDEX VMM_TABLE_INDEX_MASK
  rw [Nat.mod_eq_of_lt ha]
  have hm : (0x003FF000 : Nat) = (2 ^ 10 - 1) <<< 12 := by decide
  have hm2 : (0x3FF : Nat) = 2 ^ 10 - 1 := by decide
  rw [hm, hm2]
  apply Nat.eq_of_testBit_eq
  intro i
  rw [Nat.testBit_shiftRight, Nat.testBit_and, testBit_shifted_mask, Nat.testBit_and,
    Nat.testBit_shiftRight, Nat.testBit_two_pow_sub_one]
  have e : 12 + i - 12 = i := by omega
  rw [e]
  simp

theorem VMM_PAGE_OFFSET_eq (a : Nat) (ha : a < 2 ^ 32) : VMM_PAGE_OFFSET a = a &&& 0xFFF := by
  unfold VMM_PAGE_OFFSET VMM_PAGE_OFFSET_MASK
  rw [Nat.mod_eq_of_lt ha]

/-- C27: for a 32-bit address `a`, `VMM_DIR_INDEX(a) = a >> 22`,
`VMM_TABLE_INDEX(a) = (a >> 12) & 0x3FF` and `VMM_PAGE_OFFSET(a) = a & 0xFFF`;
both indices are below 1024; `a` is the three parts put together again; and
two 32-bit addresses have the same directory index exactly when they lie in
the same 4 MiB-aligned region, that is, when `a / 2^22 = b / 2^22`. -/
theorem vmm_address_split (a : Nat) (ha : a < 2 ^ 32) :
    VMM_DIR_INDEX a = a >>> 22 ∧
    VMM_TABLE_INDEX a = (a >>> 12) &&& 0x3FF ∧
    VMM_PAGE_OFFSET a = a &&& 0xFFF ∧
    VMM_DIR_INDEX a < 1024 ∧ VMM_TABLE_INDEX a < 1024 ∧
    a = (VMM_DIR_INDEX a <<< 22) ||| (VMM_TABLE_INDEX a <<< 12) ||| VMM_PAGE_OFFSET a ∧
    (∀ b, b < 2 ^ 32 →
      (VMM_DIR_INDEX a = VMM_DIR_INDEX b ↔ a / 4194304 = b / 4194304)) := by
  have hd := VMM_DIR_INDEX_eq a ha
  have ht := VMM_TABLE_INDEX_eq a ha
  have ho := VMM_PAGE_OFFSET_eq a ha
  have hd2 : VMM_DIR_INDEX a = a / 4194304 := by rw [hd, Nat.shiftRight_eq_div_pow]
  have ht2 : VMM_TABLE_INDEX a = a / 4096 % 1024 := by
    rw [ht, Nat.shiftRight_eq_div_pow]
    exact Nat.and_pow_two_sub_one_eq_mod _ 10
  have ho2 : VMM_PAGE_OFFSET a = a % 4096 := by
    rw [ho]
    exact Nat.and_pow_two_sub_one_eq_mod _ 12
  refine ⟨hd, ht, ho, by rw [hd2]; omega, by rw [ht2]; omega, ?_, ?_⟩
  · rw [hd2, ht2, ho2, Nat.shiftLeft_eq, Nat.shiftLeft_eq]
    have h1 : a / 4194304 * 2 ^ 22 ||| a / 4096 % 1024 * 2 ^ 12 =
        2 ^ 22 * (a / 4194304) + a / 4096 % 1024 * 2 ^ 12 := by
      rw [Nat.mul_comm (a / 4194304) (2 ^ 22)]
      exact (Nat.mul_add_lt_is_or (by omega) _).symm
    have h2 : 2 ^ 22 * (a / 4194304) + a / 4096 % 1024 * 2 ^ 12 =
        2 ^ 12 * (a / 4096) := by omega
    rw [h1, h2]
    have h3 : 2 ^ 12 * (a / 4096) ||| a % 4096 = 2 ^ 12 * (a / 4096) + a % 4096 :=
      (Nat.mul_add_lt_is_or (by omega) _).symm
    rw [h3]
    omega
  · intro b hb
    rw [hd2, VMM_DIR_INDEX_eq b hb, Nat.shiftRight_eq_div_pow]

/-- C27 at the addresses of the page table test: `0x40000000` and `0x40001000`
both have directory index 256, with table indices 0 and 1. -/
theorem vmm_address_split_witness :
    VMM_DIR_INDEX 0x40000000 = 256 ∧ VMM_DIR_INDEX 0x40001000 = 256 ∧
    VMM_TABLE_INDEX 0x40000000 = 0 ∧ VMM_TABLE_INDEX 0x40001000 = 1 ∧
    (0x40001000 : Nat) / 4194304 = 0x40000000 / 4194304 :=
  ⟨by decide, by decide, by decide, by decide,
    ((vmm_address_split 0x40001000 (by decide)).2.2.2.2.2.2 0x40000000 (by decide)).mp
      (by decide)⟩

/-! ### driver/fdc.c -/

/-- C30: for every `lba < 2880`, `fdc_lba_to_chs` stores a cylinder below 80,
a head below 2 and a sector from 1 to 18 with
`lba = (cylinder * 2 + head) * 18 + (sector - 1)`, whatever the three objects
held before; so two LBAs below 2880 with the same triple are equal. -/
theorem fdc_lba_to_chs_bijective (lba : Nat) (h : lba < 2880) (c0 h0 s0 : Nat) :
    (∃ c hd s, fdc_lba_to_chs lba (some c0) (some h0) (some s0) = (some c, some hd, some s) ∧
      c < 80 ∧ hd < 2 ∧ 1 ≤ s ∧ s ≤ 18 ∧ lba = (c * 2 + hd) * 18 + (s - 1)) ∧
    (∀ lba2, lba2 < 2880 →
      fdc_lba_to_chs lba2 (some c0) (some h0) (some s0) =
        fdc_lba_to_chs lba (some c0) (some h0) (some s0) → lba2 = lba) := by
  have hc : lba / (18 * 2) % 2 ^ 8 = lba / 36 := by omega
  refine ⟨⟨lba / 36, lba % 36 / 18, lba % 36 % 18 + 1, ?_, by omega, by omega, by omega,
    by omega, by omega⟩, ?_⟩
  · simp only [fdc_lba_to_chs, hc]
  · intro lba2 h2 heq
    simp only [fdc_lba_to_chs, Prod.mk.injEq, Option.some.injEq] at heq
    omega

/-- C30 at LBA 37: cylinder 1, head 0, sector 2. -/
theorem fdc_lba_to_chs_bijective_witness :
    (37 : Nat) < 2880 ∧ fdc_lba_to_chs 37 (some 0) (some 0) (some 0) = (some 1, some 0, some 2) ∧
    (∀ lba2, lba2 < 2880 →
      fdc_lba_to_chs lba2 (some 0) (some 0) (some 0) =
        fdc_lba_to_chs 37 (some 0) (some 0) (some 0) → lba2 = 37) :=
  ⟨by decide, by decide, (fdc_lba_to_chs_bijective 37 (by decide) 0 0 0).2⟩

/-! ### fs/fat12.c: names in 8.3 form -/

theorem char_toNat_ne (c d : Char) (h : c ≠ d) : c.toNat ≠ d.toNat := by
  intro e
  apply h
  apply Char.ext
  apply UInt32.ext
  exact e

/-- The copy loop gives back a blank-free run of bytes that fills the field or
is followed by a blank. -/
theorem copy_to_blank_run (xs rest : List Nat) (n : Nat) (hx : ∀ c ∈ xs, c ≠ 32)
    (hlen : xs.length ≤ n) (hend : xs.length = n ∨ ∃ r, rest = 32 :: r) :
    copy_to_blank n (xs ++ rest) = some xs := by
  induction xs generalizing n with
  | nil =>
    rcases hend with h | ⟨r, rfl⟩
    · simp at h
      subst h
      rfl
    · cases n with
      | zero => rfl
      | succ n => simp [copy_to_blank]
  | cons x xs ih =>
    cases n with
    | zero => simp at hlen
    | succ n =>
      have hx32 : x ≠ 32 := hx x (List.mem_cons_self _ _)
      have hrec := ih n (fun c hc => hx c (List.mem_cons_of_mem _ hc))
        (by simpa using hlen)
        (by
          rcases hend with h | h
          · left; simpa using h
          · right; exact h)
      simp [copy_to_blank, hx32, hrec]

theorem normal_to_8_3_base_ext (base ext : CStr) (hb8 : base.length ≤ 8)
    (he3 : ext.length ≤ 3) (hbase : ∀ c ∈ base, c ≠ '.') :
    _fat12_normal_to_8_3 (base ++ '.' :: ext) =
      ((base ++ List.replicate (8 - base.length) ' ') ++
        (ext ++ List.replicate (3 - ext.length) ' ')).map Char.toNat := by
  unfold _fat12_normal_to_8_3
  have h1 : (base ++ '.' :: ext).takeWhile (fun c => c ≠ '.') = base := by
    rw [List.takeWhile_append_of_pos (by simpa using hbase)]
    simp
  simp only [h1, List.take_of_length_le hb8, List.drop_left, List.take_of_length_le he3]

theorem normal_to_8_3_base (base : CStr) (hb8 : base.length ≤ 8)
    (hbase : ∀ c ∈ base, c ≠ '.') :
    _fat12_normal_to_8_3 base =
      ((base ++ List.replicate (8 - base.length) ' ') ++ List.replicate 3 ' ').map
        Char.toNat := by
  unfold _fat12_normal_to_8_3
  have h1 : base.takeWhile (fun c => c ≠ '.') = base := by
    have : List.takeWhile (fun c => decide (c ≠ '.')) (base ++ []) =
        base ++ List.takeWhile (fun c => decide (c ≠ '.')) [] :=
      List.takeWhile_append_of_pos (by simpa using hbase)
    simpa using this
  simp only [h1, List.take_of_length_le hb8, List.drop_length]
  rfl

/-- C28: for a base name of 1 to 8 characters and an extension of 1 to 3
characters, neither holding a blank, a dot, a slash or a NUL,
`_fat12_normal_to_8_3` turns `BASE` into the eleven bytes of `BASE`
blank-filled to 8 followed by three blanks, and `BASE.EXT` into the eleven
bytes of `BASE` blank-filled to 8 followed by `EXT` blank-filled to 3; and
`_fat12_8_3to_normal` turns each of the two results back into the name. -/
theorem fat12_8_3_round_trip (base ext : CStr)
    (hb1 : 1 ≤ base.length) (hb8 : base.length ≤ 8)
    (he1 : 1 ≤ ext.length) (he3 : ext.length ≤ 3)
    (hbase : ∀ c ∈ base, c ≠ ' ' ∧ c ≠ '.' ∧ c ≠ '/' ∧ c ≠ Char.ofNat 0)
    (hext : ∀ c ∈ ext, c ≠ ' ' ∧ c ≠ '.' ∧ c ≠ '/' ∧ c ≠ Char.ofNat 0) :
    (_fat12_normal_to_8_3 base =
        (base ++ List.replicate (8 - base.length) ' ' ++ List.replicate 3 ' ').map
          Char.toNat ∧
      (_fat12_normal_to_8_3 base).length = 11 ∧
      _fat12_8_3to_normal (_fat12_normal_to_8_3 base) = some (base.map Char.toNat)) ∧
    (_fat12_normal_to_8_3 (base ++ '.' :: ext) =
        (base ++ List.replicate (8 - base.length) ' ' ++
          (ext ++ List.replicate (3 - ext.length) ' ')).map Char.toNat ∧
      (_fat12_normal_to_8_3 (base ++ '.' :: ext)).length = 11 ∧
      _fat12_8_3to_normal (_fat12_normal_to_8_3 (base ++ '.' :: ext)) =
        some ((base ++ '.' :: ext).map Char.toNat)) := by
  have hbdot : ∀ c ∈ base, c ≠ '.' := fun c hc => (hbase c hc).2.1
  have hb32 : ∀ c ∈ base.map Char.toNat, c ≠ 32 := by
    intro c hc
    obtain ⟨d, hd, rfl⟩ := List.mem_map.mp hc
    exact char_toNat_ne d ' ' (hbase d hd).1
  have he32 : ∀ c ∈ ext.map Char.toNat, c ≠ 32 := by
    intro c hc
    obtain ⟨d, hd, rfl⟩ := List.mem_map.mp hc
    exact char_toNat_ne d ' ' (hext d hd).1
  have hB := normal_to_8_3_base base hb8 hbdot
  have hBE := normal_to_8_3_base_ext base ext hb8 he3 hbdot
  -- the first eight bytes
  have hcopy8 : ∀ tail : List Nat,
      copy_to_blank 8 (base.map Char.toNat ++
        ((List.replicate (8 - base.length) ' ').map Char.toNat ++ tail)) =
      some (base.map Char.toNat) := by
    intro tail
    apply copy_to_blank_run _ _ 8 hb32 (by simpa using hb8)
    by_cases h8 : base.length = 8
    · left; simpa using h8
    · right
      obtain ⟨k, hk⟩ : ∃ k, 8 - base.length = k + 1 := ⟨8 - base.length - 1, by omega⟩
      rw [hk]
      exact ⟨_, rfl⟩
  have hdrop8 : ∀ tail : List Nat,
      (base.map Char.toNat ++
        ((List.replicate (8 - base.length) ' ').map Char.toNat ++ tail)).drop 8 = tail := by
    intro tail
    rw [← List.append_assoc]
    have hl : (base.map Char.toNat ++
        (List.replicate (8 - base.length) ' ').map Char.toNat).length = 8 := by
      simp
      omega
    have hd := List.drop_left (base.map Char.toNat ++
        (List.replicate (8 - base.length) ' ').map Char.toNat) tail
    rw [hl] at hd
    exact hd
  refine ⟨⟨hB, ?_, ?_⟩, ⟨hBE, ?_, ?_⟩⟩
  · rw [hB]
    simp
    omega
  · rw [hB]
    simp only [List.map_append, List.append_assoc]
    unfold _fat12_8_3to_normal
    rw [hcopy8, hdrop8]
    rfl
  · rw [hBE]
    simp
    omega
  · rw [hBE]
    simp only [List.map_append, List.append_assoc]
    unfold _fat12_8_3to_normal
    rw [hcopy8, hdrop8]
    obtain ⟨e, es, hes⟩ : ∃ e es, ext = e :: es := by
      cases ext with
      | nil => simp at he1
      | cons e es => exact ⟨e, es, rfl⟩
    have he0 : e.toNat ≠ 32 := char_toNat_ne e ' ' (hext e (by simp [hes])).1
    have hcopy3 : copy_to_blank 3 (ext.map Char.toNat ++
        (List.replicate (3 - ext.length) ' ').map Char.toNat) = some (ext.map Char.toNat) := by
      apply copy_to_blank_run _ _ 3 he32 (by simpa using he3)
      by_cases h3 : ext.length = 3
      · left; simpa using h3
      · right
        obtain ⟨k, hk⟩ : ∃ k, 3 - ext.length = k + 1 := ⟨3 - ext.length - 1, by omega⟩
        rw [hk]
        exact ⟨_, rfl⟩
    rw [hes] at hcopy3 ⊢
    simp only [List.map_cons, List.cons_append] at hcopy3 ⊢
    simp only [he0, ne_eq, not_false_eq_true, if_true, hcopy3]
    simp

/-- C28 at the names `HELLO` and `KERNEL.BIN`. -/
theorem fat12_8_3_round_trip_witness :
    _fat12_normal_to_8_3 "HELLO".toList = "HELLO      ".toList.map Char.toNat ∧
    _fat12_8_3to_normal (_fat12_normal_to_8_3 "HELLO".toList) =
      some ("HELLO".toList.map Char.toNat) ∧
    _fat12_normal_to_8_3 "KERNEL.BIN".toList = "KERNEL  BIN".toList.map Char.toNat ∧
    _fat12_8_3to_normal (_fat12_normal_to_8_3 "KERNEL.BIN".toList) =
      some ("KERNEL.BIN".toList.map Char.toNat) :=
  ⟨by decide, (fat12_8_3_round_trip "HELLO".toList "TXT".toList (by decide) (by decide)
      (by decide) (by decide) (by decide) (by decide)).1.2.2,
    by decide, (fat12_8_3_round_trip "KERNEL".toList "BIN".toList (by decide) (by decide)
      (by decide) (by decide) (by decide) (by decide)).2.2.2⟩

/-! ### fs/fat12.c: reads at an offset and the root vnode -/

set_option maxRecDepth 100000 in
/-- C22, the code at a file whose clusters are 2 and 4: the FAT chains cluster 2
to cluster 4, which ends the chain, and the file has 1024 bytes. A read of the
whole file follows the chain and delivers sector 33 followed by sector 35. A
read of 512 bytes at offset 512 starts at cluster `2 + 512 / 512 = 3` and
delivers sector 34, which is not part of the file; bytes 512 to 1023 of the
whole file are sector 35. With the clusters 2 and 3 the same two reads agree. -/
theorem fat12_read_offset_skips_chain :
    cluster_chain (sample_chain_volume sample_split_fat) 1024 2 = [2, 4] ∧
    fat12_read (some (sample_chain_file sample_split_fat)) 0 1024
        (some (List.replicate 1024 0)) true (fun _ => 0xCC) =
      some { ret := 1024, buf := some (sample_disk 33 ++ sample_disk 35) } ∧
    fat12_read (some (sample_chain_file sample_split_fat)) 512 512
        (some (List.replicate 512 0)) true (fun _ => 0xCC) =
      some { ret := 512, buf := some (sample_disk 34) } ∧
    ((sample_disk 33 ++ sample_disk 35).drop 512).take 512 = sample_disk 35 ∧
    sample_disk 34 ≠ sample_disk 35 ∧
    cluster_chain (sample_chain_volume sample_consecutive_fat) 1024 2 = [2, 3] ∧
    fat12_read (some (sample_chain_file sample_consecutive_fat)) 0 1024
        (some (List.replicate 1024 0)) true (fun _ => 0xCC) =
      some { ret := 1024, buf := some (sample_disk 33 ++ sample_disk 34) } ∧
    fat12_read (some (sample_chain_file sample_consecutive_fat)) 512 512
        (some (List.replicate 512 0)) true (fun _ => 0xCC) =
      some { ret := 512, buf := some (sample_disk 34) } := by
  refine ⟨by decide, rfl, rfl, by decide, by decide, by decide, rfl, rfl⟩

/-- The root vnode that a successful `fat12_mount` sets up. -/
theorem fat12_mount_root (r : Registry) (device : Option CStr) (env : fat12_mount_env)
    (v : vfs) (h : fat12_mount r device env = some (some v)) :
    ∃ (root : vnode) (link : vfs_link) (fs : fat12_handle_t) (sector : Nat),
      v.vroot = some root ∧ root.type = vnode_type_t.V_DIRECTORY ∧
      root.name = ['/'] ∧ root.ops = some vnode_ops_ref.fat12_vnode_ops ∧
      root.vfs_ptr = some link ∧ link.fs_data = some (fs_private.fat12 fs) ∧
      root.data = some (vnode_private.fat12
        { dir_entry := zero_dir_entry, dir_sector := sector, dir_offset := 0 }) := by
  unfold fat12_mount at h
  split at h
  · simp at h
  split at h
  · simp at h
  split at h
  · simp at h
  · simp at h
  rename_i block_dev _
  simp only at h
  split at h
  · simp at h
  split at h
  · simp at h
  split at h
  · simp at h
  split at h
  · simp at h
  split at h
  · simp at h
  rename_i fat_table _
  split at h
  · simp at h
  split at h
  · simp at h
  split at h
  · simp at h
  simp only [Option.some.injEq] at h
  subst h
  exact ⟨_, _, _, _, rfl, rfl, rfl, rfl, rfl, rfl, rfl⟩

/-- C24, the code: after a successful `fat12_mount` the root vnode has type
`V_DIRECTORY`, but the directory entry in its inode is all zero: the `memset`
that follows `attributes = FAT12_DIR` clears the attribute again. The DIR bit is
not set, and `fat12_read` on the root vnode with a buffer and a size above 0
takes the branch for regular files, finds the file size 0 and returns 0, not
-1. -/
theorem fat12_mount_root_attributes (r : Registry) (device : Option CStr)
    (env : fat12_mount_env) (v : vfs) (h : fat12_mount r device env = some (some v)) :
    ∃ (root : vnode) (i : inode),
      v.vroot = some root ∧ root.type = vnode_type_t.V_DIRECTORY ∧
      root.data = some (vnode_private.fat12 i) ∧
      i.dir_entry.attributes = 0 ∧ i.dir_entry.attributes &&& FAT12_DIR = 0 ∧
      ∀ (offs size : Nat) (b : Buf) (malloc_ok : Bool) (junk : Nat → Nat), 0 < size →
        fat12_read (some root) offs size (some b) malloc_ok junk =
          some { ret := 0, buf := some b } := by
  obtain ⟨root, link, fs, sector, h1, h2, _, _, h5, h6, h7⟩ := fat12_mount_root r device env v h
  refine ⟨root, _, h1, h2, h7, rfl, Nat.zero_and _, ?_⟩
  intro offs size b malloc_ok junk hsize
  exact fat12_read_eof root link (fs_private.fat12 fs) _ offs size b malloc_ok junk h7 h5 h6
    (Nat.zero_and _) hsize (Nat.zero_le _)

set_option maxRecDepth 100000 in
/-- C24 on the drive `hd0` of the sample registry: the mount succeeds, and a
read of 16 bytes from the root vnode returns 0. -/
theorem fat12_mount_root_attributes_witness :
    ∃ (v : vfs) (root : vnode),
      fat12_mount (sample_boot_registry 0) (some "hd0".toList) sample_mount_env =
        some (some v) ∧
      v.vroot = some root ∧ root.type = vnode_type_t.V_DIRECTORY ∧
      fat12_read (some root) 0 16 (some (List.replicate 16 0)) true (fun _ => 0xCC) =
        some { ret := 0, buf := some (List.replicate 16 0) } := by
  have hm : ∃ v, fat12_mount (sample_boot_registry 0) (some "hd0".toList) sample_mount_env =
      some (some v) := by
    cases hres : fat12_mount (sample_boot_registry 0) (some "hd0".toList) sample_mount_env with
    | none =>
      have := congrArg Option.isSome hres
      exact absurd this (by decide)
    | some o =>
      cases o with
      | none =>
        have := congrArg (fun x => x.map Option.isSome) hres
        exact absurd this (by decide)
      | some v => exact ⟨v, rfl⟩
  obtain ⟨v, hv⟩ := hm
  obtain ⟨root, i, h1, h2, _, _, _, h6⟩ :=
    fat12_mount_root_attributes (sample_boot_registry 0) (some "hd0".toList) sample_mount_env
      v hv
  exact ⟨v, root, hv, h1, h2, h6 0 16 _ true _ (by decide)⟩

/-! ### fs/vfs.c: the mount table after an unmount -/

theorem unmount_scan_length (unmount_of : fs_type_ref → vfs → Option unmount_effect)
    (name : Option CStr) (l : List Slot) (ret : Int) (l' : List Slot)
    (h : unmount_scan unmount_of name l = some (ret, l')) : l'.length = l.length := by
  induction l generalizing l' with
  | nil =>
    simp [unmount_scan] at h
    rw [← h.2]
  | cons s rest ih =>
    cases s with
    | null =>
      simp only [unmount_scan, Option.map_eq_some'] at h
      obtain ⟨x, hx, hx2⟩ := h
      cases x with
      | mk r l'' =>
        simp only [Prod.mk.injEq] at hx2
        rw [← hx2.2]
        simp [ih l'' (by rw [hx, hx2.1])]
    | wild => simp [unmount_scan] at h
    | fs mp =>
      unfold unmount_scan at h
      split at h
      · simp at h
      · simp at h
      · split at h
        · split at h
          · simp at h
          · split at h
            · simp at h
            · simp only [Option.some.injEq, Prod.mk.injEq] at h
              rw [← h.2]
              simp
        · simp only [Option.map_eq_some'] at h
          obtain ⟨x, hx, hx2⟩ := h
          cases x with
          | mk r l'' =>
            simp only [Prod.mk.injEq] at hx2
            rw [← hx2.2]
            simp [ih l'' (by rw [hx, hx2.1])]

/-- After a scan that returned 0, the same scan for a mounted instance or for a
root vnode does not come back with `NULL`: either the table is what it was, or
the element that matched points to freed memory and is read. -/
theorem unmount_scan_keeps (unmount_of : fs_type_ref → vfs → Option unmount_effect)
    (name : CStr) (l : List Slot) (l' : List Slot)
    (h : unmount_scan unmount_of (some name) l = some (0, l')) :
    (l' = l ∧ ∃ v, find_mounted name l = some (some v)) ∨
      (find_mounted name l' = none ∧ find_root name l' = none) := by
  induction l generalizing l' with
  | nil => simp [unmount_scan] at h
  | cons s rest ih =>
    cases s with
    | null =>
      simp only [unmount_scan, Option.map_eq_some'] at h
      obtain ⟨x, hx, hx2⟩ := h
      cases x with
      | mk r l'' =>
        simp only [Prod.mk.injEq] at hx2
        rw [← hx2.2]
        rcases ih l'' (by rw [hx, hx2.1]) with ⟨h1, v, hv⟩ | ⟨h1, h2⟩
        · left
          exact ⟨by rw [h1], v, by simpa [find_mounted] using hv⟩
        · right
          exact ⟨by simpa [find_mounted] using h1, by simpa [find_root] using h2⟩
    | wild => simp [unmount_scan] at h
    | fs mp =>
      unfold unmount_scan at h
      split at h
      · simp at h
      · simp at h
      · rename_i c n hc hn
        simp only [Option.some.injEq] at hn
        subst hn
        split at h
        · rename_i hname
          split at h
          · simp at h
          · split at h
            · simp at h
            · rename_i e _
              simp only [Option.some.injEq, Prod.mk.injEq] at h
              rw [← h.2]
              cases hf : e.freed with
              | true =>
                right
                simp [find_mounted, find_root]
              | false =>
                left
                refine ⟨by simp, mp, ?_⟩
                simp [find_mounted, hc, hname]
        · rename_i hname
          simp only [Option.map_eq_some'] at h
          obtain ⟨x, hx, hx2⟩ := h
          cases x with
          | mk r l'' =>
            simp only [Prod.mk.injEq] at hx2
            rw [← hx2.2]
            rcases ih l'' (by rw [hx, hx2.1]) with ⟨h1, v, hv⟩ | ⟨h1, h2⟩
            · left
              exact ⟨by rw [h1], v, by simpa [find_mounted, hc, hname] using hv⟩
            · right
              exact ⟨by simpa [find_mounted, hc, hname] using h1,
                by simpa [find_root, hc, hname] using h2⟩

theorem take_append_drop_of_length (l l' : List Slot) (n : Nat)
    (h : l'.length = (l.take n).length) : (l' ++ l.drop n).take n = l' := by
  by_cases hn : n ≤ l.length
  · have : l'.length = n := by rw [h, List.length_take]; omega
    rw [← this, List.take_left]
  · have hd : l.drop n = [] := List.drop_eq_nil_of_le (by omega)
    rw [hd, List.append_nil]
    apply List.take_of_length_le
    rw [h, List.length_take]
    omega

/-- A path whose first component leads the scan of the mount table to an
element that points to no instance leaves `_vfs_resolve_mountpoint`
undefined. -/
theorem vfs_resolve_undefined (t : MountTable) (comp rest : CStr)
    (hcomp : comp ≠ []) (hns : ∀ c ∈ comp, c ≠ '/')
    (hrest : rest = [] ∨ rest.head? = some '/')
    (hlen : ('/' :: (comp ++ rest)).length < 256)
    (hfind : find_root comp (t._mountpoints.take t._curr_size) = none) :
    _vfs_resolve_mountpoint t (some ('/' :: (comp ++ rest))) 256 = none := by
  have htake : ('/' :: (comp ++ rest)).take 255 = '/' :: (comp ++ rest) :=
    List.take_of_length_le (by omega)
  have htok := strtok_r_component comp rest hcomp hns hrest
  unfold _vfs_resolve_mountpoint
  simp [htake, htok, hfind]

/-- C23, the code: `vfs_unmount` stores nothing in the mount table. After it has
returned 0 for `/name`, `vfs_get_mounted ("/name")` does not return `NULL`.
Either the backend kept the instance: then the table is what it was and
`vfs_get_mounted` returns the instance as before. Or the backend freed it (as
`fat12_unmount` does): then the element still points to the freed instance, and
`vfs_get_mounted` and `vfs_open` of a path under `/name` read it. -/
theorem vfs_unmount_keeps_mount_point
    (unmount_of : fs_type_ref → vfs → Option unmount_effect) (t : MountTable)
    (name : CStr) (t' : MountTable)
    (h : vfs_unmount unmount_of t (some ('/' :: name)) = some (0, t')) :
    t'._curr_size = t._curr_size ∧
    vfs_get_mounted t' (some ('/' :: name)) ≠ some none ∧
    ((t' = t ∧ ∃ v, vfs_get_mounted t' (some ('/' :: name)) = some (some v)) ∨
      (vfs_get_mounted t' (some ('/' :: name)) = none ∧
        ∀ (ops_of : vnode_ops_ref → vnode_ops_t) (rest : CStr) (flags : Nat)
          (malloc_ok : Bool),
          name ≠ [] → (∀ c ∈ name, c ≠ '/') → (rest = [] ∨ rest.head? = some '/') →
          ('/' :: (name ++ rest)).length < 256 →
          vfs_open ops_of t' (some ('/' :: (name ++ rest))) flags malloc_ok = none)) := by
  unfold vfs_unmount at h
  simp only at h
  split at h
  · simp at h
  · rename_i ret l hscan
    simp only [Option.some.injEq, Prod.mk.injEq] at h
    obtain ⟨hret, ht'⟩ := h
    subst hret
    have hlen := unmount_scan_length unmount_of _ _ _ _ hscan
    have htake : (l ++ t._mountpoints.drop t._curr_size).take t._curr_size = l :=
      take_append_drop_of_length _ _ _ hlen
    have hget : vfs_get_mounted t' (some ('/' :: name)) = find_mounted name l := by
      rw [← ht']
      simp only [vfs_get_mounted, htake]
    have hcases := unmount_scan_keeps unmount_of name _ l hscan
    have hsize : t'._curr_size = t._curr_size := by rw [← ht']
    rcases hcases with ⟨h1, v, hv⟩ | ⟨h1, h2⟩
    · have heq : t' = t := by
        rw [← ht', h1, List.take_append_drop]
      have hv' : vfs_get_mounted t' (some ('/' :: name)) = some (some v) := by
        rw [hget, h1]
        exact hv
      refine ⟨hsize, ?_, Or.inl ⟨heq, v, hv'⟩⟩
      rw [hv']
      simp
    · have hget' : vfs_get_mounted t' (some ('/' :: name)) = none := by rw [hget, h1]
      refine ⟨hsize, ?_, Or.inr ⟨hget', ?_⟩⟩
      · rw [hget']
        simp
      · intro ops_of rest flags malloc_ok hne hns hrest hl
        have hroot : find_root name (t'._mountpoints.take t'._curr_size) = none := by
          rw [← ht']
          simp only [htake]
          exact h2
        unfold vfs_open
        rw [vfs_resolve_undefined t' name rest hne hns hrest hl hroot]

set_option maxRecDepth 100000 in
/-- C23 on the sample system. With `fd0` mounted at `/fd0` as FAT12,
`vfs_unmount ("/fd0")` returns 0 and leaves a pointer to the freed instance in
element 0; `vfs_get_mounted ("/fd0")` and `vfs_open ("/fd0/HELLO")`, which
returned a file before, then read freed memory. With the other backend mounted at `/m`, `vfs_unmount ("/m")`
returns 0 and `vfs_get_mounted ("/m")` still returns the instance. -/
theorem vfs_unmount_keeps_mount_point_witness :
    (vfs_open sample_ops_of sample_mounts (some "/fd0/HELLO".toList) 0 true).map
      (fun o => o.map fun f => (f.f_offset, f.f_flags)) = some (some (0, 0)) ∧
    vfs_unmount sample_unmount_of sample_mounts (some "/fd0".toList) =
      some (0, { _mountpoints := [Slot.wild, Slot.null, Slot.null, Slot.null, Slot.null],
                 _curr_size := 5 }) ∧
    vfs_get_mounted
        { _mountpoints := [Slot.wild, Slot.null, Slot.null, Slot.null, Slot.null],
          _curr_size := 5 } (some "/fd0".toList) = none ∧
    vfs_open sample_ops_of
        { _mountpoints := [Slot.wild, Slot.null, Slot.null, Slot.null, Slot.null],
          _curr_size := 5 } (some "/fd0/HELLO".toList) 0 true = none ∧
    vfs_unmount sample_unmount_of sample_mounts_m (some "/m".toList) =
      some (0, sample_mounts_m) ∧
    vfs_get_mounted sample_mounts_m (some "/m".toList) ≠ some none :=
  ⟨rfl, rfl, rfl, rfl, rfl,
    (vfs_unmount_keeps_mount_point sample_unmount_of sample_mounts_m "m".toList
      sample_mounts_m rfl).2.1⟩

/-! ### kernel/list.c -/

theorem seg_congr (link link2 : elem_ptr → Option elem_ptr) (xs : List elem_ptr)
    (h : ∀ x ∈ xs, link2 x = link x) (o t : Option elem_ptr) :
    seg link2 o xs t ↔ seg link o xs t := by
  induction xs generalizing o with
  | nil => exact Iff.rfl
  | cons x xs ih =>
    simp only [seg]
    rw [h x (List.mem_cons_self _ _), ih (fun y hy => h y (List.mem_cons_of_mem _ hy))]

theorem seg_append (link : elem_ptr → Option elem_ptr) (xs ys : List elem_ptr)
    (o t : Option elem_ptr) :
    seg link o (xs ++ ys) t ↔ ∃ mid, seg link o xs mid ∧ seg link mid ys t := by
  induction xs generalizing o with
  | nil =>
    simp only [List.nil_append, seg]
    constructor
    · intro h
      exact ⟨o, rfl, h⟩
    · rintro ⟨mid, rfl, h⟩
      exact h
  | cons x xs ih =>
    show (o = some x ∧ seg link (link x) (xs ++ ys) t) ↔
      ∃ mid, (o = some x ∧ seg link (link x) xs mid) ∧ seg link mid ys t
    rw [ih]
    constructor
    · rintro ⟨h1, mid, h2, h3⟩
      exact ⟨mid, ⟨h1, h2⟩, h3⟩
    · rintro ⟨mid, ⟨h1, h2⟩, h3⟩
      exact ⟨h1, mid, h2, h3⟩

theorem seg_snoc (link : elem_ptr → Option elem_ptr) (xs : List elem_ptr) (y : elem_ptr)
    (o t : Option elem_ptr) :
    seg link o (xs ++ [y]) t ↔ seg link o xs (some y) ∧ link y = t := by
  rw [seg_append]
  simp only [seg]
  constructor
  · rintro ⟨mid, h1, h2, h3⟩
    subst h2
    exact ⟨h1, h3⟩
  · rintro ⟨h1, h2⟩
    exact ⟨some y, h1, rfl, h2⟩

/-- Where a walk through `xs ++ y :: ys` stands after `xs`. -/
theorem seg_split (link : elem_ptr → Option elem_ptr) (xs ys : List elem_ptr) (y : elem_ptr)
    (o t : Option elem_ptr) :
    seg link o (xs ++ y :: ys) t ↔ seg link o xs (some y) ∧ seg link (link y) ys t := by
  rw [seg_append]
  simp only [seg]
  constructor
  · rintro ⟨mid, h1, h2, h3⟩
    subst h2
    exact ⟨h1, h3⟩
  · rintro ⟨h1, h2⟩
    exact ⟨some y, h1, rfl, h2⟩

theorem seg_unique (link : elem_ptr → Option elem_ptr) (xs ys : List elem_ptr)
    (o : Option elem_ptr) (h1 : seg link o xs none) (h2 : seg link o ys none) : xs = ys := by
  induction xs generalizing o ys with
  | nil =>
    cases ys with
    | nil => rfl
    | cons y ys =>
      simp only [seg] at h1 h2
      rw [h1] at h2
      exact absurd h2.1 (by simp)
  | cons x xs ih =>
    cases ys with
    | nil =>
      simp only [seg] at h1 h2
      rw [h2] at h1
      exact absurd h1.1 (by simp)
    | cons y ys =>
      simp only [seg] at h1 h2
      have hxy : x = y := by
        have := h1.1.symm.trans h2.1
        exact Option.some.inj this
      subst hxy
      rw [ih ys (link x) h1.2 h2.2]

/-- A walk that ends at `NULL` passes no element twice. -/
theorem seg_nodup (link : elem_ptr → Option elem_ptr) (xs : List elem_ptr)
    (o : Option elem_ptr) (h : seg link o xs none) : xs.Nodup := by
  induction xs generalizing o with
  | nil => exact List.nodup_nil
  | cons x xs ih =>
    simp only [seg] at h
    refine List.nodup_cons.mpr ⟨?_, ih _ h.2⟩
    intro hx
    obtain ⟨a, b, hab⟩ := List.append_of_mem hx
    have h2 := h.2
    rw [hab, seg_split] at h2
    have := seg_unique link _ _ _ h.2 h2.2
    rw [hab] at this
    have hl := congrArg List.length this
    simp at hl
    omega

theorem holds_nodup (l : list_t) (m : list_links) (xs : List elem_ptr) (h : holds l m xs) :
    xs.Nodup :=
  seg_nodup _ _ _ h.1

/-- A list of distinct elements has fewer than `2 ^ 32` of them, so `size++`
does not wrap when an element is added that was not in it. -/
theorem nodup_length_lt (xs : List elem_ptr) (h : xs.Nodup) : xs.length < 4294967295 + 1 := by
  have := List.Nodup.length_le_card h
  rw [Fintype.card_fin] at this
  omega

theorem size_succ (xs : List elem_ptr) (e : elem_ptr) (h : xs.Nodup) (he : e ∉ xs) :
    (xs.length + 1) % 2 ^ 32 = xs.length + 1 := by
  have := nodup_length_lt (e :: xs) (List.nodup_cons.mpr ⟨he, h⟩)
  simp only [List.length_cons] at this
  omega

theorem holds_flip (l : list_t) (m : list_links) (xs : List elem_ptr) :
    holds l.flip m.flip xs.reverse ↔ holds l m xs := by
  unfold holds list_t.flip list_links.flip
  simp only [List.reverse_reverse, List.length_reverse]
  constructor
  · rintro ⟨h1, h2, h3⟩
    exact ⟨h2, h1, h3⟩
  · rintro ⟨h1, h2, h3⟩
    exact ⟨h2, h1, h3⟩

theorem holds_append (l : list_t) (m : list_links) (xs : List elem_ptr) (e : elem_ptr)
    (h : holds l m xs) (he : e ∉ xs) :
    ∃ l2 m2, list_append (some l) (some e) m = (some l2, m2) ∧ holds l2 m2 (xs ++ [e]) := by
  have hnd := holds_nodup l m xs h
  have hsz := size_succ xs e hnd he
  obtain ⟨hf, hb, hs⟩ := h
  rcases List.eq_nil_or_concat xs with rfl | ⟨ys, t, rfl⟩
  · simp only [seg, List.reverse_nil] at hf hb
    refine ⟨_, _, (by simp only [list_append, hb]; rfl), ?_⟩
    simp [holds, seg, list_links.set_next, list_links.set_prev, hs]
  · rw [List.concat_eq_append] at hf hb hs he hnd hsz ⊢
    rw [List.reverse_append] at hb
    simp only [List.reverse_cons, List.reverse_nil, List.nil_append, List.singleton_append,
      seg] at hb
    rw [seg_snoc] at hf
    have het : e ≠ t := by
      intro h
      apply he
      simp [h]
    have hty : t ∉ ys := by
      have := List.nodup_append.mp hnd
      intro h
      exact this.2.2 h (List.mem_singleton_self t) 
    have hey : e ∉ ys := fun h => he (List.mem_append_left _ h)
    have hb2 : seg m.prev (m.prev t) ys.reverse none := hb.2
    refine ⟨_, _, (by simp only [list_append, hb.1]; rfl), ?_⟩
    refine ⟨?_, ?_, ?_⟩
    · rw [seg_snoc, seg_snoc]
      refine ⟨⟨?_, ?_⟩, ?_⟩
      · refine (seg_congr m.next _ ys ?_ _ _).mpr hf.1
        intro x hx
        have h1 : x ≠ t := fun h => hty (h ▸ hx)
        have h2 : x ≠ e := fun h => hey (h ▸ hx)
        simp [list_links.set_next, list_links.set_prev, Function.update_apply, h1, h2]
      · simp [list_links.set_next, list_links.set_prev]
      · simp [list_links.set_next, list_links.set_prev, Function.update_apply, het]
    · rw [List.reverse_append, List.reverse_append]
      simp only [List.reverse_cons, List.reverse_nil, List.nil_append, List.singleton_append,
        seg]
      refine ⟨trivial, ?_, ?_⟩
      · simp [list_links.set_next, list_links.set_prev]
      · refine (seg_congr m.prev _ ys.reverse ?_ _ _).mpr ?_
        · intro x hx
          have h2 : x ≠ e := fun h => hey (h ▸ (List.mem_reverse.mp hx))
          simp [list_links.set_next, list_links.set_prev, Function.update_apply, h2]
        · have : (if t = e then some t else m.prev t) = m.prev t := by
            simp [Ne.symm het]
          simp only [list_links.set_next, list_links.set_prev, Function.update_apply, this]
          exact hb2
    · simp only [List.length_append, List.length_singleton] at hs hsz ⊢
      omega

theorem update_same_value (f : elem_ptr → Option elem_ptr) (p x : elem_ptr) :
    Function.update f p (f x) x = f x := by
  rw [Function.update_apply]
  split <;> rfl

/-- What `list_remove` leaves on a list that is not empty. -/
theorem list_remove_result (l : list_t) (m : list_links) (x : elem_ptr) (hsz : l.size ≠ 0) :
    list_remove (some l) (some x) m =
      (some { head := (match m.prev x with
                | some _ => l.head
                | none => m.next x),
              tail := (match m.next x with
                | some _ => l.tail
                | none => m.prev x),
              size := l.size - 1 },
        { next := Function.update
            (match m.prev x with
              | some p => Function.update m.next p (m.next x)
              | none => m.next) x none,
          prev := Function.update
            (match m.next x with
              | some n => Function.update m.prev n (m.prev x)
              | none => m.prev) x none }) := by
  unfold list_remove
  simp only [hsz, if_false]
  have h1 := fun p => update_same_value m.next p x
  cases hp : m.prev x <;> cases hn : m.next x <;> simp only [hn] at h1 <;>
    simp [list_links.set_next, list_links.set_prev, hp, hn, h1]

theorem list_remove_flip (l : list_t) (m : list_links) (x : elem_ptr) (hsz : l.size ≠ 0) :
    list_remove (some l.flip) (some x) m.flip =
      ((list_remove (some l) (some x) m).1.map list_t.flip,
        (list_remove (some l) (some x) m).2.flip) := by
  rw [list_remove_result l m x hsz, list_remove_result l.flip m.flip x hsz]
  rfl

/-- The forward walk after `list_remove` has taken `x` out. -/
theorem remove_fwd (next prev : elem_ptr → Option elem_ptr) (head : Option elem_ptr)
    (a : List elem_ptr) (x : elem_ptr) (b : List elem_ptr)
    (hf : seg next head (a ++ x :: b) none) (hp : seg prev (prev x) a.reverse none) :
    seg (Function.update
          (match prev x with
            | some p => Function.update next p (next x)
            | none => next) x none)
      (match prev x with
        | some _ => head
        | none => next x) (a ++ b) none := by
  have hnd := seg_nodup _ _ _ hf
  rw [seg_split] at hf
  obtain ⟨hfa, hfb⟩ := hf
  have hxb : x ∉ b := by
    have := (List.nodup_append.mp hnd).2.1
    exact (List.nodup_cons.mp this).1
  have hxa : x ∉ a := by
    intro h
    exact (List.nodup_append.mp hnd).2.2 h (List.mem_cons_self _ _)
  rcases List.eq_nil_or_concat a with rfl | ⟨a2, p, rfl⟩
  · simp only [List.reverse_nil, seg] at hp
    simp only [hp, List.nil_append]
    refine (seg_congr next _ b ?_ _ _).mpr hfb
    intro y hy
    have : y ≠ x := fun h => hxb (h ▸ hy)
    simp [Function.update_apply, this]
  · rw [List.concat_eq_append] at hfa hnd hxa hp ⊢
    have hpx : prev x = some p := by
      rw [List.reverse_append] at hp
      exact hp.1
    rw [seg_snoc] at hfa
    have hpa : p ∉ a2 := by
      have := (List.nodup_append.mp (List.nodup_append.mp hnd).1).2.2
      intro h
      exact this h (List.mem_singleton_self p)
    have hpb : p ∉ b := by
      intro h
      exact (List.nodup_append.mp hnd).2.2 (List.mem_append_right _ (List.mem_singleton_self p))
        (List.mem_cons_of_mem _ h)
    have hpne : p ≠ x := by
      intro h
      apply hxa
      simp [h]
    simp only [hpx]
    rw [seg_append]
    refine ⟨next x, ?_, ?_⟩
    · rw [seg_snoc]
      refine ⟨?_, ?_⟩
      · refine (seg_congr next _ a2 ?_ _ _).mpr hfa.1
        intro y hy
        have h1 : y ≠ x := fun h => hxa (h ▸ List.mem_append_left _ hy)
        have h2 : y ≠ p := fun h => hpa (h ▸ hy)
        simp [Function.update_apply, h1, h2]
      · simp [Function.update_apply, hpne]
    · refine (seg_congr next _ b ?_ _ _).mpr hfb
      intro y hy
      have h1 : y ≠ x := fun h => hxb (h ▸ hy)
      have h2 : y ≠ p := fun h => hpb (h ▸ hy)
      simp [Function.update_apply, h1, h2]

theorem holds_remove (l : list_t) (m : list_links) (a : List elem_ptr) (x : elem_ptr)
    (b : List elem_ptr) (h : holds l m (a ++ x :: b)) :
    ∃ l2 m2, list_remove (some l) (some x) m = (some l2, m2) ∧ holds l2 m2 (a ++ b) ∧
      m2.next x = none ∧ m2.prev x = none := by
  obtain ⟨hf, hb, hs⟩ := h
  have hsz : l.size ≠ 0 := by
    rw [hs]
    simp
  have hb2 : seg m.prev l.tail (b.reverse ++ x :: a.reverse) none := by
    simpa using hb
  have hpa : seg m.prev (m.prev x) a.reverse none := ((seg_split _ _ _ _ _ _).mp hb2).2
  have hnb : seg m.next (m.next x) b none := ((seg_split _ _ _ _ _ _).mp hf).2
  refine ⟨_, _, list_remove_result l m x hsz, ⟨?_, ?_, ?_⟩, ?_, ?_⟩
  · exact remove_fwd m.next m.prev l.head a x b hf hpa
  · have := remove_fwd m.prev m.next l.tail b.reverse x a.reverse hb2 (by simpa using hnb)
    simpa using this
  · simp only [hs, List.length_append, List.length_cons]
    omega
  · simp
  · simp

/-- On a list whose head has no predecessor, `list_remove_head` does what
`list_remove` of the head does, and returns the head. -/
theorem list_remove_head_eq (l : list_t) (m : list_links) (x : elem_ptr)
    (hh : l.head = some x) (hsz : l.size ≠ 0) (hp : m.prev x = none) :
    list_remove_head (some l) m =
      some (some x, (list_remove (some l) (some x) m).1, (list_remove (some l) (some x) m).2) := by
  rw [list_remove_result l m x hsz]
  unfold list_remove_head
  simp only [hsz, if_false, hh, hp]
  cases hn : m.next x <;>
    simp [list_links.set_next, list_links.set_prev, hp, hn]

theorem holds_remove_head (l : list_t) (m : list_links) (xs : List elem_ptr)
    (h : holds l m xs) :
    ∃ l2 m2, list_remove_head (some l) m = some (xs.head?, some l2, m2) ∧
      holds l2 m2 xs.tail := by
  cases xs with
  | nil =>
    refine ⟨l, m, ?_, h⟩
    have hs : l.size = 0 := h.2.2
    simp [list_remove_head, hs]
  | cons x b =>
    have hh : l.head = some x := h.1.1
    have hsz : l.size ≠ 0 := by
      rw [h.2.2]
      simp
    have hp : m.prev x = none := by
      have hb := h.2.1
      rw [List.reverse_cons, seg_snoc] at hb
      exact hb.2
    obtain ⟨l2, m2, hr, hh2, _, _⟩ := holds_remove l m [] x b h
    refine ⟨l2, m2, ?_, hh2⟩
    rw [list_remove_head_eq l m x hh hsz hp, hr]
    rfl

theorem list_remove_tail_flip (l : list_t) (m : list_links) :
    list_remove_tail (some l) m =
      (list_remove_head (some l.flip) m.flip).map
        fun r => (r.1, r.2.1.map list_t.flip, r.2.2.flip) := by
  unfold list_remove_tail list_remove_head
  by_cases hsz : l.size = 0
  · obtain ⟨h, t, s⟩ := l
    simp only at hsz
    subst hsz
    simp [list_t.flip, list_links.flip]
  · cases ht : l.tail with
    | none => simp [hsz, list_t.flip, list_links.flip, ht]
    | some x =>
      cases hp : m.prev x <;>
        simp [hsz, list_t.flip, list_links.flip, ht, hp, list_links.set_next,
          list_links.set_prev]

theorem holds_remove_tail (l : list_t) (m : list_links) (xs : List elem_ptr)
    (h : holds l m xs) :
    ∃ l2 m2, list_remove_tail (some l) m = some (xs.getLast?, some l2, m2) ∧
      holds l2 m2 xs.dropLast := by
  obtain ⟨l2, m2, hr, hh⟩ := holds_remove_head l.flip m.flip xs.reverse
    ((holds_flip l m xs).mpr h)
  refine ⟨l2.flip, m2.flip, ?_, ?_⟩
  · rw [list_remove_tail_flip, hr]
    simp [List.head?_reverse]
  · have : holds l2.flip.flip m2.flip.flip xs.reverse.tail := hh
    rw [List.tail_reverse] at this
    exact (holds_flip l2.flip m2.flip xs.dropLast).mp this

theorem list_prepend_flip (l : list_t) (m : list_links) (e : elem_ptr) :
    list_prepend (some l) (some e) m =
      ((list_append (some l.flip) (some e) m.flip).1.map list_t.flip,
        (list_append (some l.flip) (some e) m.flip).2.flip) := by
  unfold list_prepend list_append
  cases hh : l.head <;>
    simp [list_t.flip, list_links.flip, hh, list_links.set_next, list_links.set_prev]

theorem holds_prepend (l : list_t) (m : list_links) (xs : List elem_ptr) (e : elem_ptr)
    (h : holds l m xs) (he : e ∉ xs) :
    ∃ l2 m2, list_prepend (some l) (some e) m = (some l2, m2) ∧ holds l2 m2 (e :: xs) := by
  obtain ⟨l2, m2, hr, hh⟩ := holds_append l.flip m.flip xs.reverse e
    ((holds_flip l m xs).mpr h) (by simpa using he)
  refine ⟨l2.flip, m2.flip, ?_, ?_⟩
  · rw [list_prepend_flip, hr]
    rfl
  · have : holds l2.flip.flip m2.flip.flip (e :: xs).reverse := by
      simpa using hh
    exact (holds_flip l2.flip m2.flip (e :: xs)).mp this

/-- What `list_insert_before` leaves. -/
theorem list_insert_before_result (l : list_t) (m : list_links) (x e : elem_ptr) :
    list_insert_before (some l) (some x) (some e) m =
      (some { head := (match m.prev x with
                | some _ => l.head
                | none => some e),
              tail := l.tail,
              size := (l.size + 1) % 2 ^ 32 },
        { next := (match m.prev x with
            | some p => Function.update (Function.update m.next e (some x)) p (some e)
            | none => Function.update m.next e (some x)),
          prev := Function.update (Function.update m.prev e (m.prev x)) x (some e) }) := by
  unfold list_insert_before
  have h1 := update_same_value m.prev e x
  cases hp : m.prev x <;> simp only [hp] at h1 <;>
    simp [list_links.set_next, list_links.set_prev, hp, h1]

theorem list_insert_after_flip (l : list_t) (m : list_links) (x e : elem_ptr) :
    list_insert_after (some l) (some x) (some e) m =
      ((list_insert_before (some l.flip) (some x) (some e) m.flip).1.map list_t.flip,
        (list_insert_before (some l.flip) (some x) (some e) m.flip).2.flip) := by
  rw [list_insert_before_result]
  unfold list_insert_after
  have h1 := update_same_value m.next e x
  cases hn : m.next x <;> simp only [hn] at h1 <;>
    simp [list_links.set_next, list_links.set_prev, list_t.flip, list_links.flip, hn, h1]

theorem holds_insert_before (l : list_t) (m : list_links) (a : List elem_ptr) (x : elem_ptr)
    (b : List elem_ptr) (e : elem_ptr) (h : holds l m (a ++ x :: b)) (he : e ∉ a ++ x :: b) :
    ∃ l2 m2, list_insert_before (some l) (some x) (some e) m = (some l2, m2) ∧
      holds l2 m2 (a ++ e :: x :: b) := by
  have hnd := holds_nodup l m _ h
  have hsz := size_succ _ e hnd he
  obtain ⟨hf, hb, hs⟩ := h
  have hb2 : seg m.prev l.tail (b.reverse ++ x :: a.reverse) none := by
    simpa using hb
  obtain ⟨hbb, hba⟩ := (seg_split _ _ _ _ _ _).mp hb2
  obtain ⟨hfa, hfb⟩ := (seg_split _ _ _ _ _ _).mp hf
  have hex : e ≠ x := by
    intro h
    apply he
    simp [h]
  have hea : e ∉ a := fun h => he (List.mem_append_left _ h)
  have heb : e ∉ b := fun h => he (List.mem_append_right _ (List.mem_cons_of_mem _ h))
  have hxb : x ∉ b := (List.nodup_cons.mp (List.nodup_append.mp hnd).2.1).1
  have hxa : x ∉ a := fun h => (List.nodup_append.mp hnd).2.2 h (List.mem_cons_self _ _)
  refine ⟨_, _, list_insert_before_result l m x e, ⟨?_, ?_, ?_⟩⟩
  · -- the forward walk
    simp only
    rcases List.eq_nil_or_concat a with rfl | ⟨a2, p, rfl⟩
    · simp only [List.reverse_nil, seg] at hba
      simp only [hba, List.nil_append, seg]
      refine ⟨trivial, by simp, ?_⟩
      · have hxe : (Function.update m.next e (some x)) x = m.next x := by
          simp [Function.update_apply, Ne.symm hex]
        rw [hxe]
        refine (seg_congr m.next _ b ?_ _ _).mpr hfb
        intro y hy
        have : y ≠ e := fun h => heb (h ▸ hy)
        simp [Function.update_apply, this]
    · rw [List.concat_eq_append] at hfa hnd hxa hea hba ⊢
      have hpx : m.prev x = some p := by
        rw [List.reverse_append] at hba
        exact hba.1
      rw [seg_snoc] at hfa
      have hpa : p ∉ a2 := by
        have := (List.nodup_append.mp (List.nodup_append.mp hnd).1).2.2
        intro h
        exact this h (List.mem_singleton_self p)
      have hpb : p ∉ b := by
        intro h
        exact (List.nodup_append.mp hnd).2.2
          (List.mem_append_right _ (List.mem_singleton_self p)) (List.mem_cons_of_mem _ h)
      have hpx2 : p ≠ x := by
        intro h
        apply hxa
        simp [h]
      have hpe : p ≠ e := by
        intro h
        apply hea
        simp [h]
      simp only [hpx]
      rw [seg_split, seg_snoc]
      refine ⟨⟨?_, ?_⟩, ?_⟩
      · refine (seg_congr m.next _ a2 ?_ _ _).mpr hfa.1
        intro y hy
        have h1 : y ≠ e := fun h => hea (h ▸ List.mem_append_left _ hy)
        have h2 : y ≠ p := fun h => hpa (h ▸ hy)
        simp [Function.update_apply, h1, h2]
      · simp
      · have hne : Function.update (Function.update m.next e (some x)) p (some e) e =
            some x := by
          simp [Function.update_apply, Ne.symm hpe]
        rw [hne]
        refine ⟨rfl, ?_⟩
        have hnx : Function.update (Function.update m.next e (some x)) p (some e) x =
            m.next x := by
          simp [Function.update_apply, Ne.symm hpx2, Ne.symm hex]
        rw [hnx]
        refine (seg_congr m.next _ b ?_ _ _).mpr hfb
        intro y hy
        have h1 : y ≠ e := fun h => heb (h ▸ hy)
        have h2 : y ≠ p := fun h => hpb (h ▸ hy)
        simp [Function.update_apply, h1, h2]
  · -- the backward walk
    simp only
    have hr : (a ++ e :: x :: b).reverse = b.reverse ++ x :: e :: a.reverse := by simp
    rw [hr, seg_split]
    refine ⟨?_, ?_⟩
    · refine (seg_congr m.prev _ b.reverse ?_ _ _).mpr hbb
      intro y hy
      have hy2 := List.mem_reverse.mp hy
      have h1 : y ≠ e := fun h => heb (h ▸ hy2)
      have h2 : y ≠ x := fun h => hxb (h ▸ hy2)
      simp [Function.update_apply, h1, h2]
    · have hpx : Function.update (Function.update m.prev e (m.prev x)) x (some e) x =
          some e := by simp
      rw [hpx]
      refine ⟨rfl, ?_⟩
      have hpe : Function.update (Function.update m.prev e (m.prev x)) x (some e) e =
          m.prev x := by
        simp [Function.update_apply, hex]
      rw [hpe]
      refine (seg_congr m.prev _ a.reverse ?_ _ _).mpr hba
      intro y hy
      have hy2 := List.mem_reverse.mp hy
      have h1 : y ≠ e := fun h => hea (h ▸ hy2)
      have h2 : y ≠ x := fun h => hxa (h ▸ hy2)
      simp [Function.update_apply, h1, h2]
  · simp only [List.length_append, List.length_cons] at hs hsz ⊢
    omega

theorem holds_insert_after (l : list_t) (m : list_links) (a : List elem_ptr) (x : elem_ptr)
    (b : List elem_ptr) (e : elem_ptr) (h : holds l m (a ++ x :: b)) (he : e ∉ a ++ x :: b) :
    ∃ l2 m2, list_insert_after (some l) (some x) (some e) m = (some l2, m2) ∧
      holds l2 m2 (a ++ x :: e :: b) := by
  have hfl : holds l.flip m.flip (b.reverse ++ x :: a.reverse) := by
    have := (holds_flip l m (a ++ x :: b)).mpr h
    simpa using this
  obtain ⟨l2, m2, hr, hh⟩ := holds_insert_before l.flip m.flip b.reverse x a.reverse e hfl
    (by
      intro hmem
      apply he
      simp only [List.mem_append, List.mem_reverse, List.mem_cons] at hmem ⊢
      tauto)
  refine ⟨l2.flip, m2.flip, ?_, ?_⟩
  · rw [list_insert_after_flip, hr]
    rfl
  · have : holds l2.flip.flip m2.flip.flip (a ++ x :: e :: b).reverse := by
      simpa using hh
    exact (holds_flip l2.flip m2.flip _).mp this

/-- The loop of `list_insert_sorted`, entered at the element in front of
`rest` after the elements of `a` have been passed: with enough fuel it comes
back, and the list then holds the new element in front of the first element of
`rest` that does not compare below it. -/
theorem insert_sorted_loop_holds (cmp : elem_ptr → elem_ptr → Int) (l : list_t)
    (m : list_links) (e : elem_ptr) (rest : List elem_ptr) :
    ∀ (a : List elem_ptr) (current : Option elem_ptr) (fuel : Nat),
      holds l m (a ++ rest) → e ∉ a ++ rest → seg m.next current rest none →
      rest.length ≤ fuel →
      ∃ l2 m2, list_insert_sorted_loop cmp l e m fuel current = some (some l2, m2) ∧
        holds l2 m2 (a ++ (rest.takeWhile (fun c => decide (0 < cmp e c)) ++
          e :: rest.dropWhile (fun c => decide (0 < cmp e c)))) := by
  induction rest with
  | nil =>
    intro a current fuel h he hcur _
    simp only [seg] at hcur
    subst hcur
    obtain ⟨l2, m2, hr, hh⟩ := holds_append l m (a ++ []) e h he
    refine ⟨l2, m2, ?_, ?_⟩
    · cases fuel <;> simp [list_insert_sorted_loop, hr]
    · simpa using hh
  | cons c r ih =>
    intro a current fuel h he hcur hfuel
    simp only [seg] at hcur
    obtain ⟨hc, hnext⟩ := hcur
    subst hc
    cases fuel with
    | zero => simp at hfuel
    | succ f =>
      by_cases hle : cmp e c ≤ 0
      · obtain ⟨l2, m2, hr, hh⟩ := holds_insert_before l m a c r e h he
        refine ⟨l2, m2, ?_, ?_⟩
        · simp [list_insert_sorted_loop, hle, hr]
        · have hp : ¬ 0 < cmp e c := by omega
          simpa [List.takeWhile_cons, List.dropWhile_cons, hp] using hh
      · have h2 : holds l m ((a ++ [c]) ++ r) := by simpa using h
        have he2 : e ∉ (a ++ [c]) ++ r := by simpa using he
        obtain ⟨l2, m2, hr, hh⟩ := ih (a ++ [c]) (m.next c) f h2 he2 hnext
          (by simpa using hfuel)
        refine ⟨l2, m2, ?_, ?_⟩
        · simp [list_insert_sorted_loop, hle, hr]
        · have hp : 0 < cmp e c := by omega
          simpa [List.takeWhile_cons, List.dropWhile_cons, hp] using hh

theorem holds_insert_sorted (cmp : elem_ptr → elem_ptr → Int) (l : list_t) (m : list_links)
    (xs : List elem_ptr) (e : elem_ptr) (fuel : Nat) (h : holds l m xs) (he : e ∉ xs)
    (hfuel : xs.length ≤ fuel) :
    ∃ l2 m2, list_insert_sorted (some l) (some e) (some cmp) m fuel = some (some l2, m2) ∧
      holds l2 m2 (xs.takeWhile (fun c => decide (0 < cmp e c)) ++
        e :: xs.dropWhile (fun c => decide (0 < cmp e c))) := by
  unfold list_insert_sorted
  by_cases hsz : l.size = 0
  · have hxs : xs = [] := by
      have := h.2.2
      rw [hsz] at this
      exact List.length_eq_zero.mp this.symm
    subst hxs
    obtain ⟨l2, m2, hr, hh⟩ := holds_append l m [] e h he
    exact ⟨l2, m2, by simp [hsz, hr], by simpa using hh⟩
  · simp only [hsz, if_false]
    have := insert_sorted_loop_holds cmp l m e xs [] l.head fuel (by simpa using h)
      (by simpa using he) h.1 hfuel
    simpa using this

theorem holds_init (l0 : list_t) (m : list_links) :
    ∃ l1, list_init (some l0) = some l1 ∧ holds l1 m [] :=
  ⟨_, rfl, rfl, rfl, rfl⟩

/-- In a list that holds `xs`, `b` follows `a` by the `next` links exactly when
`a` precedes `b` by the `prev` links. -/
theorem holds_mirror (l : list_t) (m : list_links) (xs : List elem_ptr) (h : holds l m xs)
    (a b : elem_ptr) :
    (a ∈ xs ∧ m.next a = some b) ↔ (b ∈ xs ∧ m.prev b = some a) := by
  obtain ⟨hf, hb, _⟩ := h
  constructor
  · rintro ⟨ha, hn⟩
    obtain ⟨u, v, rfl⟩ := List.append_of_mem ha
    have h1 := ((seg_split _ _ _ _ _ _).mp hf).2
    rw [hn] at h1
    cases v with
    | nil => exact absurd h1 (by simp [seg])
    | cons c v =>
      have hc : b = c := Option.some.inj h1.1
      subst hc
      refine ⟨by simp, ?_⟩
      have hr : (u ++ a :: b :: v).reverse = v.reverse ++ b :: (a :: u.reverse) := by simp
      rw [hr] at hb
      exact ((seg_split _ _ _ _ _ _).mp hb).2.1
  · rintro ⟨hbm, hp⟩
    obtain ⟨u, v, rfl⟩ := List.append_of_mem hbm
    have hr : (u ++ b :: v).reverse = v.reverse ++ b :: u.reverse := by simp
    rw [hr] at hb
    have h1 := ((seg_split _ _ _ _ _ _).mp hb).2
    rw [hp] at h1
    rcases List.eq_nil_or_concat u with rfl | ⟨w, c, rfl⟩
    · exact absurd h1 (by simp [seg])
    · rw [List.concat_eq_append] at h1 hf ⊢
      rw [List.reverse_append] at h1
      have hc : a = c := Option.some.inj h1.1
      subst hc
      refine ⟨by simp, ?_⟩
      have hs : w ++ [a] ++ b :: v = w ++ a :: b :: v := by simp
      rw [hs] at hf
      exact ((seg_split _ _ _ _ _ _).mp hf).2.1

/-- The ends of a list that holds `xs`. -/
theorem holds_ends (l : list_t) (m : list_links) (xs : List elem_ptr) (h : holds l m xs) :
    l.head = xs.head? ∧ l.tail = xs.getLast? ∧
    (l.head = none ↔ l.tail = none) ∧ (l.tail = none ↔ l.size = 0) ∧
    (∀ x, l.head = some x → m.prev x = none) ∧ (∀ x, l.tail = some x → m.next x = none) := by
  obtain ⟨hf, hb, hs⟩ := h
  rcases List.eq_nil_or_concat xs with rfl | ⟨ys, t, rfl⟩
  · simp only [seg, List.reverse_nil] at hf hb
    simp [hf, hb, hs]
  · rw [List.concat_eq_append] at hf hb hs ⊢
    have hb2 : seg m.prev l.tail (t :: ys.reverse) none := by simpa using hb
    have htail : l.tail = some t := hb2.1
    have hnext : m.next t = none := ((seg_snoc _ _ _ _ _).mp hf).2
    have htl : l.tail = (ys ++ [t]).getLast? := by
      rw [htail]
      simp
    cases ys with
    | nil =>
      have hhead : l.head = some t := hf.1
      have hprev : m.prev t = none := hb2.2
      refine ⟨by simp [hhead], htl, by simp [hhead, htail],
        by simp [htail, hs], ?_, ?_⟩
      · intro x hx
        rw [hhead] at hx
        rw [← Option.some.inj hx]
        exact hprev
      · intro x hx
        rw [htail] at hx
        rw [← Option.some.inj hx]
        exact hnext
    | cons y ys =>
      have hhead : l.head = some y := hf.1
      have hprev : m.prev y = none := by
        have hr : (y :: ys ++ [t]).reverse = (ys ++ [t]).reverse ++ [y] := by simp
        rw [hr] at hb
        exact ((seg_snoc _ _ _ _ _).mp hb).2
      refine ⟨by simp [hhead], htl, by simp [hhead, htail],
        by simp [htail, hs], ?_, ?_⟩
      · intro x hx
        rw [hhead] at hx
        rw [← Option.some.inj hx]
        exact hprev
      · intro x hx
        rw [htail] at hx
        rw [← Option.some.inj hx]
        exact hnext

/-- No walk passes an element whose link leads back to itself. -/
theorem seg_self_loop (link : elem_ptr → Option elem_ptr) (x : elem_ptr)
    (h : link x = some x) (xs : List elem_ptr) : ¬ seg link (some x) xs none := by
  induction xs with
  | nil => simp [seg]
  | cons y ys ih =>
    intro hs
    have hy : x = y := Option.some.inj hs.1
    subst hy
    have := hs.2
    rw [h] at this
    exact ih this

theorem erase_split (a : List elem_ptr) (x : elem_ptr) (b : List elem_ptr) (hx : x ∉ a) :
    (a ++ x :: b).erase x = a ++ b := by
  rw [List.erase_append_right _ hx]
  simp

/-- C25, with the condition on the inserted element spelled out for every
insertion. A list that holds the elements `xs` is well formed: `size` is the
number of elements that the `next` links lead through from `head`, `b` follows
`a` by `next` exactly when `a` precedes `b` by `prev`, `head` is null iff `tail`
is null iff `size` is 0, and `head->prev` and `tail->next` are null.
`list_init` gives a list that holds nothing. From a list that holds `xs`:
`list_append` and `list_prepend` of an element not in `xs` give a list that
holds `xs` with the element at the back or in front; `list_remove_head` and
`list_remove_tail` return the first or last element and leave the others (on
the empty list they return `NULL` and change nothing); `list_insert_sorted` of
an element not in `xs` comes back with enough fuel and leaves a well-formed
list with one element more; `list_remove` of a member leaves `xs` without it;
`list_insert_after` and `list_insert_before` of an element not in `xs` at a
member leave `xs` with the element behind or in front of that member. A null
element changes nothing. -/
theorem list_well_formed_preserved (l : list_t) (m : list_links) (xs : List elem_ptr)
    (h : holds l m xs) :
    (well_formed l m ∧ seg m.next l.head xs none ∧ l.size = xs.length ∧
      (∀ a b, (a ∈ xs ∧ m.next a = some b) ↔ (b ∈ xs ∧ m.prev b = some a)) ∧
      (l.head = none ↔ l.tail = none) ∧ (l.tail = none ↔ l.size = 0) ∧
      (∀ x, l.head = some x → m.prev x = none) ∧
      (∀ x, l.tail = some x → m.next x = none)) ∧
    (∀ l0 : list_t, ∃ l1, list_init (some l0) = some l1 ∧ holds l1 m []) ∧
    (∀ e, e ∉ xs →
      ∃ l2 m2, list_append (some l) (some e) m = (some l2, m2) ∧ holds l2 m2 (xs ++ [e])) ∧
    (∀ e, e ∉ xs →
      ∃ l2 m2, list_prepend (some l) (some e) m = (some l2, m2) ∧ holds l2 m2 (e :: xs)) ∧
    (∃ l2 m2, list_remove_head (some l) m = some (xs.head?, some l2, m2) ∧
      holds l2 m2 xs.tail) ∧
    (∃ l2 m2, list_remove_tail (some l) m = some (xs.getLast?, some l2, m2) ∧
      holds l2 m2 xs.dropLast) ∧
    (∀ (cmp : elem_ptr → elem_ptr → Int) (e : elem_ptr) (fuel : Nat), e ∉ xs →
      xs.length ≤ fuel →
      ∃ l2 m2, list_insert_sorted (some l) (some e) (some cmp) m fuel = some (some l2, m2) ∧
        well_formed l2 m2 ∧ l2.size = l.size + 1) ∧
    (∀ x, x ∈ xs →
      ∃ l2 m2, list_remove (some l) (some x) m = (some l2, m2) ∧ holds l2 m2 (xs.erase x)) ∧
    (∀ x e, x ∈ xs → e ∉ xs →
      ∃ l2 m2 a b, xs = a ++ x :: b ∧
        list_insert_after (some l) (some x) (some e) m = (some l2, m2) ∧
        holds l2 m2 (a ++ x :: e :: b)) ∧
    (∀ x e, x ∈ xs → e ∉ xs →
      ∃ l2 m2 a b, xs = a ++ x :: b ∧
        list_insert_before (some l) (some x) (some e) m = (some l2, m2) ∧
        holds l2 m2 (a ++ e :: x :: b)) ∧
    (list_append (some l) none m = (some l, m) ∧ list_prepend (some l) none m = (some l, m) ∧
      list_remove (some l) none m = (some l, m) ∧
      ∀ cmp fuel, list_insert_sorted (some l) none cmp m fuel = some (some l, m)) := by
  have hends := holds_ends l m xs h
  have hnd := holds_nodup l m xs h
  refine ⟨⟨⟨xs, h⟩, h.1, h.2.2, holds_mirror l m xs h, hends.2.2.1, hends.2.2.2.1,
    hends.2.2.2.2.1, hends.2.2.2.2.2⟩, fun l0 => holds_init l0 m,
    fun e he => holds_append l m xs e h he, fun e he => holds_prepend l m xs e h he,
    holds_remove_head l m xs h, holds_remove_tail l m xs h, ?_, ?_, ?_, ?_,
    ⟨rfl, rfl, rfl, fun cmp fuel => rfl⟩⟩
  · intro cmp e fuel he hfuel
    obtain ⟨l2, m2, hr, hh⟩ := holds_insert_sorted cmp l m xs e fuel h he hfuel
    refine ⟨l2, m2, hr, ⟨_, hh⟩, ?_⟩
    have hl := hh.2.2
    rw [hl, h.2.2]
    have := congrArg List.length
      (List.takeWhile_append_dropWhile (fun c => decide (0 < cmp e c)) xs)
    simp only [List.length_append, List.length_cons] at this ⊢
    omega
  · intro x hx
    obtain ⟨a, b, rfl⟩ := List.append_of_mem hx
    have hxa : x ∉ a := fun h2 => (List.nodup_append.mp hnd).2.2 h2 (List.mem_cons_self _ _)
    obtain ⟨l2, m2, hr, hh, _, _⟩ := holds_remove l m a x b h
    exact ⟨l2, m2, hr, by rw [erase_split a x b hxa]; exact hh⟩
  · intro x e hx he
    obtain ⟨a, b, rfl⟩ := List.append_of_mem hx
    obtain ⟨l2, m2, hr, hh⟩ := holds_insert_after l m a x b e h he
    exact ⟨l2, m2, a, b, rfl, hr, hh⟩
  · intro x e hx he
    obtain ⟨a, b, rfl⟩ := List.append_of_mem hx
    obtain ⟨l2, m2, hr, hh⟩ := holds_insert_before l m a x b e h he
    exact ⟨l2, m2, a, b, rfl, hr, hh⟩

theorem sample_list_holds : holds sample_list sample_links [1, 2] := by
  unfold holds
  simp [seg, sample_list, sample_links]

/-- C25 as amended, on the list of the elements 1 and 2: appending element 3
gives the list 1, 2, 3; removing element 1 gives the list of element 2;
inserting element 3 in front of element 2 gives 1, 3, 2. -/
theorem list_well_formed_preserved_witness :
    holds sample_list sample_links [1, 2] ∧
    (∃ l2 m2, list_append (some sample_list) (some 3) sample_links = (some l2, m2) ∧
      holds l2 m2 [1, 2, 3]) ∧
    (∃ l2 m2, list_remove (some sample_list) (some 1) sample_links = (some l2, m2) ∧
      holds l2 m2 [2]) ∧
    (∃ l2 m2 a b, [1, 2] = a ++ (2 : elem_ptr) :: b ∧
      list_insert_before (some sample_list) (some 2) (some 3) sample_links = (some l2, m2) ∧
      holds l2 m2 (a ++ 3 :: 2 :: b)) :=
  ⟨sample_list_holds,
    (list_well_formed_preserved sample_list sample_links [1, 2] sample_list_holds).2.2.1 3
      (by decide),
    (list_well_formed_preserved sample_list sample_links [1, 2]
      sample_list_holds).2.2.2.2.2.2.2.1 1 (by decide),
    (list_well_formed_preserved sample_list sample_links [1, 2]
      sample_list_holds).2.2.2.2.2.2.2.2.2.1 2 3 (by decide) (by decide)⟩

/-- C25 as stated fails for `list_append` of an element that is in the list:
the list of the single element 1 is well formed; after `list_append` of
element 1 its `next` link leads back to itself, `size` is 2, and the list is
not well formed. -/
theorem list_append_of_member :
    holds sample_single_list sample_null_links [1] ∧
    ∃ l2 m2, list_append (some sample_single_list) (some 1) sample_null_links = (some l2, m2) ∧
      l2.size = 2 ∧ m2.next 1 = some 1 ∧ ¬ well_formed l2 m2 := by
  refine ⟨by unfold holds; simp [seg, sample_single_list, sample_null_links], _, _, rfl, rfl,
    rfl, ?_⟩
  rintro ⟨xs, hf, _, _⟩
  exact seg_self_loop
    (((sample_null_links.set_next 1 none).set_prev 1 sample_single_list.tail).set_next 1
      (some 1)).next 1 rfl xs hf

/-- The calls on a list that holds `q` return what the queue discipline
prescribes, and the list then holds what is left in the queue. -/
theorem run_calls_fifo (calls : List queue_call) :
    ∀ (l : list_t) (m : list_links) (q : List elem_ptr), holds l m q →
      appends_fresh calls q →
      ∃ l2 m2, run_calls calls l m = some ((fifo calls q).1, l2, m2) ∧
        holds l2 m2 (fifo calls q).2 := by
  induction calls with
  | nil =>
    intro l m q h _
    exact ⟨l, m, rfl, h⟩
  | cons c rest ih =>
    intro l m q h hfresh
    cases c with
    | append e =>
      obtain ⟨l1, m1, hr, hh⟩ := holds_append l m q e h hfresh.1
      obtain ⟨l2, m2, hr2, hh2⟩ := ih l1 m1 (q ++ [e]) hh hfresh.2
      refine ⟨l2, m2, ?_, hh2⟩
      simp only [run_calls, hr, fifo]
      exact hr2
    | remove_head =>
      obtain ⟨l1, m1, hr, hh⟩ := holds_remove_head l m q h
      obtain ⟨l2, m2, hr2, hh2⟩ := ih l1 m1 q.tail hh hfresh
      refine ⟨l2, m2, ?_, hh2⟩
      simp only [run_calls, hr, hr2, fifo, Option.map_some']

theorem fifo_appends (es : List elem_ptr) (rest : List queue_call) (q : List elem_ptr) :
    fifo (es.map queue_call.append ++ rest) q = fifo rest (q ++ es) := by
  induction es generalizing q with
  | nil => simp
  | cons e es ih =>
    show fifo (es.map queue_call.append ++ rest) (q ++ [e]) = fifo rest (q ++ e :: es)
    rw [ih]
    simp

theorem fifo_removes (q : List elem_ptr) :
    fifo (List.replicate q.length queue_call.remove_head) q = (q.map some, []) := by
  induction q with
  | nil => rfl
  | cons x q ih =>
    simp only [List.length_cons, List.replicate_succ, fifo, List.head?_cons, List.tail_cons,
      ih, List.map_cons]

theorem fresh_removes (n : Nat) (q : List elem_ptr) :
    appends_fresh (List.replicate n queue_call.remove_head) q := by
  induction n generalizing q with
  | zero => trivial
  | succ n ih =>
    simp only [List.replicate_succ, appends_fresh]
    exact ih _

theorem fresh_appends (es : List elem_ptr) (rest : List queue_call) (q : List elem_ptr)
    (hnd : (q ++ es).Nodup) (hrest : appends_fresh rest (q ++ es)) :
    appends_fresh (es.map queue_call.append ++ rest) q := by
  induction es generalizing q with
  | nil => simpa using hrest
  | cons e es ih =>
    simp only [List.map_cons, List.cons_append, appends_fresh]
    have hq : q ++ e :: es = (q ++ [e]) ++ es := by simp
    refine ⟨?_, ih (q ++ [e]) (by rw [← hq]; exact hnd) (by rw [← hq]; exact hrest)⟩
    intro he
    exact (List.nodup_append.mp hnd).2.2 he (List.mem_cons_self _ _)

/-- C21: on a list set up by `list_init`, calls of `list_append` (each of an
element that is not in the list at that moment) and of `list_remove_head`, in
any order, return what a first-in first-out queue returns: each removal gives
the element appended earliest among those still in the list, and `NULL` exactly
when none is left, which is when `size` is 0; the list then holds the elements
still queued, in the order of their appends. Appending `e1 .. en` (distinct)
and removing `n` heads returns `e1 .. en` in this order and leaves the list
empty. -/
theorem list_fifo_order (l0 : list_t) (m : list_links) :
    ∃ l1, list_init (some l0) = some l1 ∧
      (∀ calls, appends_fresh calls [] →
        ∃ l2 m2, run_calls calls l1 m = some ((fifo calls []).1, l2, m2) ∧
          holds l2 m2 (fifo calls []).2) ∧
      (∀ es : List elem_ptr, es.Nodup →
        ∃ l2 m2,
          run_calls (es.map queue_call.append ++
              List.replicate es.length queue_call.remove_head) l1 m =
            some (es.map some, l2, m2) ∧
          holds l2 m2 []) ∧
      (∀ (l : list_t) (m1 : list_links) (q : List elem_ptr), holds l m1 q →
        ∃ l2 m2, list_remove_head (some l) m1 = some (q.head?, some l2, m2) ∧
          holds l2 m2 q.tail ∧ (q.head? = none ↔ q = []) ∧ (q = [] ↔ l.size = 0)) := by
  obtain ⟨l1, hinit, hh⟩ := holds_init l0 m
  refine ⟨l1, hinit, ?_, ?_, ?_⟩
  · intro calls hfresh
    exact run_calls_fifo calls l1 m [] hh hfresh
  · intro es hnd
    have hf : fifo (es.map queue_call.append ++
        List.replicate es.length queue_call.remove_head) [] = (es.map some, []) := by
      rw [fifo_appends, List.nil_append, fifo_removes]
    have hfresh : appends_fresh (es.map queue_call.append ++
        List.replicate es.length queue_call.remove_head) [] :=
      fresh_appends es _ [] (by simpa using hnd) (fresh_removes _ _)
    obtain ⟨l2, m2, hr, hh2⟩ := run_calls_fifo _ l1 m [] hh hfresh
    rw [hf] at hr hh2
    exact ⟨l2, m2, hr, hh2⟩
  · intro l m1 q hq
    obtain ⟨l2, m2, hr, hh2⟩ := holds_remove_head l m1 q hq
    refine ⟨l2, m2, hr, hh2, ?_, ?_⟩
    · cases q <;> simp
    · rw [hq.2.2]
      cases q <;> simp

/-- C21 on appends and removals in turn: elements 1 and 2 are appended, a
removal gives 1, element 3 is appended, and three removals give 2, 3 and
`NULL`. -/
theorem list_fifo_order_witness :
    appends_fresh sample_queue_calls [] ∧
    ∃ l1, list_init (some sample_list) = some l1 ∧
      (run_calls sample_queue_calls l1 sample_links).map (fun r => r.1) =
        some [some 1, some 2, some 3, none] := by
  have hfresh : appends_fresh sample_queue_calls [] := by
    simp [sample_queue_calls, appends_fresh]
  refine ⟨hfresh, ?_⟩
  obtain ⟨l1, hinit, h1, _, _⟩ := list_fifo_order sample_list sample_links
  obtain ⟨l2, m2, hr, _⟩ := h1 sample_queue_calls hfresh
  exact ⟨l1, hinit, by rw [hr]; rfl⟩

/-- C29: on a well-formed list that is sorted in ascending order by
`compare_func`, a total preorder, `list_insert_sorted` of an element `e` that
is not in the list comes back with enough fuel; the list is then well formed
and sorted, its size has grown by one, and it holds the old elements in their
old order with `e` in between: every element in front of `e` compares above
`e`, so `e` stands in front of every element that compares equal to it. -/
theorem list_insert_sorted_keeps_order (cmp : elem_ptr → elem_ptr → Int) (l : list_t)
    (m : list_links) (xs : List elem_ptr) (e : elem_ptr) (fuel : Nat)
    (h : holds l m xs) (hsorted : xs.Chain' (fun a b => cmp a b ≤ 0))
    (htotal : ∀ a b, cmp a b ≤ 0 ∨ cmp b a ≤ 0)
    (htrans : ∀ a b c, cmp a b ≤ 0 → cmp b c ≤ 0 → cmp a c ≤ 0)
    (he : e ∉ xs) (hfuel : xs.length ≤ fuel) :
    ∃ l2 m2 ys zs,
      list_insert_sorted (some l) (some e) (some cmp) m fuel = some (some l2, m2) ∧
      xs = ys ++ zs ∧ holds l2 m2 (ys ++ e :: zs) ∧ well_formed l2 m2 ∧
      (ys ++ e :: zs).Chain' (fun a b => cmp a b ≤ 0) ∧
      (ys ++ e :: zs).Pairwise (fun a b => cmp a b ≤ 0) ∧
      l2.size = l.size + 1 ∧
      (∀ y ∈ ys, 0 < cmp e y) ∧ (∀ z ∈ zs, cmp e z ≤ 0) := by
  haveI : IsTrans elem_ptr (fun a b => cmp a b ≤ 0) := ⟨htrans⟩
  have hpw : xs.Pairwise (fun a b => cmp a b ≤ 0) := List.chain'_iff_pairwise.mp hsorted
  obtain ⟨l2, m2, hr, hh⟩ := holds_insert_sorted cmp l m xs e fuel h he hfuel
  have hsplit := List.takeWhile_append_dropWhile (fun c => decide (0 < cmp e c)) xs
  have hys : ∀ y ∈ xs.takeWhile (fun c => decide (0 < cmp e c)), 0 < cmp e y := by
    intro y hy
    simpa using List.mem_takeWhile_imp hy
  have hzs : ∀ z ∈ xs.dropWhile (fun c => decide (0 < cmp e c)), cmp e z ≤ 0 := by
    intro z hz
    cases hd : xs.dropWhile (fun c => decide (0 < cmp e c)) with
    | nil => rw [hd] at hz; simp at hz
    | cons c r =>
      have hne : xs.dropWhile (fun c => decide (0 < cmp e c)) ≠ [] := by simp [hd]
      have hc := List.head_dropWhile_not (fun c => decide (0 < cmp e c)) xs hne
      simp only [hd, List.head_cons, decide_eq_false_iff_not, not_lt] at hc
      rw [hd] at hz
      rcases List.mem_cons.mp hz with rfl | hzr
      · exact hc
      · have hpd : (c :: r).Pairwise (fun a b => cmp a b ≤ 0) := by
          rw [← hd]
          rw [← hsplit] at hpw
          exact (List.pairwise_append.mp hpw).2.1
        exact htrans e c z hc ((List.pairwise_cons.mp hpd).1 z hzr)
  have hpw2 : (xs.takeWhile (fun c => decide (0 < cmp e c)) ++
      e :: xs.dropWhile (fun c => decide (0 < cmp e c))).Pairwise
        (fun a b => cmp a b ≤ 0) := by
    rw [← hsplit] at hpw
    obtain ⟨hp1, hp2, hp3⟩ := List.pairwise_append.mp hpw
    refine List.pairwise_append.mpr ⟨hp1, List.pairwise_cons.mpr ⟨hzs, hp2⟩, ?_⟩
    intro a ha b hb
    rcases List.mem_cons.mp hb with rfl | hb2
    · rcases htotal a b with h1 | h1
      · exact h1
      · have := hys a ha
        omega
    · exact hp3 a ha b hb2
  refine ⟨l2, m2, _, _, hr, hsplit.symm, hh, ⟨_, hh⟩, List.chain'_iff_pairwise.mpr hpw2, hpw2,
    ?_, hys, hzs⟩
  have hl := hh.2.2
  rw [hl, h.2.2]
  have := congrArg List.length hsplit
  simp only [List.length_append, List.length_cons] at this ⊢
  omega

theorem sample_compare_total (a b : elem_ptr) :
    sample_compare a b ≤ 0 ∨ sample_compare b a ≤ 0 := by
  unfold sample_compare
  omega

theorem sample_compare_trans (a b c : elem_ptr) (h1 : sample_compare a b ≤ 0)
    (h2 : sample_compare b c ≤ 0) : sample_compare a c ≤ 0 := by
  unfold sample_compare at *
  omega

/-- C29 on the list of the elements 1 and 2, ordered by address: element 0 is
inserted in front, and the list has three elements. -/
theorem list_insert_sorted_keeps_order_witness :
    [(1 : elem_ptr), 2].Chain' (fun a b => sample_compare a b ≤ 0) ∧
    (list_insert_sorted (some sample_list) (some 0) (some sample_compare) sample_links 2).map
        (fun r => r.1) =
      some (some { head := some 0, tail := some 2, size := 3 }) ∧
    ∃ l2 m2 ys zs,
      list_insert_sorted (some sample_list) (some 0) (some sample_compare) sample_links 2 =
        some (some l2, m2) ∧
      [1, 2] = ys ++ zs ∧ holds l2 m2 (ys ++ 0 :: zs) ∧
      (ys ++ 0 :: zs).Pairwise (fun a b => sample_compare a b ≤ 0) ∧
      (∀ y ∈ ys, 0 < sample_compare 0 y) := by
  have hc : [(1 : elem_ptr), 2].Chain' (fun a b => sample_compare a b ≤ 0) := by
    simp [sample_compare]
  obtain ⟨l2, m2, ys, zs, h1, h2, h3, _, _, h6, _, h8, _⟩ :=
    list_insert_sorted_keeps_order sample_compare sample_list sample_links [1, 2] 0 2
      sample_list_holds hc sample_compare_total sample_compare_trans (by decide) (by decide)
  exact ⟨hc, rfl, l2, m2, ys, zs, h1, h2, h3, h6, h8⟩

end LeanixOS
